import Mathlib

/-!
# Xen ARM GIC: list-register engine (xen/arch/arm/gic.c) over the GICv3 backend
(xen/arch/arm/gic-v3.c)

A shallow embedding of the interrupt-virtualization engine and of the part of the
GICv3 driver it calls, followed by theorems about them.

Conventions of the embedding.

* A `struct pending_irq *` is the virtual interrupt number that `irq_to_pending`
  maps to it; the records live in the table `gic_state.pending_irqs`.
* A `struct irq_desc *` is the physical interrupt number of the descriptor; the
  descriptors live in the table `gic_state.irq_descs`.
* The intrusive lists `inflight_irqs` and `lr_pending` are lists of record ids in list
  order. `list_empty(&p->lr_queue)` is `p ∉ lr_pending`; `list_del_init` removes the id.
* `BUG()`, `BUG_ON` and a read outside any record (a reverse list walk that runs onto
  the list head) end the run: the functions return `none`.
* Bit maps are natural numbers; `lr_mask` is a `uint64_t` and only bits below
  `nr_lrs` are ever written through `set_bit`, `nr_lrs` being at most 64.
-/

namespace XenGic

/-! ## Bit operations -/

/-- Modelled from the spec: `set_bit(nr, addr)` of the bit-operation library, which is
not among the sources: the bitmap with bit `nr` set. -/
def set_bit (nr addr : Nat) : Nat := addr ||| (1 <<< nr)

/-- Modelled from the spec: `clear_bit(nr, addr)` of the bit-operation library, which is
not among the sources: the bitmap with bit `nr` cleared. -/
def clear_bit (nr addr : Nat) : Nat := addr ^^^ (addr &&& (1 <<< nr))

/-- Upward search for a bit of value `want` among `fuel` positions starting at `i`;
`size` when there is none. -/
def find_bit_from (want : Bool) (addr size : Nat) : Nat → Nat → Nat
  | 0, _ => size
  | fuel + 1, i => if addr.testBit i = want then i else find_bit_from want addr size fuel (i + 1)

/-- Modelled from the spec: `find_next_zero_bit(addr, size, offset)` of the bit-operation
library, which is not among the sources: the index of the first clear bit at or above
`offset` and below `size`, and `size` when there is none ("first unset bit in the
bitmap"). -/
def find_next_zero_bit (addr size offset : Nat) : Nat :=
  find_bit_from false addr size (size - offset) offset

/-- Modelled from the spec: `find_first_zero_bit(addr, size)`: the search from bit 0. -/
def find_first_zero_bit (addr size : Nat) : Nat := find_next_zero_bit addr size 0

/-- Modelled from the spec: `find_next_bit(addr, size, offset)` of the bit-operation
library, which is not among the sources: the index of the first set bit at or above
`offset` and below `size`, and `size` when there is none ("for every set bit in the
per-core bitmap"). -/
def find_next_bit (addr size offset : Nat) : Nat :=
  find_bit_from true addr size (size - offset) offset

/-! ## Constants -/

/-- Modelled from the spec: the Pending bit of the 2-bit list-register state
(`GICH_LR_PENDING` of asm-arm/gic.h, which is not among the sources). -/
def GICH_LR_PENDING : Nat := 1

/-- Modelled from the spec: the Active bit of the 2-bit list-register state
(`GICH_LR_ACTIVE` of asm-arm/gic.h, which is not among the sources). -/
def GICH_LR_ACTIVE : Nat := 2

/-- Modelled from the spec: the slot value "none" (`GIC_INVALID_LR` of asm-arm/vgic.h,
which is not among the sources; `p->lr` is a `uint8_t` and the value is `(uint8_t)~0`). -/
def GIC_INVALID_LR : Nat := 255

/-- Modelled from the spec: the underflow-interrupt enable bit of the hypervisor control
register (`GICH_HCR_UIE` of asm-arm/gic.h, which is not among the sources). -/
def GICH_HCR_UIE : Nat := 2

def GICH_LR_VIRTUAL_MASK : Nat := 0xffff
def GICH_LR_VIRTUAL_SHIFT : Nat := 0
def GICH_LR_PHYSICAL_MASK : Nat := 0x3ff
def GICH_LR_PHYSICAL_SHIFT : Nat := 32
def GICH_LR_STATE_MASK : Nat := 0x3
def GICH_LR_STATE_SHIFT : Nat := 62
def GICH_LR_PRIORITY_MASK : Nat := 0xff
def GICH_LR_PRIORITY_SHIFT : Nat := 48
def GICH_LR_HW_MASK : Nat := 0x1
def GICH_LR_HW_SHIFT : Nat := 61
def GICH_LR_GRP_MASK : Nat := 0x1
def GICH_LR_GRP_SHIFT : Nat := 60
def GICH_LR_GRP1 : Nat := 1 <<< 60
def GICH_LR_HW : Nat := 1 <<< 61

/-! ## Data model -/

/-- The status bits of a `struct pending_irq` (`GIC_IRQ_GUEST_*`), one field per bit. -/
structure guest_irq_status where
  queued : Bool
  active : Bool
  visible : Bool
  enabled : Bool
  migrating : Bool
  deriving DecidableEq, Repr

/-- The record `struct pending_irq`; `desc` is the physical source, when there is one. -/
structure pending_irq where
  irq : Nat
  priority : Nat
  status : guest_irq_status
  lr : Nat
  desc : Option Nat
  deriving DecidableEq, Repr

/-- The handler role of a physical interrupt descriptor: `no_irq_type`, the two types of
gic-v3.c (`gicv3_host_irq_type`, `gicv3_guest_irq_type`) and the two LPI types of the ITS
driver (`its_host_lpi_type`, `its_guest_lpi_type`). -/
inductive hw_irq_controller where
  | no_irq_type
  | host_irq_type
  | guest_irq_type
  | its_host_lpi_type
  | its_guest_lpi_type
  deriving DecidableEq, Repr

/-- The descriptor `struct irq_desc`: the status bits `_IRQ_DISABLED`, `_IRQ_INPROGRESS`
and `_IRQ_GUEST`, the handler and the CPU the line is routed to. -/
structure irq_desc where
  irq : Nat
  disabled : Bool
  inprogress : Bool
  guest : Bool
  handler : hw_irq_controller
  affinity : Nat
  deriving DecidableEq, Repr

/-- The decoded list register `struct gic_lr`. -/
structure gic_lr where
  pirq : Nat
  virq : Nat
  priority : Nat
  state : Nat
  hw_status : Nat
  grp : Nat
  deriving DecidableEq, Repr

/-- The state the engine works on: the executing core (`lr_mask`, the list registers
`ICH_LR<n>_EL2`, `ICH_HCR_EL2`), the vCPU `v` (its records and its two lists) and the
descriptors of the physical interrupts. -/
structure gic_state where
  /-- The field `gic_hw_ops->info->nr_lrs`. -/
  nr_lrs : Nat
  /-- Whether `current->domain->arch.vgic.version == GIC_V3`. -/
  vgic_version_v3 : Bool
  /-- The per-core `this_cpu(lr_mask)`. -/
  lr_mask : Nat
  /-- The system registers `ICH_LR0_EL2` .. `ICH_LR15_EL2`, by index. -/
  ich_lr : Nat → Nat
  /-- The system register `ICH_HCR_EL2`. -/
  ich_hcr : Nat
  /-- The records `irq_to_pending(v, irq)`. -/
  pending_irqs : Nat → pending_irq
  /-- The list `v->arch.vgic.inflight_irqs`. -/
  inflight_irqs : List Nat
  /-- The list `v->arch.vgic.lr_pending`. -/
  lr_pending : List Nat
  /-- The physical interrupt descriptors, by interrupt number. -/
  irq_descs : Nat → irq_desc
  /-- The processor of `vgic_get_target_vcpu(v, irq)`. -/
  target_processor : Nat → Nat

/-! ## GICv3 backend: list registers (gic-v3.c) -/

/-- The function `gicv3_ich_read_lr`: registers 0..15, `BUG()` for any other index. -/
def gicv3_ich_read_lr (s : gic_state) (lr : Int) : Option Nat :=
  if 0 ≤ lr ∧ lr ≤ 15 then some (s.ich_lr lr.toNat) else none

/-- The function `gicv3_ich_write_lr`: registers 0..15; for any other index the
`default:` case returns without writing. -/
def gicv3_ich_write_lr (s : gic_state) (lr : Int) (val : Nat) : gic_state :=
  if 0 ≤ lr ∧ lr ≤ 15 then { s with ich_lr := Function.update s.ich_lr lr.toNat val } else s

/-- The 64-bit value that `gicv3_update_lr` builds for record `p` and state `state`. -/
def gicv3_lr_val (s : gic_state) (p : pending_irq) (state : Nat) : Nat :=
  let val := (state &&& 0x3) <<< GICH_LR_STATE_SHIFT
  let val := if s.vgic_version_v3 then val ||| GICH_LR_GRP1 else val
  let val := val ||| ((p.priority &&& 0xff) <<< GICH_LR_PRIORITY_SHIFT)
  let val := val ||| ((p.irq &&& GICH_LR_VIRTUAL_MASK) <<< GICH_LR_VIRTUAL_SHIFT)
  match p.desc with
  | some d =>
    val ||| (GICH_LR_HW |||
      (((s.irq_descs d).irq &&& GICH_LR_PHYSICAL_MASK) <<< GICH_LR_PHYSICAL_SHIFT))
  | none => val

/-- The function `gicv3_update_lr`: `BUG_ON(lr >= nr_lrs)`, `BUG_ON(lr < 0)`, then the
value is written. -/
def gicv3_update_lr (s : gic_state) (lr : Int) (p : pending_irq) (state : Nat) :
    Option gic_state :=
  if lr ≥ (s.nr_lrs : Int) then none
  else if lr < 0 then none
  else some (gicv3_ich_write_lr s lr (gicv3_lr_val s p state))

/-- The function `gicv3_clear_lr`. -/
def gicv3_clear_lr (s : gic_state) (lr : Int) : gic_state :=
  gicv3_ich_write_lr s lr 0

/-- The field decoding of `gicv3_read_lr`. -/
def gicv3_decode_lr (lrv : Nat) : gic_lr :=
  { pirq := (lrv >>> GICH_LR_PHYSICAL_SHIFT) &&& GICH_LR_PHYSICAL_MASK
    virq := (lrv >>> GICH_LR_VIRTUAL_SHIFT) &&& GICH_LR_VIRTUAL_MASK
    priority := (lrv >>> GICH_LR_PRIORITY_SHIFT) &&& GICH_LR_PRIORITY_MASK
    state := (lrv >>> GICH_LR_STATE_SHIFT) &&& GICH_LR_STATE_MASK
    hw_status := (lrv >>> GICH_LR_HW_SHIFT) &&& GICH_LR_HW_MASK
    grp := (lrv >>> GICH_LR_GRP_SHIFT) &&& GICH_LR_GRP_MASK }

/-- The function `gicv3_read_lr`. -/
def gicv3_read_lr (s : gic_state) (lr : Int) : Option gic_lr :=
  match gicv3_ich_read_lr s lr with
  | none => none
  | some lrv => some (gicv3_decode_lr lrv)

/-- The 64-bit value that `gicv3_write_lr` builds from the fields. -/
def gicv3_encode_lr (lr : gic_lr) : Nat :=
  ((lr.pirq &&& GICH_LR_PHYSICAL_MASK) <<< GICH_LR_PHYSICAL_SHIFT) |||
  ((lr.virq &&& GICH_LR_VIRTUAL_MASK) <<< GICH_LR_VIRTUAL_SHIFT) |||
  ((lr.priority &&& GICH_LR_PRIORITY_MASK) <<< GICH_LR_PRIORITY_SHIFT) |||
  ((lr.state &&& GICH_LR_STATE_MASK) <<< GICH_LR_STATE_SHIFT) |||
  ((lr.hw_status &&& GICH_LR_HW_MASK) <<< GICH_LR_HW_SHIFT) |||
  ((lr.grp &&& GICH_LR_GRP_MASK) <<< GICH_LR_GRP_SHIFT)

/-- The function `gicv3_write_lr`. -/
def gicv3_write_lr (s : gic_state) (lr_reg : Int) (lr : gic_lr) : gic_state :=
  gicv3_ich_write_lr s lr_reg (gicv3_encode_lr lr)

/-- The function `gicv3_hcr_status` on the 32-bit `ICH_HCR_EL2`. -/
def gicv3_hcr_status (s : gic_state) (flag : Nat) (status : Bool) : gic_state :=
  if status then { s with ich_hcr := (s.ich_hcr ||| flag) % 2 ^ 32 }
  else { s with ich_hcr := s.ich_hcr &&& (0xffffffff ^^^ flag) }

/-! ## The engine (gic.c) -/

/-- The function `gic_set_lr`: the backend writes the register, then the record is marked
`VISIBLE`, loses `QUEUED` and gets the slot. -/
def gic_set_lr (s : gic_state) (lr : Nat) (p : Nat) (state : Nat) : Option gic_state :=
  match gicv3_update_lr s (lr : Int) (s.pending_irqs p) state with
  | none => none
  | some s1 =>
    let r := s1.pending_irqs p
    some { s1 with
      pending_irqs := Function.update s1.pending_irqs p
        { r with status := { r.status with visible := true, queued := false }, lr := lr } }

/-- The list walk of `gic_add_to_lr_pending`: `n` goes in front of the first entry whose
priority value is greater than its own, at the tail when there is none. -/
def lr_pending_insert (prio : Nat → Nat) (n : Nat) : List Nat → List Nat
  | [] => [n]
  | iter :: rest =>
    if prio iter > prio n then n :: iter :: rest
    else iter :: lr_pending_insert prio n rest

/-- The function `gic_add_to_lr_pending`. -/
def gic_add_to_lr_pending (s : gic_state) (n : Nat) : gic_state :=
  if n ∈ s.lr_pending then s
  else { s with
    lr_pending := lr_pending_insert (fun k => (s.pending_irqs k).priority) n s.lr_pending }

/-- The function `gic_raise_guest_irq`; `v_is_current` is the test `v == current`. The
argument `priority` is not used by the body. -/
def gic_raise_guest_irq (s : gic_state) (v_is_current : Bool) (virtual_irq : Nat)
    (_priority : Nat) : Option gic_state :=
  if v_is_current ∧ s.lr_pending = [] then
    let i := find_first_zero_bit s.lr_mask s.nr_lrs
    if i < s.nr_lrs then
      gic_set_lr { s with lr_mask := set_bit i s.lr_mask } i virtual_irq GICH_LR_PENDING
    else some (gic_add_to_lr_pending s virtual_irq)
  else some (gic_add_to_lr_pending s virtual_irq)

/-- Modelled from the spec: `irq_set_affinity(desc, mask)` of the interrupt subsystem,
which is not among the sources: "apply the new affinity to its physical source"; nothing
happens without a descriptor. -/
def irq_set_affinity (s : gic_state) (desc : Option Nat) (cpu : Nat) : gic_state :=
  match desc with
  | none => s
  | some d =>
    { s with irq_descs := Function.update s.irq_descs d { s.irq_descs d with affinity := cpu } }

/-- The record update `p->field = ...` for the record `p`. -/
def set_pending (s : gic_state) (p : Nat) (r : pending_irq) : gic_state :=
  { s with pending_irqs := Function.update s.pending_irqs p r }

/-- The function `gic_update_one_lr`; `v_is_current` is the test `v == current` made by
the nested `gic_raise_guest_irq`. -/
def gic_update_one_lr (s : gic_state) (v_is_current : Bool) (i : Nat) : Option gic_state :=
  match gicv3_read_lr s (i : Int) with
  | none => none
  | some lr_val =>
    let irq := lr_val.virq
    let p := s.pending_irqs irq
    if lr_val.state &&& GICH_LR_ACTIVE ≠ 0 then
      let p1 := { p with status := { p.status with active := true } }
      if p1.status.enabled ∧ p1.status.queued then
        let p2 := { p1 with status := { p1.status with queued := false } }
        let s2 := set_pending s irq p2
        if p2.desc = none then
          some (gicv3_write_lr s2 (i : Int)
            { lr_val with state := lr_val.state ||| GICH_LR_PENDING })
        else some s2
      else some (set_pending s irq p1)
    else if lr_val.state &&& GICH_LR_PENDING ≠ 0 then
      some (set_pending s irq { p with status := { p.status with queued := false } })
    else
      let s1 := gicv3_clear_lr s (i : Int)
      let s2 := { s1 with lr_mask := clear_bit i s1.lr_mask }
      let s3 := match p.desc with
        | some d =>
          { s2 with
            irq_descs := Function.update s2.irq_descs d { s2.irq_descs d with inprogress := false } }
        | none => s2
      let p3 := { p with
        status := { p.status with visible := false, active := false }, lr := GIC_INVALID_LR }
      let s4 := set_pending s3 irq p3
      if p3.status.enabled ∧ p3.status.queued ∧ ¬ p3.status.migrating then
        gic_raise_guest_irq s4 v_is_current irq p3.priority
      else
        let s5 := { s4 with inflight_irqs := s4.inflight_irqs.filter (fun k => k != irq) }
        if p3.status.migrating then
          let s6 := set_pending s5 irq { p3 with status := { p3.status with migrating := false } }
          some (irq_set_affinity s6 p3.desc (s6.target_processor irq))
        else some s5

/-- The loop of `gic_clear_lrs`: `while ((i = find_next_bit(...)) < nr_lrs)`. The index
grows with every round, so `nr_lrs` rounds are enough; the first argument counts them. -/
def gic_clear_lrs_loop (v_is_current : Bool) : Nat → Nat → gic_state → Option gic_state
  | 0, i, s => if find_next_bit s.lr_mask s.nr_lrs i < s.nr_lrs then none else some s
  | rounds + 1, i, s =>
    let i1 := find_next_bit s.lr_mask s.nr_lrs i
    if i1 < s.nr_lrs then
      match gic_update_one_lr s v_is_current i1 with
      | none => none
      | some s1 => gic_clear_lrs_loop v_is_current rounds (i1 + 1) s1
    else some s

/-- The function `gic_clear_lrs`; `is_idle_vcpu` is the test of the same name. -/
def gic_clear_lrs (s : gic_state) (v_is_current : Bool) (is_idle_vcpu : Bool) :
    Option gic_state :=
  if is_idle_vcpu then some s
  else gic_clear_lrs_loop v_is_current s.nr_lrs 0 (gicv3_hcr_status s GICH_HCR_UIE false)

/-- The entry following the first occurrence of `p` in a list: `p->lr_queue.next`, and
`none` when that is the list head. -/
def list_next (p : Nat) : List Nat → Option Nat
  | [] => none
  | a :: rest => if a = p then rest.head? else list_next p rest

/-- How the victim search of `gic_restore_pending_irqs` leaves its loop. -/
inductive victim_scan where
  /-- The `goto found` exit with the victim. -/
  | found (p_r : Nat)
  /-- The `goto out` exit inside the loop: an entry of the candidate's priority. -/
  | same_priority
  /-- The loop ran over all the entries given to it. -/
  | exhausted
  deriving DecidableEq, Repr

/-- The body of `list_for_each_entry_reverse( p_r, inflight_r, inflight )` over the
entries in the order they are visited. -/
def scan_for_victim (s : gic_state) (p : Nat) : List Nat → victim_scan
  | [] => victim_scan.exhausted
  | p_r :: rest =>
    if (s.pending_irqs p_r).priority = (s.pending_irqs p).priority then
      victim_scan.same_priority
    else if (s.pending_irqs p_r).status.visible ∧ ¬ (s.pending_irqs p_r).status.active then
      victim_scan.found p_r
    else scan_for_victim s p rest

/-- The entries that the reverse walk from `inflight_r` visits before it reaches the head
of `inflight_irqs`: the whole list backwards when `inflight_r` is the head (`none`), the
entries in front of the node backwards when it is a node. -/
def reverse_walk (s : gic_state) (inflight_r : Option Nat) : List Nat :=
  match inflight_r with
  | none => s.inflight_irqs.reverse
  | some k => (s.inflight_irqs.takeWhile (fun a => a != k)).reverse

/-- One eviction: the victim and the candidate that takes its slot, with the records as
they were when the victim was chosen, and the slot. -/
structure eviction where
  victim : Nat
  candidate : Nat
  victim_rec : pending_irq
  candidate_rec : pending_irq
  lr : Nat
  deriving DecidableEq, Repr

/-- The outcome of one round of the admission loop. -/
inductive restore_round where
  /-- The round left the loop (`goto out`, or a `BUG` when the state is `none`). -/
  | stop (log : List eviction) (s : Option gic_state)
  /-- The round reached `lrs--` with this state, slot hint and scan start. -/
  | next (log : List eviction) (s : gic_state) (lr : Nat) (inflight_r : Option Nat)

/-- One round of the loop of `gic_restore_pending_irqs` for the entry `p`, up to the
statement `lrs--`. A reverse walk that starts at a node and finds neither exit runs onto
the list head, which is no record: the run ends there (`none`). -/
def gic_restore_round (s : gic_state) (p : Nat) (lr : Nat) (inflight_r : Option Nat) :
    restore_round :=
  let finish (log : List eviction) (s1 : gic_state) (lr1 : Nat) (ir : Option Nat) :
      restore_round :=
    match gic_set_lr s1 lr1 p GICH_LR_PENDING with
    | none => restore_round.stop log none
    | some s2 =>
      restore_round.next log
        { s2 with
          lr_pending := s2.lr_pending.filter (fun k => k != p)
          lr_mask := set_bit lr1 s2.lr_mask } lr1 ir
  let lr0 := find_next_zero_bit s.lr_mask s.nr_lrs lr
  if lr0 ≥ s.nr_lrs then
    match scan_for_victim s p (reverse_walk s inflight_r) with
    | victim_scan.same_priority => restore_round.stop [] (some s)
    | victim_scan.exhausted =>
      match inflight_r with
      | none => restore_round.stop [] (some s)
      | some _ => restore_round.stop [] none
    | victim_scan.found p_r =>
      let r := s.pending_irqs p_r
      let s1 := set_pending s p_r
        { r with lr := GIC_INVALID_LR, status := { r.status with queued := true, visible := false } }
      let s2 := gic_add_to_lr_pending s1 p_r
      finish [{ victim := p_r, candidate := p, victim_rec := r,
                candidate_rec := s.pending_irqs p, lr := r.lr }] s2 r.lr (some p_r)
  else finish [] s lr0 inflight_r

/-- The loop `list_for_each_entry_safe ( p, t, &v->arch.vgic.lr_pending, lr_queue )` of
`gic_restore_pending_irqs`; the first argument is the counter `lrs`, which starts at
`nr_lrs`. The successor `t` is read before the body runs. With `nr_lrs = 0` no round
can reach `lrs--` (`gicv3_update_lr` stops at `BUG_ON(lr >= nr_lrs)`), so the counter
never passes zero. -/
def gic_restore_loop : Nat → gic_state → Nat → Nat → Option Nat → List eviction × Option gic_state
  | 0, s, p, lr, inflight_r =>
    match gic_restore_round s p lr inflight_r with
    | restore_round.stop log r => (log, r)
    | restore_round.next log _ _ _ => (log, none)
  | lrs + 1, s, p, lr, inflight_r =>
    let t := list_next p s.lr_pending
    match gic_restore_round s p lr inflight_r with
    | restore_round.stop log r => (log, r)
    | restore_round.next log s1 lr1 ir =>
      if lrs = 0 then (log, some s1)
      else
        match t with
        | none => (log, some s1)
        | some t1 =>
          let rest := gic_restore_loop lrs s1 t1 lr1 ir
          (log ++ rest.1, rest.2)

/-- The function `gic_restore_pending_irqs` together with the evictions it performs. -/
def gic_restore_pending_irqs_run (s : gic_state) : List eviction × Option gic_state :=
  match s.lr_pending with
  | [] => ([], some s)
  | p :: _ => gic_restore_loop s.nr_lrs s p 0 none

/-- The function `gic_restore_pending_irqs`. -/
def gic_restore_pending_irqs (s : gic_state) : Option gic_state :=
  (gic_restore_pending_irqs_run s).2

/-- The evictions of one pass of `gic_restore_pending_irqs`, in order. -/
def gic_restore_pending_irqs_evictions (s : gic_state) : List eviction :=
  (gic_restore_pending_irqs_run s).1

/-! ## Predicates and observations used by the theorems -/

/-- The fields of the value that `gicv3_update_lr` writes for record `p` and `state`, as
`gicv3_read_lr` decodes them. -/
def lr_val_fields (s : gic_state) (p : pending_irq) (state : Nat) : gic_lr :=
  { pirq := match p.desc with
      | some d => (s.irq_descs d).irq % 1024
      | none => 0
    virq := p.irq % 65536
    priority := p.priority % 256
    state := state % 4
    hw_status := if p.desc.isSome then 1 else 0
    grp := if s.vgic_version_v3 then 1 else 0 }

/-- The priority value of the record `k`. -/
def prio (s : gic_state) (k : Nat) : Nat := (s.pending_irqs k).priority

/-- A list of records is sorted by non-decreasing priority value. -/
def sorted_by_priority (s : gic_state) (l : List Nat) : Prop :=
  l.Pairwise (fun a b => prio s a ≤ prio s b)

instance (s : gic_state) (l : List Nat) : Decidable (sorted_by_priority s l) := by
  unfold sorted_by_priority; infer_instance

/-! ## Concrete states -/

/-- A record without physical source: `ENABLED`, and either `VISIBLE` in slot `lr` or
`QUEUED` without a slot. -/
def mk_pending (irq priority : Nat) (visible : Bool) (lr : Nat) : pending_irq :=
  { irq := irq, priority := priority,
    status := { queued := !visible, active := false, visible := visible, enabled := true,
                migrating := false },
    lr := lr, desc := none }

/-- A record that is not in flight. -/
def idle_pending (irq : Nat) : pending_irq :=
  { irq := irq, priority := 0,
    status := { queued := false, active := false, visible := false, enabled := false,
                migrating := false },
    lr := GIC_INVALID_LR, desc := none }

/-- A descriptor that is routed nowhere. -/
def idle_desc (irq : Nat) : irq_desc :=
  { irq := irq, disabled := true, inprogress := false, guest := false,
    handler := hw_irq_controller.no_irq_type, affinity := 0 }

/-- Two list registers, both taken: interrupt 1 (priority 10) in slot 0 and interrupt 2
(priority 20) in slot 1; interrupts 3 (priority 15) and 4 (priority 30) wait on
`lr_pending`. This is the state after raising 1, 2, 3, 4 in this order on the running
vCPU. -/
def two_slot_state : gic_state :=
  { nr_lrs := 2, vgic_version_v3 := true, lr_mask := 3,
    ich_lr := fun i =>
      if i = 0 then gicv3_encode_lr
        { pirq := 0, virq := 1, priority := 10, state := 1, hw_status := 0, grp := 1 }
      else if i = 1 then gicv3_encode_lr
        { pirq := 0, virq := 2, priority := 20, state := 1, hw_status := 0, grp := 1 }
      else 0,
    ich_hcr := 0,
    pending_irqs := fun k =>
      if k = 1 then mk_pending 1 10 true 0
      else if k = 2 then mk_pending 2 20 true 1
      else if k = 3 then mk_pending 3 15 false GIC_INVALID_LR
      else if k = 4 then mk_pending 4 30 false GIC_INVALID_LR
      else idle_pending k,
    inflight_irqs := [1, 3, 2, 4], lr_pending := [3, 4],
    irq_descs := idle_desc, target_processor := fun _ => 0 }

/-- Four free list registers and nothing in flight. -/
def idle_state : gic_state :=
  { nr_lrs := 4, vgic_version_v3 := true, lr_mask := 0, ich_lr := fun _ => 0, ich_hcr := 0,
    pending_irqs := idle_pending, inflight_irqs := [], lr_pending := [],
    irq_descs := idle_desc, target_processor := fun _ => 0 }

/-- The evictions of one round. -/
def restore_round.log : restore_round → List eviction
  | restore_round.stop log _ => log
  | restore_round.next log _ _ _ => log

/-- The state of `two_slot_state` with both slot holders `ACTIVE`. -/
def two_slot_active_state : gic_state :=
  { two_slot_state with
    pending_irqs := fun k =>
      let r := two_slot_state.pending_irqs k
      if k = 1 ∨ k = 2 then { r with status := { r.status with active := true } } else r }

/-- Two list registers, both taken: interrupt 1 (priority 10) in slot 0 and interrupt 2
(priority 20) in slot 1; interrupt 5, also of priority 20, waits on `lr_pending`. -/
def same_priority_state : gic_state :=
  { two_slot_state with
    pending_irqs := fun k =>
      if k = 5 then mk_pending 5 20 false GIC_INVALID_LR
      else if k = 3 ∨ k = 4 then idle_pending k
      else two_slot_state.pending_irqs k
    inflight_irqs := [1, 2, 5], lr_pending := [5] }

/-- The state of `two_slot_state` after the guest has taken interrupt 1: list register 0
reads back Active. -/
def slot0_active_state : gic_state :=
  { two_slot_state with
    ich_lr := Function.update two_slot_state.ich_lr 0 (gicv3_encode_lr
      { pirq := 0, virq := 1, priority := 10, state := GICH_LR_ACTIVE, hw_status := 0,
        grp := 1 }) }

/-- The state `slot0_active_state` with interrupt 1 asserted again (`QUEUED`). -/
def slot0_active_queued_state : gic_state :=
  { slot0_active_state with
    pending_irqs := fun k =>
      let r := slot0_active_state.pending_irqs k
      if k = 1 then { r with status := { r.status with queued := true } } else r }

/-- The state `slot0_active_queued_state` with interrupt 1 disabled by the guest. -/
def slot0_active_disabled_state : gic_state :=
  { slot0_active_queued_state with
    pending_irqs := fun k =>
      let r := slot0_active_queued_state.pending_irqs k
      if k = 1 then { r with status := { r.status with enabled := false } } else r }

/-- The state of `two_slot_state` after the guest has completed interrupt 1: list
register 0 reads back neither Pending nor Active. -/
def slot0_retired_state : gic_state :=
  { two_slot_state with
    ich_lr := Function.update two_slot_state.ich_lr 0 (gicv3_encode_lr
      { pirq := 0, virq := 1, priority := 10, state := 0, hw_status := 0, grp := 1 }) }

/-- The state that the last branch of `gic_update_one_lr` (the slot reads back neither
Pending nor Active) has reached after `p->lr = GIC_INVALID_LR`, for slot `i` and the record
`irq` named by the register: the statements from `clear_lr(i)` on, in order. -/
def retired_slot_state (s : gic_state) (i : Nat) (irq : Nat) : gic_state :=
  let p := s.pending_irqs irq
  let s1 := gicv3_clear_lr s (i : Int)
  let s2 := { s1 with lr_mask := clear_bit i s1.lr_mask }
  let s3 := match p.desc with
    | some d =>
      { s2 with
        irq_descs := Function.update s2.irq_descs d { s2.irq_descs d with inprogress := false } }
    | none => s2
  set_pending s3 irq
    { p with status := { p.status with visible := false, active := false }, lr := GIC_INVALID_LR }

/-- Slot exclusivity: for every slot `i < nr_lrs`, bit `i` of `lr_mask` is set if and only
if exactly one record is `VISIBLE` with `lr = i`; no two `VISIBLE` records have the same
`lr`; and no bit at or above `nr_lrs` is set. -/
def slot_exclusive (s : gic_state) : Prop :=
  (∀ i, i < s.nr_lrs → (s.lr_mask.testBit i = true ↔
    ∃! k, (s.pending_irqs k).status.visible = true ∧ (s.pending_irqs k).lr = i)) ∧
  (∀ k1 k2, (s.pending_irqs k1).status.visible = true →
    (s.pending_irqs k2).status.visible = true →
    (s.pending_irqs k1).lr = (s.pending_irqs k2).lr → k1 = k2) ∧
  (∀ i, s.nr_lrs ≤ i → s.lr_mask.testBit i = false)

/-- Slot exclusivity over the bits, the `VISIBLE` flags and the slots alone, with the
equivalence of the first part split into its two directions. -/
def slot_exclusive_core (n : Nat) (bits : Nat → Bool) (vis : Nat → Bool) (lrf : Nat → Nat) :
    Prop :=
  (∀ i, i < n → bits i = true → ∃ k, vis k = true ∧ lrf k = i) ∧
  (∀ k, vis k = true → lrf k < n → bits (lrf k) = true) ∧
  (∀ k1 k2, vis k1 = true → vis k2 = true → lrf k1 = lrf k2 → k1 = k2) ∧
  (∀ i, n ≤ i → bits i = false)

/-- Each occupied list register holds the virtual id of the record whose `lr` is that
slot. -/
def lr_holds_record (s : gic_state) : Prop :=
  ∀ i, i < s.nr_lrs → s.lr_mask.testBit i = true →
    ∀ k, (s.pending_irqs k).status.visible = true → (s.pending_irqs k).lr = i →
      (gicv3_decode_lr (s.ich_lr i)).virq = k

/-- The field `irq` of the record that `irq_to_pending(v, irq)` returns is `irq`. -/
def records_well_formed (s : gic_state) : Prop :=
  ∀ k, (s.pending_irqs k).irq = k

/-- No record on `lr_pending` is `VISIBLE`. -/
def lr_pending_not_visible (s : gic_state) : Prop :=
  ∀ k ∈ s.lr_pending, (s.pending_irqs k).status.visible = false

instance (s : gic_state) : Decidable (lr_pending_not_visible s) := by
  unfold lr_pending_not_visible; infer_instance

/-- Two list registers, slot 0 taken by interrupt 1, which is `VISIBLE` and at the same
time on `lr_pending`. -/
def visible_on_overflow_state : gic_state :=
  { nr_lrs := 2, vgic_version_v3 := true, lr_mask := 1,
    ich_lr := fun i =>
      if i = 0 then gicv3_encode_lr
        { pirq := 0, virq := 1, priority := 10, state := 1, hw_status := 0, grp := 1 }
      else 0,
    ich_hcr := 0,
    pending_irqs := fun k => if k = 1 then mk_pending 1 10 true 0 else idle_pending k,
    inflight_irqs := [1], lr_pending := [1],
    irq_descs := idle_desc, target_processor := fun _ => 0 }

/-! ## Routing of physical interrupts (gic.c) -/

/-- Modelled from the spec: the first number of the "extended/message-signaled" range
(`FIRST_GIC_LPI` of asm-arm/gic.h, which is not among the sources; LPI numbers start at
8192). -/
def FIRST_GIC_LPI : Nat := 8192

/-- Modelled from the spec: the number of per-core interrupt lines (`NR_GIC_LOCAL_IRQS`
of asm-arm/gic.h, which is not among the sources): 16 inter-core signals and 16 private
lines. -/
def NR_GIC_LOCAL_IRQS : Nat := 32

/-- Modelled from the spec: the "busy/conflict result" (`EBUSY` of xen/errno.h, which is
not among the sources). -/
def EBUSY : Int := 16

/-- The function `gic_is_lpi`; `nr_irq_ids` is `gic_nr_irq_ids()`. -/
def gic_is_lpi (nr_irq_ids irq : Nat) : Bool :=
  decide (irq ≥ FIRST_GIC_LPI ∧ irq < nr_irq_ids)

/-- The function `gicv3_get_host_irq_type`. -/
def gicv3_get_host_irq_type (nr_irq_ids irq : Nat) : hw_irq_controller :=
  if gic_is_lpi nr_irq_ids irq then hw_irq_controller.its_host_lpi_type
  else hw_irq_controller.host_irq_type

/-- The function `gicv3_get_guest_irq_type`. -/
def gicv3_get_guest_irq_type (nr_irq_ids irq : Nat) : hw_irq_controller :=
  if gic_is_lpi nr_irq_ids irq then hw_irq_controller.its_guest_lpi_type
  else hw_irq_controller.guest_irq_type

/-- The function `gicv3_set_irq_properties` on the descriptor table: of the distributor
registers it writes, the routing register `GICD_IROUTER` of a shared line is the field
`affinity`; configuration and priority registers are not part of the state, and the LPI
case is in the ITS driver, which is not among the sources. -/
def gicv3_set_irq_properties (s : gic_state) (nr_irq_ids : Nat) (desc : Nat) (cpu : Nat) :
    gic_state :=
  let d := s.irq_descs desc
  if gic_is_lpi nr_irq_ids d.irq then s
  else if d.irq ≥ NR_GIC_LOCAL_IRQS then
    { s with irq_descs := Function.update s.irq_descs desc { d with affinity := cpu } }
  else s

/-- What a routing call returns: the `int` result, the state, and whether the rank lock
taken by `vgic_lock_rank` is still held at the return. -/
structure routing_result where
  ret : Int
  state : gic_state
  rank_lock_held : Bool

/-- The function `gic_route_irq_to_guest`: `desc` is the descriptor, `virq` the virtual
interrupt; the record is `irq_to_pending(v_target, virq)`. -/
def gic_route_irq_to_guest (s : gic_state) (nr_irq_ids : Nat) (virq : Nat) (desc : Nat)
    (_priority : Nat) : routing_result :=
  let p := s.pending_irqs virq
  if p.desc.isSome ∨ p.status.enabled then
    { ret := -EBUSY, state := s, rank_lock_held := false }
  else
    let d := s.irq_descs desc
    let s1 := { s with
      irq_descs := Function.update s.irq_descs desc
        { d with handler := gicv3_get_guest_irq_type nr_irq_ids d.irq, guest := true } }
    let s2 := gicv3_set_irq_properties s1 nr_irq_ids desc (s1.target_processor virq)
    let s3 := set_pending s2 virq { s2.pending_irqs virq with desc := some desc }
    { ret := 0, state := s3, rank_lock_held := false }

/-- The call `desc->handler->shutdown(desc)`: for the two types of gic-v3.c it is
`gicv3_irq_shutdown`, which masks the line and sets `_IRQ_DISABLED`; the other types are
not among the sources and leave the descriptor as it is. -/
def handler_shutdown (d : irq_desc) : irq_desc :=
  match d.handler with
  | hw_irq_controller.host_irq_type => { d with disabled := true }
  | hw_irq_controller.guest_irq_type => { d with disabled := true }
  | _ => d

/-- The function `gic_remove_irq_from_guest`; `is_dying` is `d->is_dying`. The return in
the middle of the `else` branch leaves without `vgic_unlock_rank`. -/
def gic_remove_irq_from_guest (s : gic_state) (is_dying : Bool) (virq : Nat) (desc : Nat) :
    routing_result :=
  let finish (d : irq_desc) : routing_result :=
    let s1 := { s with
      irq_descs := Function.update s.irq_descs desc
        { d with guest := false, handler := hw_irq_controller.no_irq_type } }
    let s2 := set_pending s1 virq { s1.pending_irqs virq with desc := none }
    { ret := 0, state := s2, rank_lock_held := false }
  let d := s.irq_descs desc
  if is_dying then
    finish { (handler_shutdown d) with inprogress := false }
  else if d.inprogress ∨ ¬ d.disabled then
    { ret := -EBUSY, state := s, rank_lock_held := true }
  else finish d

/-! ## Acceptance of physical interrupts (gic.c) -/

/-- Modelled from the spec: the three inter-core signals "event-check, state-dump,
cross-core-call" (`enum gic_sgi` of asm-arm/gic.h, which is not among the sources). -/
def GIC_SGI_EVENT_CHECK : Nat := 0

/-- Modelled from the spec: see `GIC_SGI_EVENT_CHECK`. -/
def GIC_SGI_DUMP_STATE : Nat := 1

/-- Modelled from the spec: see `GIC_SGI_EVENT_CHECK`. -/
def GIC_SGI_CALL_FUNCTION : Nat := 2

/-- A call made by `gic_interrupt` for an acknowledged value. -/
inductive gic_dispatch where
  | do_sgi (sgi : Nat)
  | do_IRQ (irq : Nat)
  deriving DecidableEq, Repr

/-- How a run of `gic_interrupt` over the acknowledged values it is given ends. -/
inductive gic_interrupt_exit where
  /-- The `break` of the last `else`. -/
  | loop_ended
  /-- The `panic` of `do_sgi`. -/
  | panicked
  /-- The values are used up and the loop is at `read_irq()`. -/
  | reading
  deriving DecidableEq, Repr

/-- The calls of one run in order, and its end. -/
structure gic_interrupt_run where
  dispatched : List gic_dispatch
  exit : gic_interrupt_exit
  deriving DecidableEq, Repr

/-- Whether `do_sgi` returns: its `switch` has the three cases and `default: panic`. -/
def do_sgi_returns (sgi : Nat) : Bool :=
  sgi = GIC_SGI_EVENT_CHECK ∨ sgi = GIC_SGI_DUMP_STATE ∨ sgi = GIC_SGI_CALL_FUNCTION

/-- The function `gic_interrupt` over the values that `read_irq()` returns, in order. -/
def gic_interrupt (nr_irq_ids : Nat) : List Nat → gic_interrupt_run
  | [] => { dispatched := [], exit := gic_interrupt_exit.reading }
  | irq :: rest =>
    if (irq ≥ 16 ∧ irq < 1020) ∨ gic_is_lpi nr_irq_ids irq = true then
      let r := gic_interrupt nr_irq_ids rest
      { r with dispatched := gic_dispatch.do_IRQ irq :: r.dispatched }
    else if irq < 16 then
      if do_sgi_returns irq = true then
        let r := gic_interrupt nr_irq_ids rest
        { r with dispatched := gic_dispatch.do_sgi irq :: r.dispatched }
      else { dispatched := [gic_dispatch.do_sgi irq], exit := gic_interrupt_exit.panicked }
    else { dispatched := [], exit := gic_interrupt_exit.loop_ended }

/-! ## Delivery test (gic.c) -/

/-- The loop of `gic_events_need_delivery` over the in-flight list; `pri_to_guest` is the
macro `GIC_PRI_TO_GUEST` of asm-arm/gic.h, which is not among the sources. The result is
`rc`. -/
def events_need_delivery_walk (s : gic_state) (pri_to_guest : Nat → Nat)
    (mask_priority active_priority : Nat) : List Nat → Nat
  | [] => 0
  | p :: rest =>
    if pri_to_guest (s.pending_irqs p).priority ≥ mask_priority then 0
    else if pri_to_guest (s.pending_irqs p).priority ≥ active_priority then 0
    else if (s.pending_irqs p).status.enabled = true then 1
    else events_need_delivery_walk s pri_to_guest mask_priority active_priority rest

/-- The function `gic_events_need_delivery` for the current vCPU: `apr` is
`gic_hw_ops->read_apr(0)` and `mask_priority` is `gic_hw_ops->read_vmcr_priority()`. -/
def gic_events_need_delivery (s : gic_state) (pri_to_guest : Nat → Nat)
    (apr mask_priority : Nat) : Nat :=
  events_need_delivery_walk s pri_to_guest mask_priority (find_next_bit apr 32 0)
    s.inflight_irqs

/-- A shared line 40 that is disabled and routed nowhere, in `idle_state`. -/
def unrouted_state : gic_state :=
  { idle_state with irq_descs := fun d => { (idle_desc d) with irq := d } }

/-- The state `unrouted_state` after line 40 has been routed to the guest as virtual
interrupt 40 and the guest has taken it: the descriptor is enabled and in progress. -/
def routed_inprogress_state : gic_state :=
  { idle_state with
    pending_irqs := fun k =>
      if k = 40 then { (idle_pending 40) with desc := some 40 } else idle_pending k
    irq_descs := fun d =>
      if d = 40 then
        { irq := 40, disabled := false, inprogress := true, guest := true,
          handler := hw_irq_controller.guest_irq_type, affinity := 0 }
      else idle_desc d }

/-- The classification of an acknowledged value in the words of the specification, to be
compared with `gic_interrupt`: a value below 16 is an inter-core signal, a value in
16..1019 or in the LPI range goes to the generic interrupt layer, and every other value
ends the acceptance loop (`none`). -/
def spec_dispatch (nr_irq_ids irq : Nat) : Option gic_dispatch :=
  if irq < 16 then some (gic_dispatch.do_sgi irq)
  else if (16 ≤ irq ∧ irq < 1020) ∨ (FIRST_GIC_LPI ≤ irq ∧ irq < nr_irq_ids) then
    some (gic_dispatch.do_IRQ irq)
  else none

/-- The calls the specification expects for a sequence of acknowledged values: those of
the values before the first loop-ending one, in order. -/
def spec_dispatched (nr_irq_ids : Nat) (acks : List Nat) : List gic_dispatch :=
  (acks.takeWhile (fun a => (spec_dispatch nr_irq_ids a).isSome)).filterMap
    (spec_dispatch nr_irq_ids)

/-- The delivery test in the words of the specification, to be compared with
`gic_events_need_delivery`: the first entry of the in-flight list is `ENABLED` and its
guest priority is strictly below the priority mask and strictly below the active priority
(the index of the lowest set bit of `apr`, 32 when there is none). -/
def spec_needs_delivery (s : gic_state) (pri_to_guest : Nat → Nat) (apr mask_priority : Nat) :
    Bool :=
  match s.inflight_irqs with
  | [] => false
  | p :: _ =>
    (s.pending_irqs p).status.enabled &&
      decide (pri_to_guest (s.pending_irqs p).priority < mask_priority) &&
      decide (pri_to_guest (s.pending_irqs p).priority < find_next_bit apr 32 0)

/-- Interrupt 1 (priority 8) is in flight but not `ENABLED`, interrupt 2 (priority 16) is
in flight and `ENABLED`; no list register is in use. -/
def disabled_head_state : gic_state :=
  { idle_state with
    pending_irqs := fun k =>
      if k = 1 then
        { (idle_pending 1) with
          priority := 8
          status := { queued := true, active := false, visible := false, enabled := false,
                      migrating := false } }
      else if k = 2 then
        { (idle_pending 2) with
          priority := 16
          status := { queued := true, active := false, visible := false, enabled := true,
                      migrating := false } }
      else idle_pending k
    inflight_irqs := [1, 2] }

/-- The state `slot0_retired_state` in which interrupt 1 comes from physical line 40, has
been asserted again (`QUEUED`, and it is `ENABLED`) and is marked `MIGRATING`; its vCPU has
moved to processor 3. -/
def slot0_retired_migrating_state : gic_state :=
  { slot0_retired_state with
    pending_irqs := fun k =>
      let r := slot0_retired_state.pending_irqs k
      if k = 1 then
        { r with status := { r.status with queued := true, migrating := true }, desc := some 40 }
      else r
    target_processor := fun _ => 3 }

/-- Slot-iff-VISIBLE: a record has a slot (`lr` differs from `GIC_INVALID_LR`) if and only
if it is `VISIBLE`. -/
def slot_iff_visible (s : gic_state) : Prop :=
  ∀ k, ((s.pending_irqs k).lr ≠ GIC_INVALID_LR ↔ (s.pending_irqs k).status.visible = true)

/-! ## The worked scenario -/

/-- Modelled from the spec: the caller of `gic_raise_guest_irq` that raises a virtual
interrupt (`vgic_vcpu_inject_irq` of vgic.c, which is not among the sources): "Raise(vcpu,
virtual_id, priority): marks `QUEUED`", and the record joins the in-flight list, which is
"sorted ascending by priority ... with ties preserving insertion order"; the rest of the
operation is `gic_raise_guest_irq`. -/
def vgic_vcpu_inject_irq (s : gic_state) (v_is_current : Bool) (virq priority : Nat) :
    Option gic_state :=
  let r := s.pending_irqs virq
  let s1 := set_pending s virq
    { r with priority := priority, status := { r.status with queued := true } }
  let s2 :=
    if virq ∈ s1.inflight_irqs then s1
    else { s1 with
      inflight_irqs :=
        lr_pending_insert (fun k => (s1.pending_irqs k).priority) virq s1.inflight_irqs }
  gic_raise_guest_irq s2 v_is_current virq priority

/-- The guest's effect on list register `i` as the hardware reports it: the state field
of the register becomes `state`, the other fields stay. -/
def hw_set_lr_state (s : gic_state) (i : Nat) (state : Nat) : gic_state :=
  gicv3_write_lr s (i : Int) { (gicv3_decode_lr (s.ich_lr i)) with state := state }

/-- The idle vCPU of the scenario: four list registers, `lr_mask = 0`, both lists empty,
every interrupt enabled by the guest. -/
def scenario_idle_state : gic_state :=
  { idle_state with
    pending_irqs := fun k =>
      { (idle_pending k) with status := { (idle_pending k).status with enabled := true } } }

/-- The scenario after A = 1 (priority 10), B = 2 (20), C = 3 (5), D = 4 (30) and
E = 5 (15) have been raised in this order on the running vCPU. -/
def scenario_raised : Option gic_state :=
  (((((some scenario_idle_state).bind (fun s => vgic_vcpu_inject_irq s true 1 10)).bind
    (fun s => vgic_vcpu_inject_irq s true 2 20)).bind
    (fun s => vgic_vcpu_inject_irq s true 3 5)).bind
    (fun s => vgic_vcpu_inject_irq s true 4 30)).bind
    (fun s => vgic_vcpu_inject_irq s true 5 15)

/-- Slot 3 reads back Active and the exit path reconciles. -/
def scenario_active : Option gic_state :=
  scenario_raised.bind (fun s => gic_clear_lrs (hw_set_lr_state s 3 GICH_LR_ACTIVE) true false)

/-- Slot 3 then reads back fully retired and the exit path reconciles again. -/
def scenario_retired : Option gic_state :=
  scenario_active.bind (fun s => gic_clear_lrs (hw_set_lr_state s 3 0) true false)

/-- The admission pass that follows. -/
def scenario_admitted : Option gic_state :=
  scenario_retired.bind gic_restore_pending_irqs

/-- What the scenario looks at in a record: whether it is `VISIBLE`, its `lr`, and whether
it is `QUEUED` and `ACTIVE`. -/
structure record_view where
  visible : Bool
  lr : Nat
  queued : Bool
  active : Bool
  deriving DecidableEq, Repr

/-- What the scenario looks at in a state: `lr_mask`, the overflow list, the in-flight
list, and the records of A..E. -/
structure scenario_obs where
  lr_mask : Nat
  lr_pending : List Nat
  inflight_irqs : List Nat
  records : List record_view
  deriving DecidableEq, Repr

/-- The observation of a state. -/
def scenario_view (s : gic_state) : scenario_obs :=
  { lr_mask := s.lr_mask, lr_pending := s.lr_pending, inflight_irqs := s.inflight_irqs,
    records := [1, 2, 3, 4, 5].map (fun k =>
      { visible := (s.pending_irqs k).status.visible, lr := (s.pending_irqs k).lr,
        queued := (s.pending_irqs k).status.queued,
        active := (s.pending_irqs k).status.active }) }

/-! ## Context switch (gic.c, gic-v3.c) -/

/-- The constant `GICC_SRE_EL2_ENEL1` of gic_v3_defs.h. -/
def GICC_SRE_EL2_ENEL1 : Nat := 1 <<< 3

/-- What a context switch of the vCPU `v` on a core reads and writes: the engine state
`gic` (the per-core `lr_mask` and list registers, the records and lists of `v`),
`gicv3.nr_priorities`, the other system registers of the core that are saved, and the
save area of `v`: `v->arch.lr_mask` and the fields of `v->arch.gic.v3`. -/
structure vcpu_context where
  gic : gic_state
  nr_priorities : Nat
  ich_ap0r : Nat → Nat
  ich_ap1r : Nat → Nat
  ich_vmcr : Nat
  icc_sre_el1 : Nat
  icc_sre_el2 : Nat
  arch_lr_mask : Nat
  lr : Nat → Nat
  apr0 : Nat → Nat
  apr1 : Nat → Nat
  vmcr : Nat
  sre_el1 : Nat

/-- The statement of `case n + 1` in the `switch` of `gicv3_save_lrs`:
`v->arch.gic.v3.lr[n] = READ_SYSREG(ICH_LR<n>_EL2)`. -/
def save_lr (c : vcpu_context) (n : Nat) : vcpu_context :=
  { c with lr := Function.update c.lr n (c.gic.ich_lr n) }

/-- The `switch` of `gicv3_save_lrs` entered at `case n`: the case runs its statement and
falls through to `case n - 1`; `case 1` ends with `break`. -/
def gicv3_save_lrs_from : Nat → vcpu_context → vcpu_context
  | 0, c => c
  | n + 1, c => gicv3_save_lrs_from n (save_lr c n)

/-- The function `gicv3_save_lrs`: the `switch` on `nr_lrs` has the cases 16 down to 1,
all falling through, and `default: BUG()`. -/
def gicv3_save_lrs (c : vcpu_context) : Option vcpu_context :=
  if 1 ≤ c.gic.nr_lrs ∧ c.gic.nr_lrs ≤ 16 then some (gicv3_save_lrs_from c.gic.nr_lrs c)
  else none

/-- The statement of `case n + 1` in the `switch` of `gicv3_restore_lrs`:
`WRITE_SYSREG(v->arch.gic.v3.lr[n], ICH_LR<n>_EL2)`. -/
def restore_lr (c : vcpu_context) (n : Nat) : vcpu_context :=
  { c with gic := { c.gic with ich_lr := Function.update c.gic.ich_lr n (c.lr n) } }

/-- The `switch` of `gicv3_restore_lrs` entered at `case n`. -/
def gicv3_restore_lrs_from : Nat → vcpu_context → vcpu_context
  | 0, c => c
  | n + 1, c => gicv3_restore_lrs_from n (restore_lr c n)

/-- The function `gicv3_restore_lrs`: the same `switch`, writing the registers. -/
def gicv3_restore_lrs (c : vcpu_context) : Option vcpu_context :=
  if 1 ≤ c.gic.nr_lrs ∧ c.gic.nr_lrs ≤ 16 then some (gicv3_restore_lrs_from c.gic.nr_lrs c)
  else none

/-- The two statements of one case of `save_aprn_regs`:
`d->v3.apr0[n] = READ_SYSREG32(ICH_AP0R<n>_EL2)` and the same for `apr1`. -/
def save_apr (c : vcpu_context) (n : Nat) : vcpu_context :=
  { c with
    apr0 := Function.update c.apr0 n (c.ich_ap0r n)
    apr1 := Function.update c.apr1 n (c.ich_ap1r n) }

/-- The function `save_aprn_regs`: `case 7` falls through to `case 6` and `case 5`;
`default: BUG()`. -/
def save_aprn_regs (c : vcpu_context) : Option vcpu_context :=
  match c.nr_priorities with
  | 7 => some (save_apr (save_apr (save_apr c 2) 1) 0)
  | 6 => some (save_apr (save_apr c 1) 0)
  | 5 => some (save_apr c 0)
  | _ => none

/-- The two statements of one case of `restore_aprn_regs`:
`WRITE_SYSREG32(d->v3.apr0[n], ICH_AP0R<n>_EL2)` and the same for `apr1`. -/
def restore_apr (c : vcpu_context) (n : Nat) : vcpu_context :=
  { c with
    ich_ap0r := Function.update c.ich_ap0r n (c.apr0 n)
    ich_ap1r := Function.update c.ich_ap1r n (c.apr1 n) }

/-- The function `restore_aprn_regs`: the same `switch`, writing the registers. -/
def restore_aprn_regs (c : vcpu_context) : Option vcpu_context :=
  match c.nr_priorities with
  | 7 => some (restore_apr (restore_apr (restore_apr c 2) 1) 0)
  | 6 => some (restore_apr (restore_apr c 1) 0)
  | 5 => some (restore_apr c 0)
  | _ => none

/-- The function `gicv3_save_state`. -/
def gicv3_save_state (c : vcpu_context) : Option vcpu_context :=
  match gicv3_save_lrs c with
  | none => none
  | some c1 =>
    match save_aprn_regs c1 with
    | none => none
    | some c2 => some { c2 with vmcr := c2.ich_vmcr, sre_el1 := c2.icc_sre_el1 }

/-- The function `gicv3_restore_state`; the guest uses GICv2 when `vgic_version_v3` is
false. -/
def gicv3_restore_state (c : vcpu_context) : Option vcpu_context :=
  let val := c.icc_sre_el2
  let val :=
    if c.gic.vgic_version_v3 then (val ||| GICC_SRE_EL2_ENEL1) % 2 ^ 32
    else val &&& (0xffffffff ^^^ GICC_SRE_EL2_ENEL1)
  let c1 := { c with icc_sre_el2 := val }
  let c2 := { c1 with icc_sre_el1 := c1.sre_el1 }
  let c3 := { c2 with ich_vmcr := c2.vmcr }
  match restore_aprn_regs c3 with
  | none => none
  | some c4 => gicv3_restore_lrs c4

/-- The function `gic_save_state`. -/
def gic_save_state (c : vcpu_context) : Option vcpu_context :=
  gicv3_save_state { c with arch_lr_mask := c.gic.lr_mask }

/-- The function `gic_restore_state`: the saved bitmap goes back into the per-core
`lr_mask`, the backend restores its registers, and `gic_restore_pending_irqs` runs. -/
def gic_restore_state (c : vcpu_context) : Option vcpu_context :=
  match gicv3_restore_state { c with gic := { c.gic with lr_mask := c.arch_lr_mask } } with
  | none => none
  | some c1 =>
    match gic_restore_pending_irqs c1.gic with
    | none => none
    | some g => some { c1 with gic := g }

/-- A context around the engine state `g`: five priority bits, the other registers and
the save area zero. -/
def mk_context (g : gic_state) : vcpu_context :=
  { gic := g, nr_priorities := 5, ich_ap0r := fun _ => 0, ich_ap1r := fun _ => 0,
    ich_vmcr := 0, icc_sre_el1 := 0, icc_sre_el2 := 0, arch_lr_mask := 0, lr := fun _ => 0,
    apr0 := fun _ => 0, apr1 := fun _ => 0, vmcr := 0, sre_el1 := 0 }

/-- Two list registers; interrupt 1 (priority 10) is in slot 0, slot 1 is free, and
interrupt 3 (priority 15), raised while the vCPU was not running, waits on
`lr_pending`. -/
def one_free_slot_state : gic_state :=
  { nr_lrs := 2, vgic_version_v3 := true, lr_mask := 1,
    ich_lr := fun i =>
      if i = 0 then gicv3_encode_lr
        { pirq := 0, virq := 1, priority := 10, state := 1, hw_status := 0, grp := 1 }
      else 0,
    ich_hcr := 0,
    pending_irqs := fun k =>
      if k = 1 then mk_pending 1 10 true 0
      else if k = 3 then mk_pending 3 15 false GIC_INVALID_LR
      else idle_pending k,
    inflight_irqs := [1, 3], lr_pending := [3],
    irq_descs := idle_desc, target_processor := fun _ => 0 }

/-! ## Bring-up (gic-v3.c) -/

/-- The constant `GICH_VTR_NRLRGS` of gic_v3_defs.h. -/
def GICH_VTR_NRLRGS : Nat := 0x3f

/-- The constant `GICH_VTR_PRIBITS_MASK` of gic_v3_defs.h. -/
def GICH_VTR_PRIBITS_MASK : Nat := 0x7

/-- The constant `GICH_VTR_PRIBITS_SHIFT` of gic_v3_defs.h. -/
def GICH_VTR_PRIBITS_SHIFT : Nat := 29

/-- The constant `GICH_VMCR_EOI` of gic_v3_defs.h. -/
def GICH_VMCR_EOI : Nat := 1 <<< 9

/-- The constant `GICH_VMCR_VENG1` of gic_v3_defs.h. -/
def GICH_VMCR_VENG1 : Nat := 1 <<< 1

/-- Modelled from the spec: the enable bit of the hypervisor control register
(`GICH_HCR_EN` of asm-arm/gic.h, which is not among the sources). -/
def GICH_HCR_EN : Nat := 1

/-- What `gicv3_hyp_init` sets: `gicv3_info.nr_lrs`, `gicv3.nr_priorities` and the two
registers it writes. -/
structure hyp_info where
  nr_lrs : Nat
  nr_priorities : Nat
  ich_vmcr : Nat
  ich_hcr : Nat
  deriving DecidableEq, Repr

/-- The function `gicv3_hyp_init`; `vtr` is the value read from `ICH_VTR_EL2` and the
`panic` is `none`. -/
def gicv3_hyp_init (vtr : Nat) : Option hyp_info :=
  let nr_lrs := (vtr &&& GICH_VTR_NRLRGS) + 1
  let nr_priorities := ((vtr >>> GICH_VTR_PRIBITS_SHIFT) &&& GICH_VTR_PRIBITS_MASK) + 1
  if ¬ (nr_priorities > 4 ∧ nr_priorities < 8) then none
  else some { nr_lrs := nr_lrs, nr_priorities := nr_priorities,
              ich_vmcr := GICH_VMCR_EOI ||| GICH_VMCR_VENG1, ich_hcr := GICH_HCR_EN }

/-- The entry `struct rdist_region` of `gicv3.rdist_regions`. -/
structure rdist_region where
  base : Nat
  size : Nat
  deriving DecidableEq, Repr

/-- The function `cmp_rdist`: both `l` and `r` are initialised from `a`. -/
def cmp_rdist (a _b : rdist_region) : Int :=
  let l := a
  let r := a
  if l.base < r.base then -1 else 0

/-- The constant `GICR_WAKER_ProcessorSleep` of gic_v3_defs.h. -/
def GICR_WAKER_ProcessorSleep : Nat := 1 <<< 1

/-- The constant `GICR_WAKER_ChildrenAsleep` of gic_v3_defs.h. -/
def GICR_WAKER_ChildrenAsleep : Nat := 1 <<< 2

/-- Modelled from the spec: the "1-second deadline" in the unit of `NOW()`, nanoseconds
(`MILLISECS` of xen/time.h, which is not among the sources). -/
def MILLISECS (ms : Nat) : Nat := ms * 1000000

/-- What `gicv3_enable_redist` sees of the machine: `waker k` is the value of the `k`-th
read of `GICR_WAKER` (read 0 is the one before the loop) and `now k` the value of the
`k`-th call of `NOW()` (call 0 is the one that fixes the deadline). -/
structure redist_env where
  waker : Nat → Nat
  now : Nat → Nat

/-- The run of `gicv3_enable_redist`: the return value, the value written to
`GICR_WAKER`, the number of reads of `GICR_WAKER` made in the loop and the last value
read there. -/
structure enable_redist_run where
  ret : Int
  written : Nat
  polls : Nat
  last_val : Nat
  deriving DecidableEq, Repr

/-- The `do { ... } while ( timeout )` loop of `gicv3_enable_redist`: `k` reads have been
made in the loop so far; the result is the variable `timeout`, the number of reads and the
last value read. The first argument bounds the number of rounds. -/
def gicv3_enable_redist_loop (env : redist_env) (deadline : Nat) :
    Nat → Nat → Bool → Nat → Bool × Nat × Nat
  | 0, k, timeout, val => (timeout, k, val)
  | rounds + 1, k, timeout, _ =>
    let val := env.waker (k + 1)
    if val &&& GICR_WAKER_ChildrenAsleep = 0 then (timeout, k + 1, val)
    else if env.now (k + 1) > deadline then (true, k + 1, val)
    else if timeout then gicv3_enable_redist_loop env deadline rounds (k + 1) timeout val
    else (timeout, k + 1, val)

/-- The function `gicv3_enable_redist`; `rounds` bounds the number of rounds of the
loop. -/
def gicv3_enable_redist (env : redist_env) (rounds : Nat) : enable_redist_run :=
  let timeout := false
  let deadline := env.now 0 + MILLISECS 1000
  let val := env.waker 0
  let val := val &&& (0xffffffff ^^^ GICR_WAKER_ProcessorSleep)
  let r := gicv3_enable_redist_loop env deadline rounds 0 timeout val
  { ret := if r.1 then 1 else 0, written := val, polls := r.2.1, last_val := r.2.2 }

/-- A redistributor that never wakes up, on a clock that advances by 1 microsecond with
every call of `NOW()`. -/
def asleep_env : redist_env :=
  { waker := fun _ => GICR_WAKER_ChildrenAsleep, now := fun k => 1000 * k }

/-- A redistributor that reports itself awake at the first read in the loop. -/
def awake_env : redist_env :=
  { waker := fun k => if k = 0 then GICR_WAKER_ProcessorSleep ||| GICR_WAKER_ChildrenAsleep else 0
    now := fun k => 1000 * k }

/-! ## Raising an in-flight interrupt (gic.c) -/

/-- The function `gic_raise_inflight_irq`: `list_empty(&n->lr_queue)` is the test that the
record is not on `lr_pending`; `v_is_current` is `v == current`. -/
def gic_raise_inflight_irq (s : gic_state) (v_is_current : Bool) (virtual_irq : Nat) :
    Option gic_state :=
  let n := s.pending_irqs virtual_irq
  if virtual_irq ∉ s.lr_pending then
    if v_is_current then gic_update_one_lr s v_is_current n.lr
    else some s
  else some s

/-- Interrupt 7 is in flight on the running vCPU but has no slot and is not on
`lr_pending`: it was queued and then disabled by the guest, which took it off
`lr_pending` and left it in flight. -/
def inflight_no_slot_state : gic_state :=
  { idle_state with
    pending_irqs := fun k =>
      if k = 7 then
        { (idle_pending 7) with
          status := { queued := true, active := false, visible := false, enabled := false,
                      migrating := false } }
      else idle_pending k
    inflight_irqs := [7] }

/-- The save of the list registers in the words of the specification, to be compared
with `gicv3_save_lrs`: "a bounded loop from 0 to the backend-reported slot count, calling
the single-slot read ... primitive per index". The first argument is the number of rounds
left and the second the index; the single-slot read is `gicv3_ich_read_lr`. -/
def spec_save_lrs_loop : Nat → Nat → vcpu_context → Option vcpu_context
  | 0, _, c => some c
  | count + 1, i, c =>
    match gicv3_ich_read_lr c.gic (i : Int) with
    | none => none
    | some v => spec_save_lrs_loop count (i + 1) { c with lr := Function.update c.lr i v }

/-- The loop of `spec_save_lrs_loop` from index 0 for `nr_lrs` rounds. -/
def spec_save_lrs (c : vcpu_context) : Option vcpu_context :=
  spec_save_lrs_loop c.gic.nr_lrs 0 c

/-- The restore of the list registers in the words of the specification, to be compared
with `gicv3_restore_lrs`: the same loop with the single-slot write `gicv3_ich_write_lr`. -/
def spec_restore_lrs_loop : Nat → Nat → vcpu_context → vcpu_context
  | 0, _, c => c
  | count + 1, i, c =>
    spec_restore_lrs_loop count (i + 1)
      { c with gic := gicv3_ich_write_lr c.gic (i : Int) (c.lr i) }

/-- The loop of `spec_restore_lrs_loop` from index 0 for `nr_lrs` rounds. -/
def spec_restore_lrs (c : vcpu_context) : vcpu_context :=
  spec_restore_lrs_loop c.gic.nr_lrs 0 c

/-- A context around `two_slot_state` whose save area holds the value 99 in every entry. -/
def two_slot_context : vcpu_context :=
  { (mk_context two_slot_state) with lr := fun _ => 99 }

/-- All `nr_lrs` slots are occupied: every bit of `lr_mask` below `nr_lrs` is set. -/
def all_slots_occupied (s : gic_state) : Prop :=
  ∀ i, i < s.nr_lrs → s.lr_mask.testBit i = true

/-- The macro `lr_all_full()` of gic.c. -/
def lr_all_full (s : gic_state) : Bool :=
  s.lr_mask == (1 <<< s.nr_lrs) - 1

/-- The function `gic_inject` for the running vCPU. -/
def gic_inject (s : gic_state) : Option gic_state :=
  match gic_restore_pending_irqs s with
  | none => none
  | some s1 =>
    if s1.lr_pending ≠ [] ∧ lr_all_full s1 = true then
      some (gicv3_hcr_status s1 GICH_HCR_UIE true)
    else some s1

/-! ## Inter-core signals (gic-v3.c) -/

/-- What `gicv3_send_sgi_list` reads of the machine and of headers that are not among the
sources: `nr_cpu_ids`, the table `cpu_logical_map(cpu)`, the expression
`mpidr & ~MPIDR_AFF0_MASK` as `cluster_id_of mpidr`, and the macro
`MPIDR_AFFINITY_LEVEL(mpidr, level)` as `affinity_level mpidr level`. -/
structure sgi_env where
  nr_cpu_ids : Nat
  cpu_logical_map : Nat → Nat
  cluster_id_of : Nat → Nat
  affinity_level : Nat → Nat → Nat

/-- Modelled from the spec: `cpumask_next(n, mask)` of xen/cpumask.h, which is not among
the sources: the next CPU of the target set after `n`, and `nr_cpu_ids` when there is
none; the "target CPU set" is a bitmap over the CPU numbers below `nr_cpu_ids`. -/
def cpumask_next (env : sgi_env) (n : Nat) (mask : Nat) : Nat :=
  find_next_bit mask env.nr_cpu_ids (n + 1)

/-- Modelled from the spec: `cpumask_first(mask)` of xen/cpumask.h: the first CPU of the
set, and `nr_cpu_ids` when it is empty. -/
def cpumask_first (env : sgi_env) (mask : Nat) : Nat :=
  find_next_bit mask env.nr_cpu_ids 0

/-- The loop `while ( cpu < nr_cpu_ids )` of `gicv3_compute_target_list` with the
variables `cpu`, `mpidr` and `tlist` (a `u16`); the result is the value left in
`*base_cpu` and the list returned. The first argument bounds the number of rounds. -/
def gicv3_compute_target_list_loop (env : sgi_env) (mask cluster_id : Nat) :
    Nat → Nat → Nat → Nat → Nat × Nat
  | 0, cpu, _, tlist => (cpu, tlist)
  | rounds + 1, cpu, mpidr, tlist =>
    if cpu < env.nr_cpu_ids then
      let tlist := (tlist ||| (1 <<< (mpidr &&& 0xf))) % 2 ^ 16
      let cpu := cpumask_next env cpu mask
      if cpu = env.nr_cpu_ids then (cpu - 1, tlist)
      else
        let mpidr := env.cpu_logical_map cpu
        if cluster_id ≠ env.cluster_id_of mpidr then (cpu - 1, tlist)
        else gicv3_compute_target_list_loop env mask cluster_id rounds cpu mpidr tlist
    else (cpu, tlist)

/-- The function `gicv3_compute_target_list`: the new `*base_cpu` and the target list. -/
def gicv3_compute_target_list (env : sgi_env) (base_cpu mask cluster_id : Nat) : Nat × Nat :=
  gicv3_compute_target_list_loop env mask cluster_id env.nr_cpu_ids base_cpu
    (env.cpu_logical_map base_cpu) 0

/-- One write of `ICC_SGI1R_EL1` by `gicv3_send_sgi_list`: the value written and the
locals `cluster_id` and `tlist` it was built from. -/
structure sgi_write where
  cluster_id : Nat
  tlist : Nat
  val : Nat
  deriving DecidableEq, Repr

/-- The 64-bit value that `gicv3_send_sgi_list` builds. -/
def gicv3_sgi_val (env : sgi_env) (sgi cluster_id tlist : Nat) : Nat :=
  ((env.affinity_level cluster_id 3 <<< 48) |||
    (env.affinity_level cluster_id 2 <<< 32) |||
    (sgi <<< 24) |||
    (env.affinity_level cluster_id 1 <<< 16) |||
    tlist) % 2 ^ 64

/-- The loop `for_each_cpu(cpu, cpumask)` of `gicv3_send_sgi_list` from the CPU `cpu`: the
writes it makes, in order. The first argument bounds the number of rounds. -/
def gicv3_send_sgi_list_loop (env : sgi_env) (sgi mask : Nat) : Nat → Nat → List sgi_write
  | 0, _ => []
  | rounds + 1, cpu =>
    if cpu < env.nr_cpu_ids then
      let cluster_id := env.cluster_id_of (env.cpu_logical_map cpu)
      let r := gicv3_compute_target_list env cpu mask cluster_id
      let val := gicv3_sgi_val env sgi cluster_id r.2
      { cluster_id := cluster_id, tlist := r.2, val := val } ::
        gicv3_send_sgi_list_loop env sgi mask rounds (cpumask_next env r.1 mask)
    else []

/-- The function `gicv3_send_sgi_list`: the writes of `ICC_SGI1R_EL1`, in order. -/
def gicv3_send_sgi_list (env : sgi_env) (sgi mask : Nat) : List sgi_write :=
  gicv3_send_sgi_list_loop env sgi mask env.nr_cpu_ids (cpumask_first env mask)

/-- Eight CPUs in two clusters of four, with the affinity fields of an MPIDR value at bits
0, 8, 16 and 32: CPU `c` has affinity 0 `c mod 4` and affinity 1 `c / 4`. -/
def two_cluster_env : sgi_env :=
  { nr_cpu_ids := 8
    cpu_logical_map := fun c => (c / 4) * 256 + c % 4
    cluster_id_of := fun m => m &&& (0xffffffffffffffff ^^^ 0xff)
    affinity_level := fun m l =>
      (m >>> (if l = 0 then 0 else if l = 1 then 8 else if l = 2 then 16 else 32)) &&& 0xff }

/-! # Theorems -/

/-! ## Bit maps -/

theorem testBit_set_bit (nr a j : Nat) :
    (set_bit nr a).testBit j = (a.testBit j || decide (nr = j)) := by
  simp [set_bit, Nat.testBit_or, Nat.one_shiftLeft, Nat.testBit_two_pow]

theorem testBit_clear_bit (nr a j : Nat) :
    (clear_bit nr a).testBit j = (a.testBit j && !decide (nr = j)) := by
  simp only [clear_bit, Nat.testBit_xor, Nat.testBit_and, Nat.one_shiftLeft, Nat.testBit_two_pow]
  cases a.testBit j <;> cases decide (nr = j) <;> rfl

theorem find_bit_from_spec (want : Bool) (a size : Nat) : ∀ fuel i,
    (find_bit_from want a size fuel i = size ∧ ∀ j, i ≤ j → j < i + fuel → a.testBit j ≠ want) ∨
    (i ≤ find_bit_from want a size fuel i ∧ find_bit_from want a size fuel i < i + fuel ∧
      a.testBit (find_bit_from want a size fuel i) = want ∧
      ∀ j, i ≤ j → j < find_bit_from want a size fuel i → a.testBit j ≠ want) := by
  intro fuel
  induction fuel with
  | zero => intro i; left; exact ⟨rfl, fun j h1 h2 => by omega⟩
  | succ n ih =>
    intro i
    by_cases h : a.testBit i = want
    · right
      simp only [find_bit_from, h, if_true]
      exact ⟨le_refl _, by omega, trivial, fun j h1 h2 => by omega⟩
    · simp only [find_bit_from, h, if_false]
      rcases ih (i + 1) with ⟨h1, h2⟩ | ⟨h1, h2, h3, h4⟩
      · left
        refine ⟨h1, fun j hj1 hj2 => ?_⟩
        by_cases hji : j = i
        · subst hji; exact h
        · exact h2 j (by omega) (by omega)
      · right
        refine ⟨by omega, by omega, h3, fun j hj1 hj2 => ?_⟩
        by_cases hji : j = i
        · subst hji; exact h
        · exact h4 j (by omega) hj2

theorem find_bit_from_le (want : Bool) (a size : Nat) (fuel i : Nat) (h : i + fuel ≤ size) :
    find_bit_from want a size fuel i ≤ size := by
  rcases find_bit_from_spec want a size fuel i with ⟨h1, _⟩ | ⟨_, h2, _, _⟩ <;> omega

theorem find_next_zero_bit_le (a size off : Nat) : find_next_zero_bit a size off ≤ size := by
  unfold find_next_zero_bit
  by_cases h : off ≤ size
  · exact find_bit_from_le _ _ _ _ _ (by omega)
  · have : size - off = 0 := by omega
    rw [this]; exact le_refl _

theorem find_next_zero_bit_lt {a size off : Nat} (h : find_next_zero_bit a size off < size) :
    off ≤ find_next_zero_bit a size off ∧ a.testBit (find_next_zero_bit a size off) = false ∧
      ∀ j, off ≤ j → j < find_next_zero_bit a size off → a.testBit j = true := by
  unfold find_next_zero_bit at h ⊢
  rcases find_bit_from_spec false a size (size - off) off with ⟨h1, _⟩ | ⟨h1, _, h3, h4⟩
  · omega
  · exact ⟨h1, h3, fun j hj1 hj2 => by simpa using h4 j hj1 hj2⟩

theorem find_next_zero_bit_ge {a size off : Nat} (h : size ≤ find_next_zero_bit a size off) :
    ∀ j, off ≤ j → j < size → a.testBit j = true := by
  unfold find_next_zero_bit at h
  intro j hj1 hj2
  rcases find_bit_from_spec false a size (size - off) off with ⟨_, h2⟩ | ⟨_, h2, _, _⟩
  · simpa using h2 j hj1 (by omega)
  · omega

theorem find_next_bit_le (a size off : Nat) : find_next_bit a size off ≤ size := by
  unfold find_next_bit
  by_cases h : off ≤ size
  · exact find_bit_from_le _ _ _ _ _ (by omega)
  · have : size - off = 0 := by omega
    rw [this]; exact le_refl _

theorem find_next_bit_lt {a size off : Nat} (h : find_next_bit a size off < size) :
    off ≤ find_next_bit a size off ∧ a.testBit (find_next_bit a size off) = true ∧
      ∀ j, off ≤ j → j < find_next_bit a size off → a.testBit j = false := by
  unfold find_next_bit at h ⊢
  rcases find_bit_from_spec true a size (size - off) off with ⟨h1, _⟩ | ⟨h1, _, h3, h4⟩
  · omega
  · exact ⟨h1, h3, fun j hj1 hj2 => by simpa using h4 j hj1 hj2⟩

theorem find_next_zero_bit_of_clear {a size : Nat} (off j : Nat) (h1 : off ≤ j) (h2 : j < size)
    (h3 : a.testBit j = false) : find_next_zero_bit a size off < size := by
  by_contra hc
  have := find_next_zero_bit_ge (Nat.le_of_not_lt hc) j h1 h2
  rw [h3] at this; cases this

/-! ## The list-register encoding -/

theorem shl_or_eq_add (a b k : Nat) (hb : b < 2 ^ k) : (a <<< k) ||| b = a * 2 ^ k + b := by
  rw [Nat.shiftLeft_eq, Nat.mul_comm a, ← Nat.mul_add_lt_is_or hb]

theorem and_mask16 (x : Nat) : x &&& 0xffff = x % 65536 := Nat.and_pow_two_sub_one_eq_mod x 16
theorem and_mask10 (x : Nat) : x &&& 0x3ff = x % 1024 := Nat.and_pow_two_sub_one_eq_mod x 10
theorem and_mask8 (x : Nat) : x &&& 0xff = x % 256 := Nat.and_pow_two_sub_one_eq_mod x 8
theorem and_mask2 (x : Nat) : x &&& 0x3 = x % 4 := Nat.and_pow_two_sub_one_eq_mod x 2
theorem and_mask1 (x : Nat) : x &&& 0x1 = x % 2 := Nat.and_pow_two_sub_one_eq_mod x 1

theorem pack_fields (st hw g pr pi vi : Nat) (_hst : st < 4) (hhw : hw < 2) (hg : g < 2) (hpr : pr < 256)
    (hpi : pi < 1024) (hvi : vi < 65536) :
    (st <<< 62) ||| ((hw <<< 61) ||| ((g <<< 60) ||| ((pr <<< 48) ||| ((pi <<< 32) ||| vi)))) =
      st * 2 ^ 62 + hw * 2 ^ 61 + g * 2 ^ 60 + pr * 2 ^ 48 + pi * 2 ^ 32 + vi := by
  rw [shl_or_eq_add pi vi 32 (by omega), shl_or_eq_add pr _ 48 (by omega),
    shl_or_eq_add g _ 60 (by omega), shl_or_eq_add hw _ 61 (by omega),
    shl_or_eq_add st _ 62 (by omega)]
  omega

theorem decode_packed (st hw g pr pi vi : Nat) (hst : st < 4) (hhw : hw < 2) (hg : g < 2) (hpr : pr < 256)
    (hpi : pi < 1024) (hvi : vi < 65536) :
    gicv3_decode_lr (st * 2 ^ 62 + hw * 2 ^ 61 + g * 2 ^ 60 + pr * 2 ^ 48 + pi * 2 ^ 32 + vi) =
      { pirq := pi, virq := vi, priority := pr, state := st, hw_status := hw, grp := g } := by
  simp only [gicv3_decode_lr, GICH_LR_PHYSICAL_SHIFT, GICH_LR_PHYSICAL_MASK, GICH_LR_VIRTUAL_SHIFT,
    GICH_LR_VIRTUAL_MASK, GICH_LR_PRIORITY_SHIFT, GICH_LR_PRIORITY_MASK, GICH_LR_STATE_SHIFT,
    GICH_LR_STATE_MASK, GICH_LR_HW_SHIFT, GICH_LR_HW_MASK, GICH_LR_GRP_SHIFT, GICH_LR_GRP_MASK,
    and_mask16, and_mask10, and_mask8, and_mask2, and_mask1, Nat.shiftRight_eq_div_pow]
  congr 1 <;> omega

theorem encode_eq (l : gic_lr) :
    gicv3_encode_lr l = (l.state % 4) * 2 ^ 62 + (l.hw_status % 2) * 2 ^ 61 + (l.grp % 2) * 2 ^ 60 +
      (l.priority % 256) * 2 ^ 48 + (l.pirq % 1024) * 2 ^ 32 + l.virq % 65536 := by
  have h := pack_fields (l.state % 4) (l.hw_status % 2) (l.grp % 2) (l.priority % 256)
    (l.pirq % 1024) (l.virq % 65536) (Nat.mod_lt _ (by decide)) (Nat.mod_lt _ (by decide))
    (Nat.mod_lt _ (by decide)) (Nat.mod_lt _ (by decide)) (Nat.mod_lt _ (by decide))
    (Nat.mod_lt _ (by decide))
  rw [← h]
  unfold gicv3_encode_lr
  simp only [GICH_LR_PHYSICAL_SHIFT, GICH_LR_PHYSICAL_MASK, GICH_LR_VIRTUAL_SHIFT,
    GICH_LR_VIRTUAL_MASK, GICH_LR_PRIORITY_SHIFT, GICH_LR_PRIORITY_MASK, GICH_LR_STATE_SHIFT,
    GICH_LR_STATE_MASK, GICH_LR_HW_SHIFT, GICH_LR_HW_MASK, GICH_LR_GRP_SHIFT, GICH_LR_GRP_MASK]
  rw [and_mask16, and_mask10, and_mask8, and_mask2, and_mask1, and_mask1, Nat.shiftLeft_zero]
  generalize (l.state % 4) <<< 62 = a
  generalize (l.hw_status % 2) <<< 61 = b
  generalize (l.grp % 2) <<< 60 = c
  generalize (l.priority % 256) <<< 48 = d
  generalize (l.pirq % 1024) <<< 32 = e
  generalize l.virq % 65536 = f
  ac_rfl

theorem lr_val_eq (s : gic_state) (p : pending_irq) (state : Nat) :
    gicv3_lr_val s p state = gicv3_encode_lr (lr_val_fields s p state) := by
  rw [encode_eq]
  have h := pack_fields ((lr_val_fields s p state).state % 4) ((lr_val_fields s p state).hw_status % 2)
    ((lr_val_fields s p state).grp % 2) ((lr_val_fields s p state).priority % 256)
    ((lr_val_fields s p state).pirq % 1024) ((lr_val_fields s p state).virq % 65536)
    (Nat.mod_lt _ (by decide)) (Nat.mod_lt _ (by decide))
    (Nat.mod_lt _ (by decide)) (Nat.mod_lt _ (by decide)) (Nat.mod_lt _ (by decide))
    (Nat.mod_lt _ (by decide))
  rw [← h]
  unfold gicv3_lr_val lr_val_fields
  simp only [GICH_LR_PHYSICAL_SHIFT, GICH_LR_PHYSICAL_MASK, GICH_LR_VIRTUAL_SHIFT,
    GICH_LR_VIRTUAL_MASK, GICH_LR_PRIORITY_SHIFT, GICH_LR_STATE_SHIFT, GICH_LR_GRP1, GICH_LR_HW]
  rw [and_mask16, and_mask8, and_mask2, Nat.shiftLeft_zero]
  simp only [Nat.mod_mod]
  clear h
  have h1 : (1 % 2) = 1 := rfl
  generalize hA : (state % 4) <<< 62 = A
  generalize hB : (p.priority % 256) <<< 48 = B
  generalize hC : p.irq % 65536 = C
  cases hd : p.desc with
  | none =>
    cases hv : s.vgic_version_v3
    · simp only [Option.isSome, Bool.false_eq_true, if_false, Nat.zero_mod, Nat.zero_shiftLeft,
        Nat.zero_or, Nat.or_zero]
      ac_rfl
    · simp only [Option.isSome, Bool.false_eq_true, if_false, if_true, Nat.zero_mod,
        Nat.zero_shiftLeft, Nat.zero_or, Nat.or_zero, h1]
      generalize 1 <<< 60 = G
      ac_rfl
  | some d =>
    simp only [and_mask10, Nat.mod_mod]
    generalize ((s.irq_descs d).irq % 1024) <<< 32 = D
    cases hv : s.vgic_version_v3
    · simp only [Option.isSome, Bool.false_eq_true, if_false, if_true, Nat.zero_mod,
        Nat.zero_shiftLeft, Nat.zero_or, Nat.or_zero, Nat.mod_mod, h1]
      generalize 1 <<< 61 = H
      ac_rfl
    · simp only [Option.isSome, Bool.false_eq_true, if_false, if_true, Nat.zero_mod,
        Nat.zero_shiftLeft, Nat.zero_or, Nat.or_zero, Nat.mod_mod, h1]
      generalize 1 <<< 61 = H
      generalize 1 <<< 60 = G
      ac_rfl

theorem decode_encode_fields (l : gic_lr) : gicv3_decode_lr (gicv3_encode_lr l) =
    { pirq := l.pirq % 1024, virq := l.virq % 65536, priority := l.priority % 256,
      state := l.state % 4, hw_status := l.hw_status % 2, grp := l.grp % 2 } := by
  rw [encode_eq]
  exact decode_packed _ _ _ _ _ _ (Nat.mod_lt _ (by decide)) (Nat.mod_lt _ (by decide))
    (Nat.mod_lt _ (by decide)) (Nat.mod_lt _ (by decide)) (Nat.mod_lt _ (by decide))
    (Nat.mod_lt _ (by decide))

theorem decode_lr_val (s : gic_state) (p : pending_irq) (state : Nat) :
    gicv3_decode_lr (gicv3_lr_val s p state) = lr_val_fields s p state := by
  rw [lr_val_eq, decode_encode_fields]
  unfold lr_val_fields
  simp only [Nat.mod_mod]
  congr 1
  · cases p.desc <;> simp
  · cases p.desc <;> simp
  · cases s.vgic_version_v3 <;> simp

theorem decode_fields_lt (x : Nat) :
    (gicv3_decode_lr x).pirq < 1024 ∧ (gicv3_decode_lr x).virq < 65536 ∧
    (gicv3_decode_lr x).priority < 256 ∧ (gicv3_decode_lr x).state < 4 ∧
    (gicv3_decode_lr x).hw_status < 2 ∧ (gicv3_decode_lr x).grp < 2 := by
  simp only [gicv3_decode_lr, GICH_LR_PHYSICAL_MASK, GICH_LR_VIRTUAL_MASK,
    GICH_LR_PRIORITY_MASK, GICH_LR_STATE_MASK, GICH_LR_HW_MASK, GICH_LR_GRP_MASK,
    and_mask16, and_mask10, and_mask8, and_mask2, and_mask1]
  refine ⟨?_, ?_, ?_, ?_, ?_, ?_⟩ <;> exact Nat.mod_lt _ (by decide)

/-! ## Raise -/

theorem ich_read_lr_eq (s : gic_state) (i : Nat) (hi : i ≤ 15) :
    gicv3_ich_read_lr s (i : Int) = some (s.ich_lr i) := by
  unfold gicv3_ich_read_lr
  rw [if_pos ⟨by omega, by omega⟩, Int.toNat_ofNat]

theorem ich_write_lr_eq (s : gic_state) (i : Nat) (val : Nat) (hi : i ≤ 15) :
    gicv3_ich_write_lr s (i : Int) val = { s with ich_lr := Function.update s.ich_lr i val } := by
  unfold gicv3_ich_write_lr
  rw [if_pos ⟨by omega, by omega⟩, Int.toNat_ofNat]

theorem read_lr_eq (s : gic_state) (i : Nat) (hi : i ≤ 15) :
    gicv3_read_lr s (i : Int) = some (gicv3_decode_lr (s.ich_lr i)) := by
  unfold gicv3_read_lr
  rw [ich_read_lr_eq s i hi]

theorem update_lr_eq (s : gic_state) (lr : Nat) (p : pending_irq) (state : Nat)
    (h : lr < s.nr_lrs) :
    gicv3_update_lr s (lr : Int) p state =
      some (gicv3_ich_write_lr s (lr : Int) (gicv3_lr_val s p state)) := by
  unfold gicv3_update_lr
  rw [if_neg (by omega), if_neg (by omega)]

theorem gic_set_lr_eq (s : gic_state) (lr p state : Nat) (h : lr < s.nr_lrs) (h16 : lr ≤ 15) :
    gic_set_lr s lr p state = some { s with
      ich_lr := Function.update s.ich_lr lr (gicv3_lr_val s (s.pending_irqs p) state)
      pending_irqs := Function.update s.pending_irqs p
        { s.pending_irqs p with
          status := { (s.pending_irqs p).status with visible := true, queued := false }
          lr := lr } } := by
  unfold gic_set_lr
  rw [update_lr_eq s lr _ state h, ich_write_lr_eq s lr _ h16]

/-- C1: the fast path of `gic_raise_guest_irq`. When `v` is the current vCPU, `lr_pending`
is empty and `lr_mask` has a clear bit below `nr_lrs` (with `nr_lrs` at most 16, the
number of list registers of the backend), the call returns; the slot `i` it takes is the
lowest clear bit; bit `i` and no other bit is set; list register `i` reads back the
interrupt in state Pending and no other register changes; the record is `VISIBLE`, not
`QUEUED`, has `lr = i`; and `lr_pending` is still empty. -/
theorem gic_raise_guest_irq_fast_path (s : gic_state) (virtual_irq priority : Nat)
    (hpend : s.lr_pending = [])
    (hfree : ∃ j, j < s.nr_lrs ∧ s.lr_mask.testBit j = false)
    (hN : s.nr_lrs ≤ 16) :
    ∃ i s', gic_raise_guest_irq s true virtual_irq priority = some s' ∧
      i < s.nr_lrs ∧ s.lr_mask.testBit i = false ∧ (∀ j, j < i → s.lr_mask.testBit j = true) ∧
      (∀ j, s'.lr_mask.testBit j = (s.lr_mask.testBit j || decide (i = j))) ∧
      (∃ lrv, gicv3_read_lr s' (i : Int) = some lrv ∧ lrv.state = GICH_LR_PENDING ∧
        lrv.virq = (s.pending_irqs virtual_irq).irq % 65536 ∧
        lrv.priority = (s.pending_irqs virtual_irq).priority % 256) ∧
      (∀ j, j ≠ i → s'.ich_lr j = s.ich_lr j) ∧
      (s'.pending_irqs virtual_irq).status.visible = true ∧
      (s'.pending_irqs virtual_irq).status.queued = false ∧
      (s'.pending_irqs virtual_irq).lr = i ∧
      s'.lr_pending = [] := by
  obtain ⟨j, hj, hjb⟩ := hfree
  have hlt : find_first_zero_bit s.lr_mask s.nr_lrs < s.nr_lrs :=
    find_next_zero_bit_of_clear 0 j (Nat.zero_le _) hj hjb
  obtain ⟨_, hclear, hbelow⟩ := find_next_zero_bit_lt hlt
  have h15 : find_first_zero_bit s.lr_mask s.nr_lrs ≤ 15 := by omega
  have hraise : gic_raise_guest_irq s true virtual_irq priority =
      gic_set_lr { s with lr_mask := set_bit (find_first_zero_bit s.lr_mask s.nr_lrs) s.lr_mask }
        (find_first_zero_bit s.lr_mask s.nr_lrs) virtual_irq GICH_LR_PENDING := by
    unfold gic_raise_guest_irq
    rw [if_pos ⟨rfl, hpend⟩]
    simp only []
    rw [if_pos hlt]
  rw [gic_set_lr_eq { s with lr_mask := set_bit (find_first_zero_bit s.lr_mask s.nr_lrs) s.lr_mask }
    _ _ _ hlt h15] at hraise
  refine ⟨_, _, hraise, hlt, hclear, fun j hj => hbelow j (Nat.zero_le _) hj,
    fun j => testBit_set_bit _ _ _, ?_, ?_, ?_, ?_, ?_, hpend⟩
  · refine ⟨_, read_lr_eq _ _ h15, ?_⟩
    simp only [Function.update_same, decode_lr_val]
    exact ⟨rfl, rfl, rfl⟩
  · intro j hj
    simp only [Function.update_noteq hj]
  · simp only [Function.update_same]
  · simp only [Function.update_same]
  · simp only [Function.update_same]

theorem mem_lr_pending_insert (pr : Nat → Nat) (n : Nat) (l : List Nat) (a : Nat) :
    a ∈ lr_pending_insert pr n l ↔ a = n ∨ a ∈ l := by
  induction l with
  | nil => simp [lr_pending_insert]
  | cons b rest ih =>
    unfold lr_pending_insert
    split
    · simp
    · simp only [List.mem_cons, ih]
      constructor
      · rintro (h | h | h)
        · exact Or.inr (Or.inl h)
        · exact Or.inl h
        · exact Or.inr (Or.inr h)
      · rintro (h | h | h)
        · exact Or.inr (Or.inl h)
        · exact Or.inl h
        · exact Or.inr (Or.inr h)

theorem lr_pending_insert_split (pr : Nat → Nat) (n : Nat) (l : List Nat) :
    ∃ l1 l2, l = l1 ++ l2 ∧ lr_pending_insert pr n l = l1 ++ n :: l2 ∧
      (∀ a ∈ l1, pr a ≤ pr n) ∧ (∀ b, l2.head? = some b → pr n < pr b) := by
  induction l with
  | nil => exact ⟨[], [], rfl, rfl, fun a h => absurd h (List.not_mem_nil a), fun b h => (by cases h)⟩
  | cons c rest ih =>
    unfold lr_pending_insert
    split
    · rename_i h
      refine ⟨[], c :: rest, rfl, rfl, fun a h => absurd h (List.not_mem_nil a), fun b hb => ?_⟩
      simp only [List.head?_cons, Option.some.injEq] at hb
      subst hb; exact h
    · rename_i h
      obtain ⟨l1, l2, h1, h2, h3, h4⟩ := ih
      refine ⟨c :: l1, l2, by rw [h1]; rfl, by rw [h2]; rfl, ?_, h4⟩
      intro a ha
      rcases List.mem_cons.mp ha with ha | ha
      · subst ha; omega
      · exact h3 a ha

theorem mem_gic_add_to_lr_pending (s : gic_state) (n : Nat) :
    n ∈ (gic_add_to_lr_pending s n).lr_pending := by
  unfold gic_add_to_lr_pending
  split
  · assumption
  · exact (mem_lr_pending_insert _ _ _ _).mpr (Or.inl rfl)

theorem add_to_lr_pending_frame (s : gic_state) (n : Nat) :
    (gic_add_to_lr_pending s n).lr_mask = s.lr_mask ∧
    (gic_add_to_lr_pending s n).ich_lr = s.ich_lr ∧
    (gic_add_to_lr_pending s n).pending_irqs = s.pending_irqs ∧
    (gic_add_to_lr_pending s n).inflight_irqs = s.inflight_irqs ∧
    (gic_add_to_lr_pending s n).irq_descs = s.irq_descs ∧
    (gic_add_to_lr_pending s n).nr_lrs = s.nr_lrs ∧
    (gic_add_to_lr_pending s n).ich_hcr = s.ich_hcr ∧
    (gic_add_to_lr_pending s n).vgic_version_v3 = s.vgic_version_v3 ∧
    (gic_add_to_lr_pending s n).target_processor = s.target_processor := by
  unfold gic_add_to_lr_pending
  split <;> exact ⟨rfl, rfl, rfl, rfl, rfl, rfl, rfl, rfl, rfl⟩

theorem raise_guest_irq_queues (s : gic_state) (cur : Bool) (virtual_irq priority : Nat)
    (h : cur = false ∨ s.lr_pending ≠ [] ∨ ∀ j, j < s.nr_lrs → s.lr_mask.testBit j = true) :
    gic_raise_guest_irq s cur virtual_irq priority = some (gic_add_to_lr_pending s virtual_irq) := by
  unfold gic_raise_guest_irq
  split
  · rename_i hc
    simp only []
    split
    · rename_i hlt
      exfalso
      rcases h with h | h | h
      · rw [h] at hc; exact absurd hc.1 (by decide)
      · exact h hc.2
      · obtain ⟨_, hclear, _⟩ := find_next_zero_bit_lt hlt
        have := h _ hlt
        unfold find_first_zero_bit at this
        rw [hclear] at this
        cases this
    · rfl
  · rfl

/-- C2: the slow path of `gic_raise_guest_irq`. When `v` is not the current vCPU, or
`lr_pending` is not empty, or all the bits of `lr_mask` below `nr_lrs` are set, the call
returns the state that `gic_add_to_lr_pending` produces: `lr_mask`, every list register
and every record (so the `VISIBLE` flag and the `lr` of the raised one) are unchanged,
and the interrupt is on `lr_pending` afterwards. -/
theorem gic_raise_guest_irq_slow_path (s : gic_state) (cur : Bool) (virtual_irq priority : Nat)
    (h : cur = false ∨ s.lr_pending ≠ [] ∨ ∀ j, j < s.nr_lrs → s.lr_mask.testBit j = true) :
    ∃ s', gic_raise_guest_irq s cur virtual_irq priority = some s' ∧
      s'.lr_mask = s.lr_mask ∧ (∀ j, s'.ich_lr j = s.ich_lr j) ∧
      (s'.pending_irqs virtual_irq).status.visible = (s.pending_irqs virtual_irq).status.visible ∧
      (s'.pending_irqs virtual_irq).lr = (s.pending_irqs virtual_irq).lr ∧
      s'.pending_irqs = s.pending_irqs ∧
      virtual_irq ∈ s'.lr_pending := by
  obtain ⟨h1, h2, h3, _⟩ := add_to_lr_pending_frame s virtual_irq
  refine ⟨_, raise_guest_irq_queues s cur virtual_irq priority h, h1, fun j => by rw [h2],
    by rw [h3], by rw [h3], h3, mem_gic_add_to_lr_pending s virtual_irq⟩

/-! ## The overflow list -/

theorem sorted_append_insert (pr : Nat → Nat) (n : Nat) (l1 l2 : List Nat)
    (hs : (l1 ++ l2).Pairwise (fun a b => pr a ≤ pr b))
    (h1 : ∀ a ∈ l1, pr a ≤ pr n) (h2 : ∀ b ∈ l2, pr n < pr b) :
    (l1 ++ n :: l2).Pairwise (fun a b => pr a ≤ pr b) := by
  rw [List.pairwise_append] at hs ⊢
  obtain ⟨hs1, hs2, hs3⟩ := hs
  refine ⟨hs1, List.pairwise_cons.mpr ⟨fun b hb => Nat.le_of_lt (h2 b hb), hs2⟩, ?_⟩
  intro a ha b hb
  rcases List.mem_cons.mp hb with hb | hb
  · subst hb; exact h1 a ha
  · exact hs3 a ha b hb

theorem sorted_tail_gt (pr : Nat → Nat) (n : Nat) (l2 : List Nat)
    (hs : l2.Pairwise (fun a b => pr a ≤ pr b))
    (hh : ∀ b, l2.head? = some b → pr n < pr b) : ∀ b ∈ l2, pr n < pr b := by
  cases l2 with
  | nil => intro b hb; cases hb
  | cons c rest =>
    intro b hb
    have hc := hh c rfl
    rcases List.mem_cons.mp hb with hb | hb
    · subst hb; exact hc
    · have := (List.pairwise_cons.mp hs).1 b hb
      omega

/-- C3: `gic_add_to_lr_pending` keeps `lr_pending` sorted and inserts stably. For a list
sorted by non-decreasing priority value and a record `n` that is not on it, the new list
is sorted and is the old list with `n` put in: the entries in front of `n` are the old
entries of priority value at most that of `n`, the entries behind it are the old entries of
greater priority value, both in their previous order, and nothing else of the state
changes. A record that is already on the list leaves the state as it is. -/
theorem gic_add_to_lr_pending_sorted_stable (s : gic_state) (n : Nat)
    (hn : n ∉ s.lr_pending) (hs : sorted_by_priority s s.lr_pending) :
    sorted_by_priority s (gic_add_to_lr_pending s n).lr_pending ∧
    (∃ l1 l2, s.lr_pending = l1 ++ l2 ∧
      (gic_add_to_lr_pending s n).lr_pending = l1 ++ n :: l2 ∧
      (∀ a ∈ l1, prio s a ≤ prio s n) ∧ (∀ b ∈ l2, prio s n < prio s b)) ∧
    (gic_add_to_lr_pending s n).pending_irqs = s.pending_irqs ∧
    (∀ m, m ∈ s.lr_pending → gic_add_to_lr_pending s m = s) := by
  have hfr := add_to_lr_pending_frame s n
  have heq : (gic_add_to_lr_pending s n).lr_pending =
      lr_pending_insert (fun k => (s.pending_irqs k).priority) n s.lr_pending := by
    unfold gic_add_to_lr_pending
    rw [if_neg hn]
  obtain ⟨l1, l2, h1, h2, h3, h4⟩ :=
    lr_pending_insert_split (fun k => (s.pending_irqs k).priority) n s.lr_pending
  have hs' : (l1 ++ l2).Pairwise (fun a b => prio s a ≤ prio s b) := by
    rw [← h1]; exact hs
  have h5 : ∀ b ∈ l2, prio s n < prio s b :=
    sorted_tail_gt (prio s) n l2 (List.pairwise_append.mp hs').2.1 h4
  refine ⟨?_, ⟨l1, l2, h1, by rw [heq, h2], h3, h5⟩, hfr.2.2.1, ?_⟩
  · unfold sorted_by_priority
    rw [heq, h2]
    exact sorted_append_insert (prio s) n l1 l2 hs' h3 h5
  · intro m hm
    unfold gic_add_to_lr_pending
    rw [if_pos hm]

/-- The fast path in `idle_state`: interrupt 7 is raised on the running vCPU. -/
theorem gic_raise_guest_irq_fast_path_witness :
    idle_state.lr_pending = [] ∧
    (∃ j, j < idle_state.nr_lrs ∧ idle_state.lr_mask.testBit j = false) ∧
    idle_state.nr_lrs ≤ 16 ∧
    ∃ i s', gic_raise_guest_irq idle_state true 7 0 = some s' ∧ i < idle_state.nr_lrs ∧
      (s'.pending_irqs 7).lr = i :=
  have h := gic_raise_guest_irq_fast_path idle_state 7 0 rfl ⟨0, by decide, by decide⟩ (by decide)
  ⟨rfl, ⟨0, by decide, by decide⟩, by decide,
    h.elim fun i hi => hi.elim fun s' hs =>
      ⟨i, s', hs.1, hs.2.1, hs.2.2.2.2.2.2.2.2.2.1⟩⟩

/-- The slow path in `two_slot_state`, where `lr_pending` is not empty. -/
theorem gic_raise_guest_irq_slow_path_witness :
    two_slot_state.lr_pending ≠ [] ∧
    ∃ s', gic_raise_guest_irq two_slot_state true 5 0 = some s' ∧
      s'.lr_mask = two_slot_state.lr_mask ∧ 5 ∈ s'.lr_pending :=
  have h := gic_raise_guest_irq_slow_path two_slot_state true 5 0 (Or.inr (Or.inl (by decide)))
  ⟨by decide, h.elim fun s' hs => ⟨s', hs.1, hs.2.1, hs.2.2.2.2.2.2⟩⟩

/-- Interrupt 2 (priority 20) goes between the entries of priority 15 and 30. -/
theorem gic_add_to_lr_pending_sorted_stable_witness :
    2 ∉ two_slot_state.lr_pending ∧ sorted_by_priority two_slot_state two_slot_state.lr_pending ∧
    sorted_by_priority two_slot_state (gic_add_to_lr_pending two_slot_state 2).lr_pending :=
  ⟨by decide, by decide,
    (gic_add_to_lr_pending_sorted_stable two_slot_state 2 (by decide) (by decide)).1⟩

/-! ## Admission of the overflow list -/

/-- C4: the code at the failing input. The second eviction of one pass can take the slot
of a record of higher priority than the candidate. In `two_slot_state` the in-flight list is sorted and holds both
overflow entries; the pass first evicts interrupt 2 (priority 20) for interrupt 3
(priority 15), then walks back from the node of interrupt 2 and evicts interrupt 3
(priority 15) for interrupt 4 (priority 30). -/
theorem gic_restore_pending_irqs_evicts_higher_priority :
    sorted_by_priority two_slot_state two_slot_state.inflight_irqs ∧
    (∀ k ∈ two_slot_state.lr_pending, k ∈ two_slot_state.inflight_irqs) ∧
    (gic_restore_pending_irqs_evictions two_slot_state).map
      (fun e => (e.victim, e.victim_rec.priority, e.candidate, e.candidate_rec.priority)) =
      [(2, 20, 3, 15), (3, 15, 4, 30)] ∧
    (gic_restore_pending_irqs two_slot_state).map
      (fun s => (s.lr_pending, (s.pending_irqs 4).status.visible, (s.pending_irqs 4).lr)) =
      some ([3, 2], true, 1) := by
  refine ⟨by decide, by decide, by decide, by decide⟩

theorem find_next_zero_bit_full {a size : Nat} (off : Nat)
    (h : ∀ j, j < size → a.testBit j = true) : size ≤ find_next_zero_bit a size off := by
  by_contra hc
  have hlt := Nat.lt_of_not_le hc
  have := (find_next_zero_bit_lt hlt).2.1
  rw [h _ hlt] at this
  cases this

theorem scan_for_victim_found {s : gic_state} {p p_r : Nat} {l : List Nat}
    (h : scan_for_victim s p l = victim_scan.found p_r) :
    p_r ∈ l ∧ (s.pending_irqs p_r).status.visible = true ∧
      (s.pending_irqs p_r).status.active = false ∧
      (s.pending_irqs p_r).priority ≠ (s.pending_irqs p).priority := by
  induction l with
  | nil => simp [scan_for_victim] at h
  | cons a rest ih =>
    unfold scan_for_victim at h
    split at h
    · cases h
    · rename_i hne
      split at h
      · rename_i hv
        cases h
        exact ⟨List.mem_cons_self _ _, hv.1, by simpa using hv.2, hne⟩
      · obtain ⟨h1, h2⟩ := ih h
        exact ⟨List.mem_cons_of_mem _ h1, h2⟩

theorem scan_for_victim_no_candidate {s : gic_state} {p : Nat} {l : List Nat}
    (h : ∀ k ∈ l, (s.pending_irqs k).status.visible = true →
      (s.pending_irqs k).status.active = true) (p_r : Nat) :
    scan_for_victim s p l ≠ victim_scan.found p_r := by
  intro hf
  obtain ⟨h1, h2, h3, _⟩ := scan_for_victim_found hf
  have := h p_r h1 h2
  rw [h3] at this
  cases this

theorem gic_restore_round_log (s : gic_state) (p lr : Nat) (ir : Option Nat) :
    ∀ e ∈ (gic_restore_round s p lr ir).log,
      e.victim_rec = s.pending_irqs e.victim ∧ e.victim ∈ s.inflight_irqs ∧
      e.candidate = p ∧ e.candidate_rec = s.pending_irqs p ∧
      e.victim_rec.status.visible = true ∧ e.victim_rec.status.active = false := by
  intro e he
  unfold gic_restore_round at he
  simp only [] at he
  split at he
  · split at he
    · simp [restore_round.log] at he
    · split at he <;> simp [restore_round.log] at he
    · rename_i p_r hscan
      obtain ⟨h1, h2, h3, _⟩ := scan_for_victim_found hscan
      have hmem : p_r ∈ s.inflight_irqs := by
        unfold reverse_walk at h1
        cases ir with
        | none => simpa using h1
        | some k =>
          simp only [List.mem_reverse] at h1
          exact (List.takeWhile_sublist _).subset h1
      split at he
      · simp only [restore_round.log, List.mem_singleton] at he
        subst he
        exact ⟨rfl, hmem, rfl, rfl, h2, h3⟩
      · simp only [restore_round.log, List.mem_singleton] at he
        subst he
        exact ⟨rfl, hmem, rfl, rfl, h2, h3⟩
  · split at he <;> simp [restore_round.log] at he

theorem gic_restore_loop_log (lrs : Nat) : ∀ (s : gic_state) (p lr : Nat) (ir : Option Nat),
    ∀ e ∈ (gic_restore_loop lrs s p lr ir).1,
      e.victim_rec.status.visible = true ∧ e.victim_rec.status.active = false := by
  induction lrs with
  | zero =>
    intro s p lr ir e he
    have hr := gic_restore_round_log s p lr ir
    unfold gic_restore_loop at he
    cases hround : gic_restore_round s p lr ir with
    | stop log r =>
      rw [hround] at he hr
      exact (hr e he).2.2.2.2
    | next log s1 lr1 ir1 =>
      rw [hround] at he hr
      exact (hr e he).2.2.2.2
  | succ n ih =>
    intro s p lr ir e he
    have hr := gic_restore_round_log s p lr ir
    unfold gic_restore_loop at he
    cases hround : gic_restore_round s p lr ir with
    | stop log r =>
      rw [hround] at he hr
      exact (hr e he).2.2.2.2
    | next log s1 lr1 ir1 =>
      rw [hround] at he hr
      simp only [restore_round.log] at hr
      simp only [] at he
      split at he
      · exact (hr e he).2.2.2.2
      · split at he
        · exact (hr e he).2.2.2.2
        · rename_i t1 _
          simp only [List.mem_append] at he
          rcases he with he | he
          · exact (hr e he).2.2.2.2
          · exact ih _ _ _ _ e he

theorem gic_restore_round_full_no_candidate (s : gic_state) (p lr : Nat)
    (hfull : ∀ j, j < s.nr_lrs → s.lr_mask.testBit j = true)
    (hact : ∀ k ∈ s.inflight_irqs, (s.pending_irqs k).status.visible = true →
      (s.pending_irqs k).status.active = true) :
    gic_restore_round s p lr none = restore_round.stop [] (some s) := by
  unfold gic_restore_round
  simp only []
  rw [if_pos (find_next_zero_bit_full lr hfull)]
  have hno : ∀ p_r, scan_for_victim s p (reverse_walk s none) ≠ victim_scan.found p_r :=
    scan_for_victim_no_candidate (fun k hk => hact k (by simpa [reverse_walk] using hk))
  cases hscan : scan_for_victim s p (reverse_walk s none) with
  | found p_r => exact absurd hscan (hno p_r)
  | same_priority => rfl
  | exhausted => rfl

theorem gic_restore_loop_of_stop (lrs : Nat) (s : gic_state) (p lr : Nat) (ir : Option Nat)
    (log : List eviction) (r : Option gic_state)
    (h : gic_restore_round s p lr ir = restore_round.stop log r) :
    gic_restore_loop lrs s p lr ir = (log, r) := by
  cases lrs <;> simp [gic_restore_loop, h]

/-- C5: eviction never touches `ACTIVE`. In every round of the admission loop and so in
every pass of `gic_restore_pending_irqs`, a victim is an in-flight record that was
`VISIBLE` and not `ACTIVE` in the state in which it was chosen. When all the slots are
taken and every `VISIBLE` in-flight record is `ACTIVE`, the pass evicts nothing and
returns the state unchanged (`lr_pending`, `lr_mask` and the list registers included). -/
theorem gic_restore_pending_irqs_never_evicts_active (s : gic_state) :
    (∀ (p lr : Nat) (ir : Option Nat), ∀ e ∈ (gic_restore_round s p lr ir).log,
      e.victim_rec = s.pending_irqs e.victim ∧ e.victim ∈ s.inflight_irqs ∧
      (s.pending_irqs e.victim).status.visible = true ∧
      (s.pending_irqs e.victim).status.active = false) ∧
    (∀ e ∈ gic_restore_pending_irqs_evictions s,
      e.victim_rec.status.visible = true ∧ e.victim_rec.status.active = false) ∧
    ((∀ j, j < s.nr_lrs → s.lr_mask.testBit j = true) →
      (∀ k ∈ s.inflight_irqs, (s.pending_irqs k).status.visible = true →
        (s.pending_irqs k).status.active = true) →
      gic_restore_pending_irqs_evictions s = [] ∧ gic_restore_pending_irqs s = some s) := by
  refine ⟨?_, ?_, ?_⟩
  · intro p lr ir e he
    obtain ⟨h1, h2, _, _, h5, h6⟩ := gic_restore_round_log s p lr ir e he
    exact ⟨h1, h2, h1 ▸ h5, h1 ▸ h6⟩
  · intro e he
    unfold gic_restore_pending_irqs_evictions gic_restore_pending_irqs_run at he
    split at he
    · simp at he
    · exact gic_restore_loop_log _ _ _ _ _ e he
  · intro hfull hact
    unfold gic_restore_pending_irqs_evictions gic_restore_pending_irqs
      gic_restore_pending_irqs_run
    split
    · exact ⟨rfl, rfl⟩
    · rename_i p rest _
      rw [gic_restore_loop_of_stop _ _ _ _ _ _ _
        (gic_restore_round_full_no_candidate s p 0 hfull hact)]
      exact ⟨rfl, rfl⟩

/-- With both slot holders `ACTIVE` the pass leaves `two_slot_active_state` as it is. -/
theorem gic_restore_pending_irqs_never_evicts_active_witness :
    (∀ j, j < two_slot_active_state.nr_lrs → two_slot_active_state.lr_mask.testBit j = true) ∧
    (∀ k ∈ two_slot_active_state.inflight_irqs,
      (two_slot_active_state.pending_irqs k).status.visible = true →
      (two_slot_active_state.pending_irqs k).status.active = true) ∧
    two_slot_active_state.lr_pending = [3, 4] ∧
    gic_restore_pending_irqs_evictions two_slot_active_state = [] ∧
    gic_restore_pending_irqs two_slot_active_state = some two_slot_active_state :=
  ⟨by decide, by decide, rfl,
    (gic_restore_pending_irqs_never_evicts_active two_slot_active_state).2.2
      (by decide) (by decide)⟩

theorem scan_for_victim_same_priority (s : gic_state) (p : Nat) (l : List Nat)
    (hx : ∃ x ∈ l, prio s x = prio s p)
    (hmax : ∀ y ∈ l, (s.pending_irqs y).status.visible = true →
      (s.pending_irqs y).status.active = false → prio s y ≤ prio s p)
    (hs : l.Pairwise (fun a b => prio s b ≤ prio s a)) :
    scan_for_victim s p l = victim_scan.same_priority := by
  induction l with
  | nil => obtain ⟨x, hx, _⟩ := hx; cases hx
  | cons a rest ih =>
    unfold scan_for_victim
    by_cases heq : (s.pending_irqs a).priority = (s.pending_irqs p).priority
    · rw [if_pos heq]
    · rw [if_neg heq]
      obtain ⟨x, hxm, hxp⟩ := hx
      have hxr : x ∈ rest := by
        rcases List.mem_cons.mp hxm with h | h
        · subst h; exact absurd hxp heq
        · exact h
      have hax : prio s x ≤ prio s a := (List.pairwise_cons.mp hs).1 x hxr
      by_cases hv : (s.pending_irqs a).status.visible = true ∧
          ¬ (s.pending_irqs a).status.active = true
      · exfalso
        have := hmax a (List.mem_cons_self _ _) hv.1 (by simpa using hv.2)
        unfold prio at this hax hxp
        omega
      · rw [if_neg hv]
        exact ih ⟨x, hxr, hxp⟩ (fun y hy => hmax y (List.mem_cons_of_mem _ hy))
          (List.pairwise_cons.mp hs).2

/-- C6: no same-priority preemption. When all the slots are taken, the in-flight list is
sorted, the head `p` of `lr_pending` has priority `P`, some `VISIBLE` non-`ACTIVE`
in-flight record has priority `P` and none has a greater priority value, the pass of
`gic_restore_pending_irqs` evicts nothing and returns the state as it was: `lr_mask`, the
list registers, every record and `lr_pending`, where `p` still waits. -/
theorem gic_restore_pending_irqs_no_same_priority_preemption (s : gic_state) (p : Nat)
    (rest : List Nat)
    (hfull : ∀ j, j < s.nr_lrs → s.lr_mask.testBit j = true)
    (hsorted : sorted_by_priority s s.inflight_irqs)
    (hhead : s.lr_pending = p :: rest)
    (hsame : ∃ x ∈ s.inflight_irqs, (s.pending_irqs x).status.visible = true ∧
      (s.pending_irqs x).status.active = false ∧ prio s x = prio s p)
    (hnone : ∀ y ∈ s.inflight_irqs, (s.pending_irqs y).status.visible = true →
      (s.pending_irqs y).status.active = false → prio s y ≤ prio s p) :
    gic_restore_pending_irqs_evictions s = [] ∧ gic_restore_pending_irqs s = some s ∧
      p ∈ s.lr_pending := by
  have hscan : scan_for_victim s p (reverse_walk s none) = victim_scan.same_priority := by
    apply scan_for_victim_same_priority
    · obtain ⟨x, hx, _, _, hp⟩ := hsame
      exact ⟨x, by simpa [reverse_walk] using hx, hp⟩
    · intro y hy
      exact hnone y (by simpa [reverse_walk] using hy)
    · simp only [reverse_walk, List.pairwise_reverse]
      exact hsorted
  have hround : gic_restore_round s p 0 none = restore_round.stop [] (some s) := by
    unfold gic_restore_round
    simp only []
    rw [if_pos (find_next_zero_bit_full 0 hfull), hscan]
  unfold gic_restore_pending_irqs_evictions gic_restore_pending_irqs gic_restore_pending_irqs_run
  rw [hhead]
  simp only []
  rw [gic_restore_loop_of_stop _ _ _ _ _ _ _ hround]
  exact ⟨rfl, rfl, List.mem_cons_self _ _⟩

/-- Interrupt 5 (priority 20) does not evict interrupt 2 (priority 20). -/
theorem gic_restore_pending_irqs_no_same_priority_preemption_witness :
    (∀ j, j < same_priority_state.nr_lrs → same_priority_state.lr_mask.testBit j = true) ∧
    sorted_by_priority same_priority_state same_priority_state.inflight_irqs ∧
    same_priority_state.lr_pending = [5] ∧
    prio same_priority_state 2 = prio same_priority_state 5 ∧
    gic_restore_pending_irqs same_priority_state = some same_priority_state :=
  ⟨by decide, by decide, rfl, by decide,
    (gic_restore_pending_irqs_no_same_priority_preemption same_priority_state 5 []
      (by decide) (by decide) rfl ⟨2, by decide, by decide, by decide, by decide⟩
      (by decide)).2.1⟩

/-! ## Reconciliation of one list register -/

theorem read_lr_some {s : gic_state} {i : Nat} {lr_val : gic_lr}
    (h : gicv3_read_lr s (i : Int) = some lr_val) :
    i ≤ 15 ∧ lr_val = gicv3_decode_lr (s.ich_lr i) := by
  unfold gicv3_read_lr gicv3_ich_read_lr at h
  by_cases hi : (0 : Int) ≤ (i : Int) ∧ (i : Int) ≤ 15
  · rw [if_pos hi] at h
    simp only [Int.toNat_ofNat, Option.some.injEq] at h
    exact ⟨by omega, h.symm⟩
  · rw [if_neg hi] at h
    cases h

/-- C9: reconciliation of a slot that reads back Pending and not Active. The call returns
and changes nothing but the `QUEUED` bit of the record named by the register, which
is cleared: `lr_mask`, the list registers, the other status bits and the `lr` of the
record, every other record, the descriptors and both lists are as before. -/
theorem gic_update_one_lr_pending (s : gic_state) (cur : Bool) (i : Nat) (lr_val : gic_lr)
    (hread : gicv3_read_lr s (i : Int) = some lr_val)
    (hact : lr_val.state &&& GICH_LR_ACTIVE = 0)
    (hpend : lr_val.state &&& GICH_LR_PENDING ≠ 0) :
    ∃ s', gic_update_one_lr s cur i = some s' ∧
      s'.lr_mask = s.lr_mask ∧ s'.ich_lr = s.ich_lr ∧ s'.irq_descs = s.irq_descs ∧
      s'.inflight_irqs = s.inflight_irqs ∧ s'.lr_pending = s.lr_pending ∧
      s'.pending_irqs lr_val.virq =
        { s.pending_irqs lr_val.virq with
          status := { (s.pending_irqs lr_val.virq).status with queued := false } } ∧
      (∀ k, k ≠ lr_val.virq → s'.pending_irqs k = s.pending_irqs k) := by
  have heq : gic_update_one_lr s cur i = some (set_pending s lr_val.virq
      { s.pending_irqs lr_val.virq with
        status := { (s.pending_irqs lr_val.virq).status with queued := false } }) := by
    unfold gic_update_one_lr
    rw [hread]
    simp only []
    rw [if_neg (by rw [hact]; exact fun h => h rfl), if_pos hpend]
  refine ⟨_, heq, rfl, rfl, rfl, rfl, rfl, ?_, ?_⟩
  · simp [set_pending]
  · intro k hk
    simp [set_pending, Function.update_noteq hk]

/-- Slot 0 of `two_slot_state` reads back Pending. -/
theorem gic_update_one_lr_pending_witness :
    gicv3_read_lr two_slot_state 0 =
      some { pirq := 0, virq := 1, priority := 10, state := 1, hw_status := 0, grp := 1 } ∧
    ∃ s', gic_update_one_lr two_slot_state true 0 = some s' ∧
      s'.lr_mask = two_slot_state.lr_mask ∧ (s'.pending_irqs 1).status.queued = false :=
  have h := gic_update_one_lr_pending two_slot_state true 0
    { pirq := 0, virq := 1, priority := 10, state := 1, hw_status := 0, grp := 1 }
    (by decide) (by decide) (by decide)
  ⟨by decide, h.elim fun s' hs => ⟨s', hs.1, hs.2.1, by rw [hs.2.2.2.2.2.2.1]⟩⟩

theorem decode_encode_of_decode (x : Nat) (st : Nat) (hst : st < 4) :
    gicv3_decode_lr (gicv3_encode_lr { (gicv3_decode_lr x) with state := st }) =
      { (gicv3_decode_lr x) with state := st } := by
  rw [decode_encode_fields]
  obtain ⟨h1, h2, h3, _, h5, h6⟩ := decode_fields_lt x
  simp only [Nat.mod_eq_of_lt h1, Nat.mod_eq_of_lt h2, Nat.mod_eq_of_lt h3, Nat.mod_eq_of_lt hst,
    Nat.mod_eq_of_lt h5, Nat.mod_eq_of_lt h6]

/-- C8 as stated fails: a record that is `QUEUED`, has no physical source and is not
`ENABLED`, in a slot that reads back Active. The slot is occupied, the register reads
back state Active, and after `gic_update_one_lr` the record is still `QUEUED` and the
register holds the value it held before, without the Pending bit. -/
theorem gic_update_one_lr_disabled_keeps_queued_counterexample :
    slot0_active_disabled_state.lr_mask.testBit 0 = true ∧
    gicv3_read_lr slot0_active_disabled_state 0 = some
      { pirq := 0, virq := 1, priority := 10, state := GICH_LR_ACTIVE, hw_status := 0,
        grp := 1 } ∧
    (slot0_active_disabled_state.pending_irqs 1).status.queued = true ∧
    (slot0_active_disabled_state.pending_irqs 1).desc = none ∧
    (gic_update_one_lr slot0_active_disabled_state true 0).map
      (fun s' => (s'.pending_irqs 1).status.queued) = some true ∧
    (gic_update_one_lr slot0_active_disabled_state true 0).map
      (fun s' => s'.ich_lr 0) = some (slot0_active_disabled_state.ich_lr 0) := by
  refine ⟨by decide, by decide, by decide, by decide, by decide, by decide⟩

/-- C8, amended: reconciliation of a slot that reads back with the Active bit. The call
returns, the record named by the register is `ACTIVE`, and `lr_mask`, the `VISIBLE` bit
and the `lr` of the record and both lists are unchanged. When the record is `ENABLED`
and `QUEUED` and has no physical source, the register is written back with the Pending
bit added to its state (the Active bit stays; virtual id, priority and the other fields
are as read), no other register changes and `QUEUED` is cleared. Otherwise no register
changes, and a record that is not `ENABLED` keeps its `QUEUED` bit. -/
theorem gic_update_one_lr_active (s : gic_state) (cur : Bool) (i : Nat) (lr_val : gic_lr)
    (hread : gicv3_read_lr s (i : Int) = some lr_val)
    (hact : lr_val.state &&& GICH_LR_ACTIVE ≠ 0) :
    ∃ s', gic_update_one_lr s cur i = some s' ∧
      (s'.pending_irqs lr_val.virq).status.active = true ∧
      s'.lr_mask = s.lr_mask ∧
      (s'.pending_irqs lr_val.virq).status.visible =
        (s.pending_irqs lr_val.virq).status.visible ∧
      (s'.pending_irqs lr_val.virq).lr = (s.pending_irqs lr_val.virq).lr ∧
      s'.inflight_irqs = s.inflight_irqs ∧ s'.lr_pending = s.lr_pending ∧
      ((s.pending_irqs lr_val.virq).status.enabled = true →
        (s.pending_irqs lr_val.virq).status.queued = true →
        (s.pending_irqs lr_val.virq).desc = none →
        gicv3_read_lr s' (i : Int) =
          some { lr_val with state := lr_val.state ||| GICH_LR_PENDING } ∧
        (∀ j, j ≠ i → s'.ich_lr j = s.ich_lr j) ∧
        (s'.pending_irqs lr_val.virq).status.queued = false) ∧
      (¬ ((s.pending_irqs lr_val.virq).status.enabled = true ∧
          (s.pending_irqs lr_val.virq).status.queued = true ∧
          (s.pending_irqs lr_val.virq).desc = none) → s'.ich_lr = s.ich_lr) ∧
      ((s.pending_irqs lr_val.virq).status.enabled = false →
        (s'.pending_irqs lr_val.virq).status.queued =
          (s.pending_irqs lr_val.virq).status.queued) := by
  obtain ⟨h15, hdec⟩ := read_lr_some hread
  have hst : lr_val.state ||| GICH_LR_PENDING < 4 := by
    have h4 : lr_val.state < 2 ^ 2 := by rw [hdec]; exact (decode_fields_lt _).2.2.2.1
    exact Nat.or_lt_two_pow h4 (by decide)
  unfold gic_update_one_lr
  rw [hread]
  simp only []
  rw [if_pos hact]
  by_cases hen : (s.pending_irqs lr_val.virq).status.enabled = true
  · by_cases hq : (s.pending_irqs lr_val.virq).status.queued = true
    · rw [if_pos ⟨hen, hq⟩]
      by_cases hd : (s.pending_irqs lr_val.virq).desc = none
      · rw [if_pos hd]
        unfold gicv3_write_lr
        rw [ich_write_lr_eq _ _ _ h15]
        refine ⟨_, rfl, ?_, rfl, ?_, ?_, rfl, rfl, ?_, ?_, ?_⟩
        · simp [set_pending]
        · simp [set_pending]
        · simp [set_pending]
        · intro _ _ _
          refine ⟨?_, ?_, ?_⟩
          · rw [read_lr_eq _ _ h15]
            simp only [Function.update_same]
            rw [hdec, decode_encode_of_decode _ _ (by rw [← hdec]; exact hst)]
          · intro j hj
            simp [set_pending, Function.update_noteq hj]
          · simp [set_pending]
        · intro hn; exact absurd ⟨hen, hq, hd⟩ hn
        · intro h; rw [hen] at h; cases h
      · rw [if_neg hd]
        refine ⟨_, rfl, ?_, rfl, ?_, ?_, rfl, rfl, ?_, ?_, ?_⟩
        · simp [set_pending]
        · simp [set_pending]
        · simp [set_pending]
        · intro _ _ h; exact absurd h hd
        · intro _; rfl
        · intro h; rw [hen] at h; cases h
    · rw [if_neg (fun h => hq h.2)]
      refine ⟨_, rfl, ?_, rfl, ?_, ?_, rfl, rfl, ?_, ?_, ?_⟩
      · simp [set_pending]
      · simp [set_pending]
      · simp [set_pending]
      · intro _ h; exact absurd h hq
      · intro _; rfl
      · intro _; simp [set_pending]
  · rw [if_neg (fun h => hen h.1)]
    refine ⟨_, rfl, ?_, rfl, ?_, ?_, rfl, rfl, ?_, ?_, ?_⟩
    · simp [set_pending]
    · simp [set_pending]
    · simp [set_pending]
    · intro h; exact absurd h hen
    · intro _; rfl
    · intro _; simp [set_pending]

/-- Slot 0 of `slot0_active_queued_state` reads back Active and is written back as
Pending and Active. -/
theorem gic_update_one_lr_active_witness :
    gicv3_read_lr slot0_active_queued_state 0 = some
      { pirq := 0, virq := 1, priority := 10, state := GICH_LR_ACTIVE, hw_status := 0,
        grp := 1 } ∧
    (slot0_active_queued_state.pending_irqs 1).status.enabled = true ∧
    (slot0_active_queued_state.pending_irqs 1).status.queued = true ∧
    (slot0_active_queued_state.pending_irqs 1).desc = none ∧
    ∃ s', gic_update_one_lr slot0_active_queued_state true 0 = some s' ∧
      (s'.pending_irqs 1).status.active = true ∧
      gicv3_read_lr s' 0 = some
        { pirq := 0, virq := 1, priority := 10, state := 3, hw_status := 0, grp := 1 } ∧
      (s'.pending_irqs 1).status.queued = false :=
  have h := gic_update_one_lr_active slot0_active_queued_state true 0
    { pirq := 0, virq := 1, priority := 10, state := GICH_LR_ACTIVE, hw_status := 0, grp := 1 }
    (by decide) (by decide)
  ⟨by decide, by decide, by decide, by decide,
    h.elim fun s' hs =>
      ⟨s', hs.1, hs.2.1,
        (hs.2.2.2.2.2.2.2.1 (by decide) (by decide) (by decide)).1,
        (hs.2.2.2.2.2.2.2.1 (by decide) (by decide) (by decide)).2.2⟩⟩

theorem ich_write_lr_frame (s : gic_state) (lr : Int) (val : Nat) :
    (gicv3_ich_write_lr s lr val).nr_lrs = s.nr_lrs ∧
    (gicv3_ich_write_lr s lr val).vgic_version_v3 = s.vgic_version_v3 ∧
    (gicv3_ich_write_lr s lr val).lr_mask = s.lr_mask ∧
    (gicv3_ich_write_lr s lr val).ich_hcr = s.ich_hcr ∧
    (gicv3_ich_write_lr s lr val).pending_irqs = s.pending_irqs ∧
    (gicv3_ich_write_lr s lr val).inflight_irqs = s.inflight_irqs ∧
    (gicv3_ich_write_lr s lr val).lr_pending = s.lr_pending ∧
    (gicv3_ich_write_lr s lr val).irq_descs = s.irq_descs ∧
    (gicv3_ich_write_lr s lr val).target_processor = s.target_processor := by
  unfold gicv3_ich_write_lr
  split <;> exact ⟨rfl, rfl, rfl, rfl, rfl, rfl, rfl, rfl, rfl⟩

theorem gic_set_lr_frame (s : gic_state) (lr p state : Nat) (h : lr < s.nr_lrs) :
    ∃ s', gic_set_lr s lr p state = some s' ∧
      s'.nr_lrs = s.nr_lrs ∧ s'.lr_mask = s.lr_mask ∧
      s'.inflight_irqs = s.inflight_irqs ∧ s'.lr_pending = s.lr_pending ∧
      s'.irq_descs = s.irq_descs ∧
      s'.pending_irqs = Function.update s.pending_irqs p
        { s.pending_irqs p with
          status := { (s.pending_irqs p).status with visible := true, queued := false }
          lr := lr } := by
  unfold gic_set_lr
  rw [update_lr_eq s lr _ state h]
  obtain ⟨h1, _, h3, _, h5, h6, h7, h8, _⟩ :=
    ich_write_lr_frame s (lr : Int) (gicv3_lr_val s (s.pending_irqs p) state)
  exact ⟨_, rfl, h1, h3, h6, h7, h8, by simp only [h5]⟩

theorem raise_guest_irq_frame (s : gic_state) (cur : Bool) (virtual_irq priority : Nat) :
    ∃ s', gic_raise_guest_irq s cur virtual_irq priority = some s' ∧
      s'.nr_lrs = s.nr_lrs ∧ s'.inflight_irqs = s.inflight_irqs ∧
      s'.irq_descs = s.irq_descs := by
  unfold gic_raise_guest_irq
  split
  · simp only []
    split
    · rename_i hlt
      obtain ⟨s', h1, h2, _, h4, _, h6, _⟩ := gic_set_lr_frame
        { s with lr_mask := set_bit (find_first_zero_bit s.lr_mask s.nr_lrs) s.lr_mask }
        (find_first_zero_bit s.lr_mask s.nr_lrs) virtual_irq GICH_LR_PENDING hlt
      exact ⟨s', h1, h2, h4, h6⟩
    · obtain ⟨_, _, _, h4, h5, h6, _⟩ := add_to_lr_pending_frame s virtual_irq
      exact ⟨_, rfl, h6, h4, h5⟩
  · obtain ⟨_, _, _, h4, h5, h6, _⟩ := add_to_lr_pending_frame s virtual_irq
    exact ⟨_, rfl, h6, h4, h5⟩

theorem retired_slot_state_eq (s : gic_state) (i irq : Nat) (h15 : i ≤ 15) :
    retired_slot_state s i irq =
      set_pending
        (match (s.pending_irqs irq).desc with
          | some d =>
            { s with
              ich_lr := Function.update s.ich_lr i 0
              lr_mask := clear_bit i s.lr_mask
              irq_descs := Function.update s.irq_descs d { s.irq_descs d with inprogress := false } }
          | none =>
            { s with
              ich_lr := Function.update s.ich_lr i 0
              lr_mask := clear_bit i s.lr_mask })
        irq
        { s.pending_irqs irq with
          status := { (s.pending_irqs irq).status with visible := false, active := false }
          lr := GIC_INVALID_LR } := by
  unfold retired_slot_state gicv3_clear_lr
  rw [ich_write_lr_eq _ _ _ h15]

theorem update_one_lr_retired_unfold (s : gic_state) (cur : Bool) (i : Nat) (lr_val : gic_lr)
    (hread : gicv3_read_lr s (i : Int) = some lr_val)
    (hact : lr_val.state &&& GICH_LR_ACTIVE = 0)
    (hpend : lr_val.state &&& GICH_LR_PENDING = 0) :
    gic_update_one_lr s cur i =
      if (s.pending_irqs lr_val.virq).status.enabled = true ∧
          (s.pending_irqs lr_val.virq).status.queued = true ∧
          ¬ (s.pending_irqs lr_val.virq).status.migrating = true then
        gic_raise_guest_irq (retired_slot_state s i lr_val.virq) cur lr_val.virq
          (s.pending_irqs lr_val.virq).priority
      else
        let s4 := retired_slot_state s i lr_val.virq
        let s5 := { s4 with
          inflight_irqs := s4.inflight_irqs.filter (fun k => k != lr_val.virq) }
        if (s.pending_irqs lr_val.virq).status.migrating = true then
          let s6 := set_pending s5 lr_val.virq
            { s4.pending_irqs lr_val.virq with
              status := { (s4.pending_irqs lr_val.virq).status with migrating := false } }
          some (irq_set_affinity s6 (s.pending_irqs lr_val.virq).desc
            (s6.target_processor lr_val.virq))
        else some s5 := by
  unfold gic_update_one_lr
  rw [hread]
  simp only []
  rw [if_neg (by rw [hact]; exact fun h => h rfl), if_neg (by rw [hpend]; exact fun h => h rfl)]
  unfold retired_slot_state
  simp [set_pending]

/-- C7: reconciliation of a slot that reads back with neither the Pending nor the Active
bit. There is a state `s4`, reached first, in which register `i` is zero, bit `i` of
`lr_mask` is clear, the record named by the register has lost `VISIBLE` and `ACTIVE` and
has `lr = GIC_INVALID_LR`, and its physical source, when it has one, has lost
`IN_PROGRESS`; nothing else differs from the start. If the record is `ENABLED`, `QUEUED`
and not `MIGRATING`, the result is that of `gic_raise_guest_irq` on `s4`, which returns,
and the in-flight list is as before. Otherwise the call returns a state whose in-flight
list is the old one without the record and which agrees with `s4` on `lr_mask`, the
registers, `lr_pending` and the `VISIBLE`, `ACTIVE`, `lr` of the record. -/
theorem gic_update_one_lr_retired (s : gic_state) (cur : Bool) (i : Nat) (lr_val : gic_lr)
    (hread : gicv3_read_lr s (i : Int) = some lr_val)
    (hact : lr_val.state &&& GICH_LR_ACTIVE = 0)
    (hpend : lr_val.state &&& GICH_LR_PENDING = 0) :
    ∃ s4 : gic_state,
      s4.ich_lr = Function.update s.ich_lr i 0 ∧
      s4.lr_mask = clear_bit i s.lr_mask ∧ s4.lr_mask.testBit i = false ∧
      s4.pending_irqs lr_val.virq =
        { s.pending_irqs lr_val.virq with
          status := { (s.pending_irqs lr_val.virq).status with visible := false, active := false }
          lr := GIC_INVALID_LR } ∧
      (∀ k, k ≠ lr_val.virq → s4.pending_irqs k = s.pending_irqs k) ∧
      (∀ d, (s.pending_irqs lr_val.virq).desc = some d →
        s4.irq_descs d = { s.irq_descs d with inprogress := false }) ∧
      (∀ d, (s.pending_irqs lr_val.virq).desc ≠ some d → s4.irq_descs d = s.irq_descs d) ∧
      s4.inflight_irqs = s.inflight_irqs ∧ s4.lr_pending = s.lr_pending ∧
      (((s.pending_irqs lr_val.virq).status.enabled = true ∧
          (s.pending_irqs lr_val.virq).status.queued = true ∧
          (s.pending_irqs lr_val.virq).status.migrating = false) →
        gic_update_one_lr s cur i =
          gic_raise_guest_irq s4 cur lr_val.virq (s.pending_irqs lr_val.virq).priority ∧
        ∃ s', gic_update_one_lr s cur i = some s' ∧ s'.inflight_irqs = s.inflight_irqs) ∧
      (¬ ((s.pending_irqs lr_val.virq).status.enabled = true ∧
          (s.pending_irqs lr_val.virq).status.queued = true ∧
          (s.pending_irqs lr_val.virq).status.migrating = false) →
        ∃ s', gic_update_one_lr s cur i = some s' ∧
          s'.inflight_irqs = s.inflight_irqs.filter (fun k => k != lr_val.virq) ∧
          lr_val.virq ∉ s'.inflight_irqs ∧
          s'.lr_mask = s4.lr_mask ∧ s'.ich_lr = s4.ich_lr ∧ s'.lr_pending = s4.lr_pending ∧
          (s'.pending_irqs lr_val.virq).status.visible = false ∧
          (s'.pending_irqs lr_val.virq).status.active = false ∧
          (s'.pending_irqs lr_val.virq).lr = GIC_INVALID_LR ∧
          (∀ d, (s.pending_irqs lr_val.virq).desc = some d →
            (s'.irq_descs d).inprogress = false)) := by
  obtain ⟨h15, _⟩ := read_lr_some hread
  have hupd := update_one_lr_retired_unfold s cur i lr_val hread hact hpend
  have hs4 : retired_slot_state s i lr_val.virq = _ := retired_slot_state_eq s i lr_val.virq h15
  refine ⟨retired_slot_state s i lr_val.virq, ?_, ?_, ?_, ?_, ?_, ?_, ?_, ?_, ?_, ?_, ?_⟩
  · rw [hs4]; cases (s.pending_irqs lr_val.virq).desc <;> rfl
  · rw [hs4]; cases (s.pending_irqs lr_val.virq).desc <;> rfl
  · have : (retired_slot_state s i lr_val.virq).lr_mask = clear_bit i s.lr_mask := by
      rw [hs4]; cases (s.pending_irqs lr_val.virq).desc <;> rfl
    rw [this, testBit_clear_bit]
    simp
  · rw [hs4]; cases (s.pending_irqs lr_val.virq).desc <;> simp [set_pending]
  · intro k hk
    rw [hs4]; cases (s.pending_irqs lr_val.virq).desc <;> simp [set_pending, Function.update_noteq hk]
  · intro d hd
    rw [hs4, hd]; simp [set_pending]
  · intro d hd
    rw [hs4]
    cases hd' : (s.pending_irqs lr_val.virq).desc with
    | none => rfl
    | some d' =>
      have : d ≠ d' := fun h => hd (by rw [hd', h])
      simp [set_pending, Function.update_noteq this]
  · rw [hs4]; cases (s.pending_irqs lr_val.virq).desc <;> rfl
  · rw [hs4]; cases (s.pending_irqs lr_val.virq).desc <;> rfl
  · intro hc
    have hc' : (s.pending_irqs lr_val.virq).status.enabled = true ∧
        (s.pending_irqs lr_val.virq).status.queued = true ∧
        ¬ (s.pending_irqs lr_val.virq).status.migrating = true := ⟨hc.1, hc.2.1, by simp [hc.2.2]⟩
    rw [hupd, if_pos hc']
    refine ⟨rfl, ?_⟩
    obtain ⟨s', h1, _, h3, _⟩ := raise_guest_irq_frame (retired_slot_state s i lr_val.virq) cur
      lr_val.virq (s.pending_irqs lr_val.virq).priority
    refine ⟨s', h1, ?_⟩
    rw [h3, hs4]; cases (s.pending_irqs lr_val.virq).desc <;> rfl
  · intro hc
    have hc' : ¬ ((s.pending_irqs lr_val.virq).status.enabled = true ∧
        (s.pending_irqs lr_val.virq).status.queued = true ∧
        ¬ (s.pending_irqs lr_val.virq).status.migrating = true) := by
      intro h; exact hc ⟨h.1, h.2.1, by simpa using h.2.2⟩
    rw [hupd, if_neg hc']
    have hfil : lr_val.virq ∉ s.inflight_irqs.filter (fun k => k != lr_val.virq) := by
      simp [List.mem_filter]
    by_cases hm : (s.pending_irqs lr_val.virq).status.migrating = true
    · rw [if_pos hm]
      cases hd : (s.pending_irqs lr_val.virq).desc with
      | none =>
        rw [hs4, hd]
        refine ⟨_, rfl, rfl, hfil, rfl, rfl, rfl, ?_, ?_, ?_, ?_⟩
        · simp [irq_set_affinity, set_pending]
        · simp [irq_set_affinity, set_pending]
        · simp [irq_set_affinity, set_pending]
        · intro d h; cases h
      | some d =>
        rw [hs4, hd]
        refine ⟨_, rfl, rfl, hfil, rfl, rfl, rfl, ?_, ?_, ?_, ?_⟩
        · simp [irq_set_affinity, set_pending]
        · simp [irq_set_affinity, set_pending]
        · simp [irq_set_affinity, set_pending]
        · intro d' h
          cases h
          simp [irq_set_affinity, set_pending]
    · rw [if_neg hm]
      cases hd : (s.pending_irqs lr_val.virq).desc with
      | none =>
        rw [hs4, hd]
        refine ⟨_, rfl, rfl, hfil, rfl, rfl, rfl, ?_, ?_, ?_, ?_⟩
        · simp [set_pending]
        · simp [set_pending]
        · simp [set_pending]
        · intro d h; cases h
      | some d =>
        rw [hs4, hd]
        refine ⟨_, rfl, rfl, hfil, rfl, rfl, rfl, ?_, ?_, ?_, ?_⟩
        · simp [set_pending]
        · simp [set_pending]
        · simp [set_pending]
        · intro d' h
          cases h
          simp [set_pending]

/-- Slot 0 of `slot0_retired_state` reads back retired; interrupt 1 is not `QUEUED` and
leaves the in-flight list. -/
theorem gic_update_one_lr_retired_witness :
    gicv3_read_lr slot0_retired_state 0 =
      some { pirq := 0, virq := 1, priority := 10, state := 0, hw_status := 0, grp := 1 } ∧
    (slot0_retired_state.pending_irqs 1).status.queued = false ∧
    1 ∈ slot0_retired_state.inflight_irqs ∧
    ∃ s', gic_update_one_lr slot0_retired_state true 0 = some s' ∧ 1 ∉ s'.inflight_irqs ∧
      (s'.pending_irqs 1).lr = GIC_INVALID_LR :=
  have h := gic_update_one_lr_retired slot0_retired_state true 0
    { pirq := 0, virq := 1, priority := 10, state := 0, hw_status := 0, grp := 1 }
    (by decide) (by decide) (by decide)
  ⟨by decide, by decide, by decide,
    h.elim fun _ hs =>
      (hs.2.2.2.2.2.2.2.2.2.2 (by decide)).elim fun s' hs' =>
        ⟨s', hs'.1, hs'.2.2.1, hs'.2.2.2.2.2.2.2.2.1⟩⟩

/-! ## Slot exclusivity -/

theorem slot_exclusive_iff_core (s : gic_state) :
    slot_exclusive s ↔ slot_exclusive_core s.nr_lrs (fun i => s.lr_mask.testBit i)
      (fun k => (s.pending_irqs k).status.visible) (fun k => (s.pending_irqs k).lr) := by
  unfold slot_exclusive slot_exclusive_core
  beta_reduce
  constructor
  · rintro ⟨h1, h2, h3⟩
    refine ⟨fun i hi hb => ?_, fun k hv hk => ?_, h2, h3⟩
    · obtain ⟨k, hk, _⟩ := (h1 i hi).mp hb
      exact ⟨k, hk⟩
    · exact (h1 _ hk).mpr ⟨k, ⟨hv, rfl⟩, fun y hy => h2 y k hy.1 hv hy.2⟩
  · rintro ⟨h1, h2, h3, h4⟩
    refine ⟨fun i hi => ⟨fun hb => ?_, fun hk => ?_⟩, h3, h4⟩
    · obtain ⟨k, hv, hk⟩ := h1 i hi hb
      exact ⟨k, ⟨hv, hk⟩, fun y hy => h3 y k hy.1 hv (hy.2.trans hk.symm)⟩
    · obtain ⟨k, ⟨hv, hk⟩, _⟩ := hk
      have := h2 k hv (by omega)
      rwa [hk] at this

theorem slot_exclusive_core_congr {n : Nat} {bits bits' vis vis' : Nat → Bool} {lrf lrf' : Nat → Nat}
    (h : slot_exclusive_core n bits vis lrf) (hb : ∀ i, bits' i = bits i)
    (hv : ∀ k, vis' k = vis k) (hl : ∀ k, lrf' k = lrf k) :
    slot_exclusive_core n bits' vis' lrf' := by
  have e1 : bits' = bits := funext hb
  have e2 : vis' = vis := funext hv
  have e3 : lrf' = lrf := funext hl
  rw [e1, e2, e3]; exact h

theorem slot_exclusive_core_install {n : Nat} {bits bits' vis vis' : Nat → Bool}
    {lrf lrf' : Nat → Nat} (h : slot_exclusive_core n bits vis lrf) (p j : Nat)
    (hp : vis p = false) (hj : j < n) (hbj : bits j = false)
    (hb : ∀ i, bits' i = (bits i || decide (j = i)))
    (hv : ∀ k, k ≠ p → vis' k = vis k) (hl : ∀ k, k ≠ p → lrf' k = lrf k)
    (hvp : vis' p = true) (hlp : lrf' p = j) :
    slot_exclusive_core n bits' vis' lrf' := by
  obtain ⟨h1, h2, h3, h4⟩ := h
  have hold : ∀ k, k ≠ p → vis' k = true → lrf' k ≠ j := by
    intro k hk hvk hlk
    rw [hv k hk] at hvk
    rw [hl k hk] at hlk
    have := h2 k hvk (by omega)
    rw [hlk, hbj] at this
    cases this
  refine ⟨?_, ?_, ?_, ?_⟩
  · intro i hi hbi
    rw [hb i] at hbi
    by_cases hij : j = i
    · exact ⟨p, hvp, by rw [hlp, hij]⟩
    · simp only [hij, decide_False, Bool.or_false] at hbi
      obtain ⟨k, hk1, hk2⟩ := h1 i hi hbi
      have hkp : k ≠ p := by
        intro h; rw [h, hp] at hk1; cases hk1
      exact ⟨k, by rw [hv k hkp]; exact hk1, by rw [hl k hkp]; exact hk2⟩
  · intro k hvk hlk
    rw [hb]
    by_cases hkp : k = p
    · subst hkp; simp [hlp]
    · rw [hv k hkp] at hvk
      rw [hl k hkp] at hlk ⊢
      rw [h2 k hvk hlk]; rfl
  · intro k1 k2 hv1 hv2 hl12
    by_cases h1p : k1 = p
    · by_cases h2p : k2 = p
      · rw [h1p, h2p]
      · exfalso
        rw [h1p, hlp] at hl12
        exact hold k2 h2p hv2 hl12.symm
    · by_cases h2p : k2 = p
      · exfalso
        rw [h2p, hlp] at hl12
        exact hold k1 h1p hv1 hl12
      · rw [hv k1 h1p] at hv1
        rw [hv k2 h2p] at hv2
        rw [hl k1 h1p, hl k2 h2p] at hl12
        exact h3 k1 k2 hv1 hv2 hl12
  · intro i hi
    rw [hb i, h4 i hi]
    have : j ≠ i := by omega
    simp [this]

theorem slot_exclusive_core_clear {n : Nat} {bits bits' vis vis' : Nat → Bool}
    {lrf lrf' : Nat → Nat} (h : slot_exclusive_core n bits vis lrf) (k0 i : Nat)
    (hk0 : vis k0 = true) (hi : lrf k0 = i)
    (hb : ∀ j, bits' j = (bits j && !decide (i = j)))
    (hv : ∀ k, k ≠ k0 → vis' k = vis k) (hl : ∀ k, k ≠ k0 → lrf' k = lrf k)
    (hvk : vis' k0 = false) :
    slot_exclusive_core n bits' vis' lrf' := by
  obtain ⟨h1, h2, h3, h4⟩ := h
  have hne : ∀ k, vis' k = true → k ≠ k0 := by
    intro k hk h; rw [h, hvk] at hk; cases hk
  refine ⟨?_, ?_, ?_, ?_⟩
  · intro j hj hbj
    rw [hb j] at hbj
    simp only [Bool.and_eq_true, Bool.not_eq_true', decide_eq_false_iff_not] at hbj
    obtain ⟨k, hk1, hk2⟩ := h1 j hj hbj.1
    have hkk : k ≠ k0 := by
      intro h; rw [h, hi] at hk2; exact hbj.2 hk2
    exact ⟨k, by rw [hv k hkk]; exact hk1, by rw [hl k hkk]; exact hk2⟩
  · intro k hvk' hlk
    have hkk := hne k hvk'
    rw [hv k hkk] at hvk'
    rw [hl k hkk] at hlk ⊢
    rw [hb, h2 k hvk' hlk]
    have : i ≠ lrf k := by
      intro h
      exact hkk (h3 k k0 hvk' hk0 (by rw [hi, h]))
    simp [this]
  · intro k1 k2 hv1 hv2 hl12
    have h1k := hne k1 hv1
    have h2k := hne k2 hv2
    rw [hv k1 h1k] at hv1
    rw [hv k2 h2k] at hv2
    rw [hl k1 h1k, hl k2 h2k] at hl12
    exact h3 k1 k2 hv1 hv2 hl12
  · intro j hj
    rw [hb j, h4 j hj]; rfl

theorem nodup_bounded_length (l : List Nat) (n : Nat) (hn : l.Nodup) (hb : ∀ x ∈ l, x < n) :
    l.length ≤ n := by
  have h1 : l.toFinset ⊆ Finset.range n := by
    intro x hx
    exact Finset.mem_range.mpr (hb x (List.mem_toFinset.mp hx))
  have h2 := Finset.card_le_card h1
  rw [List.toFinset_card_of_nodup hn, Finset.card_range] at h2
  exact h2

theorem slot_exclusive_core_count {n : Nat} {bits vis : Nat → Bool} {lrf : Nat → Nat}
    (h : slot_exclusive_core n bits vis lrf) (ks : List Nat) (hn : ks.Nodup)
    (hk : ∀ k ∈ ks, vis k = true ∧ lrf k < n) : ks.length ≤ n := by
  have h3 := h.2.2.1
  have hmap : (ks.map lrf).Nodup := by
    rw [List.nodup_map_iff_inj_on hn]
    intro x hx y hy hxy
    exact h3 x y (hk x hx).1 (hk y hy).1 hxy
  have := nodup_bounded_length (ks.map lrf) n hmap (by
    intro x hx
    obtain ⟨k, hk1, hk2⟩ := List.mem_map.mp hx
    rw [← hk2]; exact (hk k hk1).2)
  simpa using this

theorem raise_guest_irq_cases (s : gic_state) (cur : Bool) (virtual_irq priority : Nat) :
    gic_raise_guest_irq s cur virtual_irq priority = some (gic_add_to_lr_pending s virtual_irq) ∨
    ∃ i, i < s.nr_lrs ∧ s.lr_mask.testBit i = false ∧ s.lr_pending = [] ∧
      gic_raise_guest_irq s cur virtual_irq priority =
        gic_set_lr { s with lr_mask := set_bit i s.lr_mask } i virtual_irq GICH_LR_PENDING := by
  unfold gic_raise_guest_irq
  split
  · rename_i hc
    simp only []
    split
    · rename_i hlt
      right
      exact ⟨_, hlt, (find_next_zero_bit_lt hlt).2.1, hc.2, rfl⟩
    · left; rfl
  · left; rfl

theorem slot_exclusive_add_to_lr_pending (s : gic_state) (n : Nat) (h : slot_exclusive s) :
    slot_exclusive (gic_add_to_lr_pending s n) := by
  obtain ⟨h1, _, h3, _, _, h6, _⟩ := add_to_lr_pending_frame s n
  unfold slot_exclusive at h ⊢
  rw [h1, h3, h6]
  exact h

/-- Installing a record that is not `VISIBLE` in a free slot keeps slot exclusivity. -/
theorem slot_exclusive_install (s s' : gic_state) (p j : Nat) (h : slot_exclusive s)
    (hp : (s.pending_irqs p).status.visible = false) (hj : j < s.nr_lrs)
    (hbj : s.lr_mask.testBit j = false)
    (hn : s'.nr_lrs = s.nr_lrs) (hm : s'.lr_mask = set_bit j s.lr_mask)
    (hrec : ∀ k, k ≠ p → s'.pending_irqs k = s.pending_irqs k)
    (hvp : (s'.pending_irqs p).status.visible = true) (hlp : (s'.pending_irqs p).lr = j) :
    slot_exclusive s' := by
  rw [slot_exclusive_iff_core] at h ⊢
  rw [hn]
  exact slot_exclusive_core_install h p j hp hj hbj
    (fun i => by simp only [hm, testBit_set_bit])
    (fun k hk => by simp only [hrec k hk]) (fun k hk => by simp only [hrec k hk]) hvp hlp

theorem slot_exclusive_raise (s : gic_state) (cur : Bool) (virtual_irq priority : Nat)
    (h : slot_exclusive s) (hvis : (s.pending_irqs virtual_irq).status.visible = false) :
    ∃ s', gic_raise_guest_irq s cur virtual_irq priority = some s' ∧ slot_exclusive s' := by
  rcases raise_guest_irq_cases s cur virtual_irq priority with h1 | ⟨i, hi, hb, _, h1⟩
  · exact ⟨_, h1, slot_exclusive_add_to_lr_pending s _ h⟩
  · obtain ⟨s', hs, hn, hm, _, _, _, hp⟩ := gic_set_lr_frame
      { s with lr_mask := set_bit i s.lr_mask } i virtual_irq GICH_LR_PENDING hi
    refine ⟨s', by rw [h1, hs], ?_⟩
    refine slot_exclusive_install s s' virtual_irq i h hvis hi hb hn hm ?_ ?_ ?_
    · intro k hk; rw [hp]; exact Function.update_noteq hk _ _
    · rw [hp]; simp
    · rw [hp]; simp

theorem slot_exclusive_occupied {s : gic_state} (h : slot_exclusive s) {i : Nat}
    (hi : i < s.nr_lrs) (hb : s.lr_mask.testBit i = true) :
    ∃ k, (s.pending_irqs k).status.visible = true ∧ (s.pending_irqs k).lr = i :=
  ((slot_exclusive_iff_core s).mp h).1 i hi hb

theorem slot_exclusive_visible_bit {s : gic_state} (h : slot_exclusive s) {k : Nat}
    (hv : (s.pending_irqs k).status.visible = true) (hl : (s.pending_irqs k).lr < s.nr_lrs) :
    s.lr_mask.testBit (s.pending_irqs k).lr = true :=
  ((slot_exclusive_iff_core s).mp h).2.1 k hv hl

/-- The raise keeps slot exclusivity, the contents of the occupied registers and the
`irq` fields. -/
theorem raise_guest_irq_keeps_invariants (s : gic_state) (cur : Bool) (virtual_irq priority : Nat)
    (h : slot_exclusive s) (hlrh : lr_holds_record s)
    (hvis : (s.pending_irqs virtual_irq).status.visible = false)
    (hirq : (s.pending_irqs virtual_irq).irq = virtual_irq) (h16 : virtual_irq < 65536)
    (hN : s.nr_lrs ≤ 16) :
    ∃ s', gic_raise_guest_irq s cur virtual_irq priority = some s' ∧ slot_exclusive s' ∧
      lr_holds_record s' ∧ s'.nr_lrs = s.nr_lrs ∧
      (∀ k, (s'.pending_irqs k).irq = (s.pending_irqs k).irq) := by
  rcases raise_guest_irq_cases s cur virtual_irq priority with h1 | ⟨i, hi, hb, _, h1⟩
  · obtain ⟨f1, f2, f3, _, _, f6, _⟩ := add_to_lr_pending_frame s virtual_irq
    refine ⟨_, h1, slot_exclusive_add_to_lr_pending s _ h, ?_, f6, fun k => by rw [f3]⟩
    unfold lr_holds_record at hlrh ⊢
    rw [f1, f2, f3, f6]
    exact hlrh
  · have h15 : i ≤ 15 := by omega
    have hs := gic_set_lr_eq { s with lr_mask := set_bit i s.lr_mask } i virtual_irq
      GICH_LR_PENDING hi h15
    rw [← h1] at hs
    refine ⟨_, hs, ?_, ?_, rfl, ?_⟩
    · refine slot_exclusive_install s _ virtual_irq i h hvis hi hb rfl rfl ?_ ?_ ?_
      · intro k hk; exact Function.update_noteq hk _ _
      · simp
      · simp
    · intro j hj hbj k hvk hlk
      simp only [] at hj hbj hvk hlk ⊢
      by_cases hkv : k = virtual_irq
      · subst hkv
        simp only [Function.update_same] at hlk
        subst hlk
        simp only [Function.update_same, decode_lr_val, lr_val_fields, hirq]
        exact Nat.mod_eq_of_lt h16
      · rw [Function.update_noteq hkv] at hvk hlk
        have hji : j ≠ i := by
          intro hji
          have := slot_exclusive_visible_bit h hvk (by rw [hlk]; exact hj)
          rw [hlk, hji, hb] at this
          cases this
        rw [Function.update_noteq hji]
        rw [testBit_set_bit] at hbj
        have hbj' : s.lr_mask.testBit j = true := by
          have : ¬ i = j := fun h => hji h.symm
          simpa [this] using hbj
        exact hlrh j hj hbj' k hvk hlk
    · intro k
      by_cases hkv : k = virtual_irq
      · subst hkv; simp
      · simp only []; rw [Function.update_noteq hkv]

theorem update_one_lr_still_in_slot (s : gic_state) (cur : Bool) (i : Nat) (lr_val : gic_lr)
    (hread : gicv3_read_lr s (i : Int) = some lr_val)
    (hst : lr_val.state &&& GICH_LR_ACTIVE ≠ 0 ∨ lr_val.state &&& GICH_LR_PENDING ≠ 0) :
    ∃ s', gic_update_one_lr s cur i = some s' ∧ s'.nr_lrs = s.nr_lrs ∧
      s'.lr_mask = s.lr_mask ∧
      (∀ k, (s'.pending_irqs k).status.visible = (s.pending_irqs k).status.visible ∧
        (s'.pending_irqs k).lr = (s.pending_irqs k).lr ∧
        (s'.pending_irqs k).irq = (s.pending_irqs k).irq) ∧
      (∀ j, (gicv3_decode_lr (s'.ich_lr j)).virq = (gicv3_decode_lr (s.ich_lr j)).virq) := by
  obtain ⟨h15, hdec⟩ := read_lr_some hread
  have hrec : ∀ (r : pending_irq) (k : Nat),
      r.status.visible = (s.pending_irqs lr_val.virq).status.visible →
      r.lr = (s.pending_irqs lr_val.virq).lr → r.irq = (s.pending_irqs lr_val.virq).irq →
      ((Function.update s.pending_irqs lr_val.virq r k).status.visible =
          (s.pending_irqs k).status.visible ∧
        (Function.update s.pending_irqs lr_val.virq r k).lr = (s.pending_irqs k).lr ∧
        (Function.update s.pending_irqs lr_val.virq r k).irq = (s.pending_irqs k).irq) := by
    intro r k e1 e2 e3
    by_cases hk : k = lr_val.virq
    · subst hk; simp only [Function.update_same]; exact ⟨e1, e2, e3⟩
    · rw [Function.update_noteq hk]; exact ⟨rfl, rfl, rfl⟩
  unfold gic_update_one_lr
  rw [hread]
  simp only []
  by_cases hact : lr_val.state &&& GICH_LR_ACTIVE ≠ 0
  · rw [if_pos hact]
    split
    · split
      · unfold gicv3_write_lr
        rw [ich_write_lr_eq _ _ _ h15]
        refine ⟨_, rfl, rfl, rfl, fun k => hrec _ k rfl rfl rfl, ?_⟩
        intro j
        simp only [set_pending]
        by_cases hji : j = i
        · subst hji
          simp only [Function.update_same]
          have h4 : lr_val.state ||| GICH_LR_PENDING < 4 := by
            have h4 : lr_val.state < 2 ^ 2 := by rw [hdec]; exact (decode_fields_lt _).2.2.2.1
            exact Nat.or_lt_two_pow h4 (by decide)
          rw [hdec, decode_encode_of_decode _ _ (by rw [← hdec]; exact h4)]
        · rw [Function.update_noteq hji]
      · exact ⟨_, rfl, rfl, rfl, fun k => hrec _ k rfl rfl rfl, fun j => rfl⟩
    · exact ⟨_, rfl, rfl, rfl, fun k => hrec _ k rfl rfl rfl, fun j => rfl⟩
  · rw [if_neg hact]
    have hp : lr_val.state &&& GICH_LR_PENDING ≠ 0 := by
      rcases hst with h | h
      · exact absurd h hact
      · exact h
    rw [if_pos hp]
    exact ⟨_, rfl, rfl, rfl, fun k => hrec _ k rfl rfl rfl, fun j => rfl⟩

theorem slot_exclusive_of_eq {s s' : gic_state} (hn : s'.nr_lrs = s.nr_lrs)
    (hm : s'.lr_mask = s.lr_mask)
    (hr : ∀ k, (s'.pending_irqs k).status.visible = (s.pending_irqs k).status.visible ∧
      (s'.pending_irqs k).lr = (s.pending_irqs k).lr)
    (h : slot_exclusive s) : slot_exclusive s' := by
  rw [slot_exclusive_iff_core] at h ⊢
  rw [hn, hm]
  exact slot_exclusive_core_congr h (fun _ => rfl) (fun k => (hr k).1) (fun k => (hr k).2)

theorem lr_holds_record_of_eq {s s' : gic_state} (hn : s'.nr_lrs = s.nr_lrs)
    (hm : s'.lr_mask = s.lr_mask)
    (hr : ∀ k, (s'.pending_irqs k).status.visible = (s.pending_irqs k).status.visible ∧
      (s'.pending_irqs k).lr = (s.pending_irqs k).lr)
    (hl : ∀ j, (gicv3_decode_lr (s'.ich_lr j)).virq = (gicv3_decode_lr (s.ich_lr j)).virq)
    (h : lr_holds_record s) : lr_holds_record s' := by
  intro i hi hb k hv hk
  rw [hn] at hi
  rw [hm] at hb
  rw [(hr k).1] at hv
  rw [(hr k).2] at hk
  rw [hl]
  exact h i hi hb k hv hk

/-- The state reached by the first part of the retired branch, for an occupied slot whose
register names the record that holds it. -/
theorem retired_slot_state_preserves (s : gic_state) (i k0 : Nat) (h : slot_exclusive s)
    (hlrh : lr_holds_record s) (h15 : i ≤ 15)
    (hv : (s.pending_irqs k0).status.visible = true) (hl : (s.pending_irqs k0).lr = i) :
    slot_exclusive (retired_slot_state s i k0) ∧ lr_holds_record (retired_slot_state s i k0) ∧
    (retired_slot_state s i k0).nr_lrs = s.nr_lrs ∧
    ((retired_slot_state s i k0).pending_irqs k0).status.visible = false ∧
    (∀ k, ((retired_slot_state s i k0).pending_irqs k).irq = (s.pending_irqs k).irq) := by
  have hs4 := retired_slot_state_eq s i k0 h15
  have hn : (retired_slot_state s i k0).nr_lrs = s.nr_lrs := by
    rw [hs4]; cases (s.pending_irqs k0).desc <;> rfl
  have hm : (retired_slot_state s i k0).lr_mask = clear_bit i s.lr_mask := by
    rw [hs4]; cases (s.pending_irqs k0).desc <;> rfl
  have hlr : (retired_slot_state s i k0).ich_lr = Function.update s.ich_lr i 0 := by
    rw [hs4]; cases (s.pending_irqs k0).desc <;> rfl
  have hp : (retired_slot_state s i k0).pending_irqs = Function.update s.pending_irqs k0
      { s.pending_irqs k0 with
        status := { (s.pending_irqs k0).status with visible := false, active := false }
        lr := GIC_INVALID_LR } := by
    rw [hs4]; cases (s.pending_irqs k0).desc <;> rfl
  have hother : ∀ k, k ≠ k0 → (retired_slot_state s i k0).pending_irqs k = s.pending_irqs k := by
    intro k hk; rw [hp]; exact Function.update_noteq hk _ _
  have hvis0 : ((retired_slot_state s i k0).pending_irqs k0).status.visible = false := by
    rw [hp]; simp
  refine ⟨?_, ?_, hn, hvis0, ?_⟩
  · rw [slot_exclusive_iff_core] at h ⊢
    rw [hn]
    exact slot_exclusive_core_clear h k0 i hv hl
      (fun j => by simp only [hm, testBit_clear_bit])
      (fun k hk => by simp only [hother k hk]) (fun k hk => by simp only [hother k hk]) hvis0
  · intro j hj hbj k hvk hlk
    rw [hn] at hj
    rw [hm, testBit_clear_bit] at hbj
    simp only [Bool.and_eq_true, Bool.not_eq_true', decide_eq_false_iff_not] at hbj
    have hkk : k ≠ k0 := by
      intro hkk; rw [hkk, hvis0] at hvk; cases hvk
    rw [hother k hkk] at hvk hlk
    rw [hlr, Function.update_noteq (fun h => hbj.2 h.symm)]
    exact hlrh j hj hbj.1 k hvk hlk
  · intro k
    by_cases hk : k = k0
    · subst hk; rw [hp]; simp
    · rw [hother k hk]

/-- What the retired branch does after the first part when the record is not raised
again: nothing that slot exclusivity looks at. -/
theorem update_one_lr_retired_no_raise (s : gic_state) (cur : Bool) (i : Nat) (lr_val : gic_lr)
    (hread : gicv3_read_lr s (i : Int) = some lr_val)
    (hact : lr_val.state &&& GICH_LR_ACTIVE = 0)
    (hpend : lr_val.state &&& GICH_LR_PENDING = 0)
    (hc : ¬ ((s.pending_irqs lr_val.virq).status.enabled = true ∧
          (s.pending_irqs lr_val.virq).status.queued = true ∧
          ¬ (s.pending_irqs lr_val.virq).status.migrating = true)) :
    ∃ s', gic_update_one_lr s cur i = some s' ∧
      s'.nr_lrs = (retired_slot_state s i lr_val.virq).nr_lrs ∧
      s'.lr_mask = (retired_slot_state s i lr_val.virq).lr_mask ∧
      s'.ich_lr = (retired_slot_state s i lr_val.virq).ich_lr ∧
      (∀ k, (s'.pending_irqs k).status.visible =
          ((retired_slot_state s i lr_val.virq).pending_irqs k).status.visible ∧
        (s'.pending_irqs k).lr = ((retired_slot_state s i lr_val.virq).pending_irqs k).lr ∧
        (s'.pending_irqs k).irq = ((retired_slot_state s i lr_val.virq).pending_irqs k).irq) := by
  rw [update_one_lr_retired_unfold s cur i lr_val hread hact hpend, if_neg hc]
  simp only []
  split
  · refine ⟨_, rfl, ?_, ?_, ?_, ?_⟩
    · cases (s.pending_irqs lr_val.virq).desc <;> rfl
    · cases (s.pending_irqs lr_val.virq).desc <;> rfl
    · cases (s.pending_irqs lr_val.virq).desc <;> rfl
    · intro k
      have : (irq_set_affinity (set_pending
          { retired_slot_state s i lr_val.virq with
            inflight_irqs := (retired_slot_state s i lr_val.virq).inflight_irqs.filter
              (fun k => k != lr_val.virq) } lr_val.virq
          { (retired_slot_state s i lr_val.virq).pending_irqs lr_val.virq with
            status := { ((retired_slot_state s i lr_val.virq).pending_irqs lr_val.virq).status with
              migrating := false } }) (s.pending_irqs lr_val.virq).desc
          ((set_pending
          { retired_slot_state s i lr_val.virq with
            inflight_irqs := (retired_slot_state s i lr_val.virq).inflight_irqs.filter
              (fun k => k != lr_val.virq) } lr_val.virq
          { (retired_slot_state s i lr_val.virq).pending_irqs lr_val.virq with
            status := { ((retired_slot_state s i lr_val.virq).pending_irqs lr_val.virq).status with
              migrating := false } }).target_processor lr_val.virq)).pending_irqs =
          Function.update (retired_slot_state s i lr_val.virq).pending_irqs lr_val.virq
            { (retired_slot_state s i lr_val.virq).pending_irqs lr_val.virq with
              status := { ((retired_slot_state s i lr_val.virq).pending_irqs lr_val.virq).status with
                migrating := false } } := by
        cases (s.pending_irqs lr_val.virq).desc <;> rfl
      rw [this]
      by_cases hk : k = lr_val.virq
      · subst hk; simp
      · rw [Function.update_noteq hk]; exact ⟨rfl, rfl, rfl⟩
  · exact ⟨_, rfl, rfl, rfl, rfl, fun k => ⟨rfl, rfl, rfl⟩⟩

theorem state_bits_cases (st : Nat) :
    (st &&& GICH_LR_ACTIVE ≠ 0 ∨ st &&& GICH_LR_PENDING ≠ 0) ∨
    (st &&& GICH_LR_ACTIVE = 0 ∧ st &&& GICH_LR_PENDING = 0) := by
  by_cases h1 : st &&& GICH_LR_ACTIVE = 0
  · by_cases h2 : st &&& GICH_LR_PENDING = 0
    · exact Or.inr ⟨h1, h2⟩
    · exact Or.inl (Or.inr h2)
  · exact Or.inl (Or.inl h1)

/-- Reconciling an occupied slot keeps slot exclusivity. -/
theorem slot_exclusive_update_one_lr (s : gic_state) (cur : Bool) (i : Nat)
    (h : slot_exclusive s) (hlrh : lr_holds_record s) (hi : i < s.nr_lrs) (hN : s.nr_lrs ≤ 16)
    (hb : s.lr_mask.testBit i = true) :
    ∃ s', gic_update_one_lr s cur i = some s' ∧ slot_exclusive s' := by
  have h15 : i ≤ 15 := by omega
  have hread := read_lr_eq s i h15
  obtain ⟨k0, hv, hl⟩ := slot_exclusive_occupied h hi hb
  have hk0 : (gicv3_decode_lr (s.ich_lr i)).virq = k0 := hlrh i hi hb k0 hv hl
  rcases state_bits_cases (gicv3_decode_lr (s.ich_lr i)).state with hst | ⟨hact, hpend⟩
  · obtain ⟨s', h1, h2, h3, h4, _⟩ := update_one_lr_still_in_slot s cur i _ hread hst
    exact ⟨s', h1, slot_exclusive_of_eq h2 h3 (fun k => ⟨(h4 k).1, (h4 k).2.1⟩) h⟩
  · obtain ⟨g1, _, g3, g4, _⟩ := retired_slot_state_preserves s i k0 h hlrh h15 hv hl
    by_cases hc : (s.pending_irqs (gicv3_decode_lr (s.ich_lr i)).virq).status.enabled = true ∧
        (s.pending_irqs (gicv3_decode_lr (s.ich_lr i)).virq).status.queued = true ∧
        ¬ (s.pending_irqs (gicv3_decode_lr (s.ich_lr i)).virq).status.migrating = true
    · rw [update_one_lr_retired_unfold s cur i _ hread hact hpend, if_pos hc, hk0]
      exact slot_exclusive_raise _ cur k0 _ g1 g4
    · obtain ⟨s', h1, h2, h3, _, h5⟩ :=
        update_one_lr_retired_no_raise s cur i _ hread hact hpend hc
      rw [hk0] at h2 h3 h5
      exact ⟨s', h1, slot_exclusive_of_eq h2 h3 (fun k => ⟨(h5 k).1, (h5 k).2.1⟩) g1⟩

/-- Reconciling an occupied slot keeps slot exclusivity together with the contents of the
occupied registers, when the `irq` field of every record is its number. -/
theorem update_one_lr_keeps_invariants (s : gic_state) (cur : Bool) (i : Nat)
    (h : slot_exclusive s) (hlrh : lr_holds_record s) (hwf : records_well_formed s)
    (hi : i < s.nr_lrs) (hN : s.nr_lrs ≤ 16) (hb : s.lr_mask.testBit i = true) :
    ∃ s', gic_update_one_lr s cur i = some s' ∧ slot_exclusive s' ∧ lr_holds_record s' ∧
      records_well_formed s' ∧ s'.nr_lrs = s.nr_lrs := by
  have h15 : i ≤ 15 := by omega
  have hread := read_lr_eq s i h15
  obtain ⟨k0, hv, hl⟩ := slot_exclusive_occupied h hi hb
  have hk0 : (gicv3_decode_lr (s.ich_lr i)).virq = k0 := hlrh i hi hb k0 hv hl
  rcases state_bits_cases (gicv3_decode_lr (s.ich_lr i)).state with hst | ⟨hact, hpend⟩
  · obtain ⟨s', h1, h2, h3, h4, h5⟩ := update_one_lr_still_in_slot s cur i _ hread hst
    exact ⟨s', h1, slot_exclusive_of_eq h2 h3 (fun k => ⟨(h4 k).1, (h4 k).2.1⟩) h,
      lr_holds_record_of_eq h2 h3 (fun k => ⟨(h4 k).1, (h4 k).2.1⟩) h5 hlrh,
      fun k => by rw [(h4 k).2.2]; exact hwf k, h2⟩
  · obtain ⟨g1, g2, g3, g4, g5⟩ := retired_slot_state_preserves s i k0 h hlrh h15 hv hl
    have h16 : k0 < 65536 := by rw [← hk0]; exact (decode_fields_lt _).2.1
    by_cases hc : (s.pending_irqs (gicv3_decode_lr (s.ich_lr i)).virq).status.enabled = true ∧
        (s.pending_irqs (gicv3_decode_lr (s.ich_lr i)).virq).status.queued = true ∧
        ¬ (s.pending_irqs (gicv3_decode_lr (s.ich_lr i)).virq).status.migrating = true
    · rw [update_one_lr_retired_unfold s cur i _ hread hact hpend, if_pos hc, hk0]
      obtain ⟨s', r1, r2, r3, r4, r5⟩ := raise_guest_irq_keeps_invariants
        (retired_slot_state s i k0) cur k0 (s.pending_irqs k0).priority g1 g2 g4
        (by rw [g5]; exact hwf k0) h16 (by rw [g3]; exact hN)
      exact ⟨s', r1, r2, r3, fun k => by rw [r5, g5]; exact hwf k, by rw [r4, g3]⟩
    · obtain ⟨s', h1, h2, h3, h4, h5⟩ :=
        update_one_lr_retired_no_raise s cur i _ hread hact hpend hc
      rw [hk0] at h2 h3 h4 h5
      exact ⟨s', h1, slot_exclusive_of_eq h2 h3 (fun k => ⟨(h5 k).1, (h5 k).2.1⟩) g1,
        lr_holds_record_of_eq h2 h3 (fun k => ⟨(h5 k).1, (h5 k).2.1⟩) (fun j => by rw [h4]) g2,
        fun k => by rw [(h5 k).2.2, g5]; exact hwf k, by rw [h2, g3]⟩

theorem find_next_bit_ge_size {a size off : Nat} (h : size ≤ off) :
    ¬ find_next_bit a size off < size := by
  intro hlt
  have := (find_next_bit_lt hlt).1
  omega

theorem gic_clear_lrs_loop_preserves (cur : Bool) (rounds : Nat) :
    ∀ (i : Nat) (s : gic_state), slot_exclusive s → lr_holds_record s →
      records_well_formed s → s.nr_lrs ≤ 16 → s.nr_lrs ≤ rounds + i →
      ∃ s', gic_clear_lrs_loop cur rounds i s = some s' ∧ slot_exclusive s' := by
  induction rounds with
  | zero =>
    intro i s h _ _ _ hr
    unfold gic_clear_lrs_loop
    rw [if_neg (find_next_bit_ge_size (by omega))]
    exact ⟨s, rfl, h⟩
  | succ n ih =>
    intro i s h hlrh hwf hN hr
    unfold gic_clear_lrs_loop
    simp only []
    by_cases hlt : find_next_bit s.lr_mask s.nr_lrs i < s.nr_lrs
    · rw [if_pos hlt]
      obtain ⟨hge, hbit, _⟩ := find_next_bit_lt hlt
      obtain ⟨s1, h1, h2, h3, h4, h5⟩ :=
        update_one_lr_keeps_invariants s cur _ h hlrh hwf hlt hN hbit
      rw [h1]
      simp only []
      exact ih _ s1 h2 h3 h4 (by rw [h5]; exact hN) (by rw [h5]; omega)
    · rw [if_neg hlt]
      exact ⟨s, rfl, h⟩

theorem slot_exclusive_clear_lrs (s : gic_state) (cur idle : Bool)
    (h : slot_exclusive s) (hlrh : lr_holds_record s) (hwf : records_well_formed s)
    (hN : s.nr_lrs ≤ 16) :
    ∃ s', gic_clear_lrs s cur idle = some s' ∧ slot_exclusive s' := by
  unfold gic_clear_lrs
  split
  · exact ⟨s, rfl, h⟩
  · have hst : gicv3_hcr_status s GICH_HCR_UIE false =
        { s with ich_hcr := s.ich_hcr &&& (0xffffffff ^^^ GICH_HCR_UIE) } := by
      unfold gicv3_hcr_status; simp
    rw [hst]
    exact gic_clear_lrs_loop_preserves cur s.nr_lrs 0 _ h hlrh hwf hN (by simp)

theorem gic_set_lr_some {s s' : gic_state} {lr p state : Nat}
    (h : gic_set_lr s lr p state = some s') :
    lr < s.nr_lrs ∧ s'.nr_lrs = s.nr_lrs ∧ s'.lr_mask = s.lr_mask ∧
      s'.lr_pending = s.lr_pending ∧
      s'.pending_irqs = Function.update s.pending_irqs p
        { s.pending_irqs p with
          status := { (s.pending_irqs p).status with visible := true, queued := false }
          lr := lr } := by
  by_cases hlt : lr < s.nr_lrs
  · obtain ⟨s'', h1, h2, h3, _, h5, _, h7⟩ := gic_set_lr_frame s lr p state hlt
    rw [h] at h1
    cases h1
    exact ⟨hlt, h2, h3, h5, h7⟩
  · exfalso
    unfold gic_set_lr gicv3_update_lr at h
    rw [if_pos (by omega)] at h
    cases h

theorem list_next_mem {p t : Nat} {l : List Nat} (h : list_next p l = some t) (hn : l.Nodup) :
    t ∈ l ∧ t ≠ p := by
  induction l with
  | nil => cases h
  | cons a rest ih =>
    unfold list_next at h
    have hn' := List.nodup_cons.mp hn
    split at h
    · rename_i hap
      have ht : t ∈ rest := List.mem_of_mem_head? h
      refine ⟨List.mem_cons_of_mem _ ht, ?_⟩
      intro htp
      rw [htp, ← hap] at ht
      exact hn'.1 ht
    · obtain ⟨h1, h2⟩ := ih h hn'.2
      exact ⟨List.mem_cons_of_mem _ h1, h2⟩

theorem lr_pending_insert_nodup (pr : Nat → Nat) (n : Nat) (l : List Nat) (hn : l.Nodup)
    (hm : n ∉ l) : (lr_pending_insert pr n l).Nodup := by
  obtain ⟨l1, l2, h1, h2, _, _⟩ := lr_pending_insert_split pr n l
  rw [h2, List.nodup_middle, List.nodup_cons, ← h1]
  exact ⟨hm, hn⟩

theorem gic_restore_round_stop {s : gic_state} {p lr : Nat} {ir : Option Nat}
    {log : List eviction} {r : Option gic_state}
    (h : gic_restore_round s p lr ir = restore_round.stop log r) :
    ∀ s', r = some s' → s' = s := by
  intro s' hr
  subst hr
  unfold gic_restore_round at h
  simp only [] at h
  split at h
  · split at h
    · cases h; rfl
    · split at h
      · cases h; rfl
      · cases h
    · split at h
      · cases h
      · cases h
  · split at h
    · cases h
    · cases h

theorem gic_restore_round_next {s s1 : gic_state} {p lr lr1 : Nat} {ir ir1 : Option Nat}
    {log : List eviction}
    (hround : gic_restore_round s p lr ir = restore_round.next log s1 lr1 ir1)
    (h : slot_exclusive s) (hnv : lr_pending_not_visible s) (hnd : s.lr_pending.Nodup)
    (hp : p ∈ s.lr_pending) :
    slot_exclusive s1 ∧ lr_pending_not_visible s1 ∧ s1.lr_pending.Nodup ∧
      (∀ t ∈ s.lr_pending, t ≠ p → t ∈ s1.lr_pending) ∧ s1.nr_lrs = s.nr_lrs := by
  have hpv : (s.pending_irqs p).status.visible = false := hnv p hp
  unfold gic_restore_round at hround
  simp only [] at hround
  split at hround
  · split at hround
    · cases hround
    · split at hround <;> cases hround
    · rename_i p_r hscan
      split at hround
      · cases hround
      · rename_i s3 hset
        cases hround
        obtain ⟨_, hv, _, _⟩ := scan_for_victim_found hscan
        obtain ⟨hj, f2, f3, f4, f5⟩ := gic_set_lr_some hset
        obtain ⟨g1, _, g3, _, _, g6, _⟩ := add_to_lr_pending_frame
          (set_pending s p_r
            { s.pending_irqs p_r with
              lr := GIC_INVALID_LR
              status := { (s.pending_irqs p_r).status with queued := true, visible := false } }) p_r
        rw [g6] at hj f2
        rw [g1] at f3
        rw [g3] at f5
        replace hj : (s.pending_irqs p_r).lr < s.nr_lrs := hj
        replace f2 : s3.nr_lrs = s.nr_lrs := f2
        replace f3 : s3.lr_mask = s.lr_mask := f3
        have hpp : p ≠ p_r := by
          intro hpp; rw [hpp, hv] at hpv; cases hpv
        have hprm : p_r ∉ s.lr_pending := by
          intro hm; have := hnv p_r hm; rw [hv] at this; cases this
        have hlp : (gic_add_to_lr_pending
            (set_pending s p_r
              { s.pending_irqs p_r with
                lr := GIC_INVALID_LR
                status := { (s.pending_irqs p_r).status with queued := true, visible := false } })
            p_r).lr_pending = lr_pending_insert
              (fun k => ((Function.update s.pending_irqs p_r
                { s.pending_irqs p_r with
                  lr := GIC_INVALID_LR
                  status := { (s.pending_irqs p_r).status with
                    queued := true, visible := false } }) k).priority) p_r s.lr_pending := by
          unfold gic_add_to_lr_pending
          rw [if_neg (by simpa [set_pending] using hprm)]
          rfl
        rw [hlp] at f4
        have hrec : ∀ k, k ≠ p → k ≠ p_r → s3.pending_irqs k = s.pending_irqs k := by
          intro k h1 h2
          rw [f5, Function.update_noteq h1]
          simp only [set_pending]
          rw [Function.update_noteq h2]
        have hrecv : (s3.pending_irqs p_r).status.visible = false := by
          rw [f5, Function.update_noteq hpp.symm]
          simp [set_pending]
        have hrecp : (s3.pending_irqs p).status.visible = true ∧
            (s3.pending_irqs p).lr = (s.pending_irqs p_r).lr := by
          rw [f5]; simp
        refine ⟨?_, ?_, ?_, ?_, f2⟩
        · rw [slot_exclusive_iff_core] at h ⊢
          simp only [f2]
          have hc := @slot_exclusive_core_clear s.nr_lrs (fun i => s.lr_mask.testBit i)
            (fun j => s.lr_mask.testBit j && !decide ((s.pending_irqs p_r).lr = j))
            (fun k => (s.pending_irqs k).status.visible)
            (fun k => if k = p_r then false else (s.pending_irqs k).status.visible)
            (fun k => (s.pending_irqs k).lr)
            (fun k => if k = p_r then GIC_INVALID_LR else (s.pending_irqs k).lr)
            h p_r (s.pending_irqs p_r).lr hv rfl (fun j => rfl)
            (fun k hk => by simp only [if_neg hk]) (fun k hk => by simp only [if_neg hk])
            (by simp)
          refine slot_exclusive_core_install hc p (s.pending_irqs p_r).lr
            (by simp only [if_neg hpp]; exact hpv) hj (by simp) ?_ ?_ ?_ hrecp.1 hrecp.2
          · intro i
            simp only [f3, testBit_set_bit]
            cases s.lr_mask.testBit i <;> cases decide ((s.pending_irqs p_r).lr = i) <;> rfl
          · intro k hk
            by_cases hkr : k = p_r
            · subst hkr; simp only [if_true]; exact hrecv
            · simp only [if_neg hkr, hrec k hk hkr]
          · intro k hk
            by_cases hkr : k = p_r
            · subst hkr
              simp only [if_true]
              rw [f5, Function.update_noteq hk]
              simp [set_pending]
            · simp only [if_neg hkr, hrec k hk hkr]
        · intro k hk
          simp only [f4, List.mem_filter, bne_iff_ne, ne_eq, mem_lr_pending_insert] at hk
          simp only []
          by_cases hkr : k = p_r
          · subst hkr; exact hrecv
          · rw [hrec k hk.2 hkr]
            rcases hk.1 with h1 | h1
            · exact absurd h1 hkr
            · exact hnv k h1
        · simp only [f4]
          exact (lr_pending_insert_nodup _ _ _ hnd hprm).filter _
        · intro t ht htp
          simp only [f4, List.mem_filter, bne_iff_ne, ne_eq, mem_lr_pending_insert]
          exact ⟨Or.inr ht, htp⟩
  · rename_i hlt
    have hlt' := Nat.lt_of_not_le hlt
    split at hround
    · cases hround
    · rename_i s3 hset
      cases hround
      obtain ⟨_, f2, f3, f4, f5⟩ := gic_set_lr_some hset
      refine ⟨?_, ?_, ?_, ?_, f2⟩
      · refine slot_exclusive_install s _ p _ h hpv hlt' (find_next_zero_bit_lt hlt').2.1 f2
          (by simp only [f3]) ?_ ?_ ?_
        · intro k hk; simp only [f5]; exact Function.update_noteq hk _ _
        · simp [f5]
        · simp [f5]
      · intro k hk
        simp only [f4, List.mem_filter, bne_iff_ne, ne_eq] at hk
        simp only [f5]
        rw [Function.update_noteq hk.2]
        exact hnv k hk.1
      · simp only [f4]
        exact hnd.filter _
      · intro t ht htp
        simp only [f4, List.mem_filter, bne_iff_ne, ne_eq]
        exact ⟨ht, htp⟩

theorem gic_restore_loop_preserves (lrs : Nat) :
    ∀ (s : gic_state) (p lr : Nat) (ir : Option Nat), slot_exclusive s →
      lr_pending_not_visible s → s.lr_pending.Nodup → p ∈ s.lr_pending →
      ∀ s', (gic_restore_loop lrs s p lr ir).2 = some s' → slot_exclusive s' := by
  induction lrs with
  | zero =>
    intro s p lr ir h _ _ _ s' hs'
    unfold gic_restore_loop at hs'
    cases hround : gic_restore_round s p lr ir with
    | stop log r =>
      rw [hround] at hs'
      rw [gic_restore_round_stop hround s' hs']
      exact h
    | next log s1 lr1 ir1 =>
      rw [hround] at hs'
      cases hs'
  | succ n ih =>
    intro s p lr ir h hnv hnd hp s' hs'
    unfold gic_restore_loop at hs'
    cases hround : gic_restore_round s p lr ir with
    | stop log r =>
      rw [hround] at hs'
      rw [gic_restore_round_stop hround s' hs']
      exact h
    | next log s1 lr1 ir1 =>
      rw [hround] at hs'
      obtain ⟨r1, r2, r3, r4, _⟩ := gic_restore_round_next hround h hnv hnd hp
      simp only [] at hs'
      split at hs'
      · cases hs'; exact r1
      · split at hs'
        · cases hs'; exact r1
        · rename_i t1 ht
          obtain ⟨m1, m2⟩ := list_next_mem ht hnd
          exact ih s1 t1 lr1 ir1 r1 r2 r3 (r4 t1 m1 m2) s' hs'

theorem slot_exclusive_restore_pending_irqs (s : gic_state) (h : slot_exclusive s)
    (hnv : lr_pending_not_visible s) (hnd : s.lr_pending.Nodup) :
    ∀ s', gic_restore_pending_irqs s = some s' → slot_exclusive s' := by
  intro s' hs'
  unfold gic_restore_pending_irqs gic_restore_pending_irqs_run at hs'
  split at hs'
  · cases hs'; exact h
  · rename_i p rest hl
    exact gic_restore_loop_preserves _ s p 0 none h hnv hnd (by rw [hl]; exact List.mem_cons_self _ _)
      s' hs'

theorem testBit_small_false (m i : Nat) (h : m < 2 ^ i) : m.testBit i = false :=
  Nat.testBit_lt_two_pow h

theorem slot_exclusive_visible_on_overflow_state : slot_exclusive visible_on_overflow_state := by
  rw [slot_exclusive_iff_core]
  have hvis : ∀ k, (visible_on_overflow_state.pending_irqs k).status.visible = true → k = 1 := by
    intro k hk
    by_contra hne
    simp [visible_on_overflow_state, hne, idle_pending] at hk
  refine ⟨?_, ?_, ?_, ?_⟩
  · intro i hi hb
    have hi' : i < 2 := hi
    interval_cases i
    · exact ⟨1, rfl, rfl⟩
    · exact absurd hb (by decide)
  · intro k hk _
    rw [hvis k hk]
    decide
  · intro k1 k2 h1 h2 _
    rw [hvis k1 h1, hvis k2 h2]
  · intro i hi
    have hi' : 2 ≤ i := hi
    exact testBit_small_false 1 i (Nat.one_lt_two_pow (by omega))

theorem restore_visible_on_overflow_state :
    ∃ s', gic_restore_pending_irqs visible_on_overflow_state = some s' ∧
      s'.nr_lrs = 2 ∧ s'.lr_mask = 3 ∧
      s'.pending_irqs = Function.update visible_on_overflow_state.pending_irqs 1
        { visible_on_overflow_state.pending_irqs 1 with
          status := { (visible_on_overflow_state.pending_irqs 1).status with
            visible := true, queued := false }
          lr := 1 } :=
  ⟨_, rfl, rfl, rfl, rfl⟩

/-- Why the pass of `gic_restore_pending_irqs` is looked at on states where no record on
`lr_pending` is `VISIBLE`: in `visible_on_overflow_state`, a state that the engine never
builds (a victim loses `VISIBLE` before it goes onto `lr_pending`, and no other path puts a
`VISIBLE` record there), interrupt 1 is `VISIBLE` in slot 0 and also on `lr_pending`; the
pass puts it in the free slot 1, and afterwards bit 0 of `lr_mask` is set while no record
is `VISIBLE` with `lr = 0`. -/
theorem slot_exclusive_needs_lr_pending_not_visible :
    slot_exclusive visible_on_overflow_state ∧
    ∃ s', gic_restore_pending_irqs visible_on_overflow_state = some s' ∧
      ¬ slot_exclusive s' := by
  obtain ⟨s', hs, hn, hm, hp⟩ := restore_visible_on_overflow_state
  refine ⟨slot_exclusive_visible_on_overflow_state, s', hs, ?_⟩
  intro h
  rw [slot_exclusive_iff_core] at h
  obtain ⟨k, hk1, hk2⟩ := h.1 0 (by rw [hn]; decide) (by rw [hm]; decide)
  simp only [hp] at hk1 hk2
  by_cases hk : k = 1
  · subst hk
    simp at hk2
  · rw [Function.update_noteq hk] at hk1
    simp [visible_on_overflow_state, hk, idle_pending] at hk1

theorem two_slot_state_visible (k : Nat)
    (hk : (two_slot_state.pending_irqs k).status.visible = true) : k = 1 ∨ k = 2 := by
  by_contra hne
  simp only [not_or] at hne
  by_cases h3 : k = 3
  · subst h3; exact absurd hk (by decide)
  · by_cases h4 : k = 4
    · subst h4; exact absurd hk (by decide)
    · simp [two_slot_state, hne.1, hne.2, h3, h4, idle_pending] at hk

theorem slot_exclusive_two_slot_state : slot_exclusive two_slot_state := by
  rw [slot_exclusive_iff_core]
  refine ⟨?_, ?_, ?_, ?_⟩
  · intro i hi hb
    have hi' : i < 2 := hi
    interval_cases i
    · exact ⟨1, rfl, rfl⟩
    · exact ⟨2, rfl, rfl⟩
  · intro k hk _
    rcases two_slot_state_visible k hk with h | h <;> subst h <;> decide
  · intro k1 k2 h1 h2 h12
    rcases two_slot_state_visible k1 h1 with h | h <;>
      rcases two_slot_state_visible k2 h2 with h' | h' <;> subst h <;> subst h'
    · rfl
    · exact absurd h12 (by decide)
    · exact absurd h12 (by decide)
    · rfl
  · intro i hi
    have hi' : 2 ≤ i := hi
    refine testBit_small_false 3 i ?_
    calc 3 < 2 ^ 2 := by decide
      _ ≤ 2 ^ i := Nat.pow_le_pow_right (by decide) hi'

theorem lr_holds_record_two_slot_state : lr_holds_record two_slot_state := by
  intro i hi _ k hk hl
  have hi' : i < 2 := hi
  rcases two_slot_state_visible k hk with h | h <;> subst h
  · have : i = 0 := hl.symm
    subst this; decide
  · have : i = 1 := hl.symm
    subst this; decide

theorem records_well_formed_two_slot_state : records_well_formed two_slot_state := by
  intro k
  simp only [two_slot_state]
  split
  · rename_i h; rw [h]; rfl
  · split
    · rename_i h; rw [h]; rfl
    · split
      · rename_i h; rw [h]; rfl
      · split
        · rename_i h; rw [h]; rfl
        · rfl

/-! ## The list-register encoding, bit by bit -/

theorem testBit_and_mask (x n j : Nat) :
    (x &&& (2 ^ n - 1)).testBit j = (decide (j < n) && x.testBit j) := by
  rw [Nat.and_pow_two_sub_one_eq_mod, Nat.testBit_mod_two_pow]

theorem testBit_field (x n sh j : Nat) :
    ((x &&& (2 ^ n - 1)) <<< sh).testBit j =
      (decide (sh ≤ j ∧ j < sh + n) && x.testBit (j - sh)) := by
  rw [Nat.testBit_shiftLeft, testBit_and_mask]
  by_cases h1 : sh ≤ j
  · by_cases h2 : j < sh + n
    · have h3 : j - sh < n := by omega
      simp [h1, h2, h3]
    · have h3 : ¬ j - sh < n := by omega
      simp [h1, h2, h3]
  · simp [h1]

theorem testBit_encode_lr (l : gic_lr) (j : Nat) :
    (gicv3_encode_lr l).testBit j =
      ((decide (32 ≤ j ∧ j < 42) && l.pirq.testBit (j - 32)) ||
       (decide (j < 16) && l.virq.testBit j) ||
       (decide (48 ≤ j ∧ j < 56) && l.priority.testBit (j - 48)) ||
       (decide (62 ≤ j ∧ j < 64) && l.state.testBit (j - 62)) ||
       (decide (j = 61) && l.hw_status.testBit 0) ||
       (decide (j = 60) && l.grp.testBit 0)) := by
  have e1 : ((l.pirq &&& 1023) <<< 32).testBit j =
      (decide (32 ≤ j ∧ j < 42) && l.pirq.testBit (j - 32)) := testBit_field l.pirq 10 32 j
  have e2 : ((l.virq &&& 65535) <<< 0).testBit j = (decide (j < 16) && l.virq.testBit j) := by
    have := testBit_field l.virq 16 0 j
    simpa using this
  have e3 : ((l.priority &&& 255) <<< 48).testBit j =
      (decide (48 ≤ j ∧ j < 56) && l.priority.testBit (j - 48)) := testBit_field l.priority 8 48 j
  have e4 : ((l.state &&& 3) <<< 62).testBit j =
      (decide (62 ≤ j ∧ j < 64) && l.state.testBit (j - 62)) := testBit_field l.state 2 62 j
  have e5 : ((l.hw_status &&& 1) <<< 61).testBit j =
      (decide (j = 61) && l.hw_status.testBit 0) := by
    have := testBit_field l.hw_status 1 61 j
    rw [show ((l.hw_status &&& 1) <<< 61).testBit j =
      ((l.hw_status &&& (2 ^ 1 - 1)) <<< 61).testBit j from rfl, this]
    by_cases h : j = 61
    · subst h; simp
    · have : ¬ (61 ≤ j ∧ j < 61 + 1) := by omega
      simp [h, this]
  have e6 : ((l.grp &&& 1) <<< 60).testBit j = (decide (j = 60) && l.grp.testBit 0) := by
    have := testBit_field l.grp 1 60 j
    rw [show ((l.grp &&& 1) <<< 60).testBit j =
      ((l.grp &&& (2 ^ 1 - 1)) <<< 60).testBit j from rfl, this]
    by_cases h : j = 60
    · subst h; simp
    · have : ¬ (60 ≤ j ∧ j < 60 + 1) := by omega
      simp [h, this]
  unfold gicv3_encode_lr
  simp only [GICH_LR_PHYSICAL_SHIFT, GICH_LR_PHYSICAL_MASK, GICH_LR_VIRTUAL_SHIFT,
    GICH_LR_VIRTUAL_MASK, GICH_LR_PRIORITY_SHIFT, GICH_LR_PRIORITY_MASK, GICH_LR_STATE_SHIFT,
    GICH_LR_STATE_MASK, GICH_LR_HW_SHIFT, GICH_LR_HW_MASK, GICH_LR_GRP_SHIFT, GICH_LR_GRP_MASK,
    Nat.testBit_or]
  rw [e1, e2, e3, e4, e5, e6]

/-- C19: the list-register encoding round trip. Whatever register `lr_reg` in 0..15 is
written with `gicv3_write_lr`, `gicv3_read_lr` returns the six fields truncated to their
masks (no field disturbs another); for fields within their ranges (`virq < 2^16`,
`pirq < 2^10`, `priority < 2^8`, `state < 4`, `hw_status < 2`, `grp < 2`) it returns the
tuple itself. Bit `j` of the encoded value is bit `j` of `virq` for `j` in 0-15, bit
`j - 32` of `pirq` for 32-41, bit `j - 48` of `priority` for 48-55, bit 0 of `grp` at 60,
bit 0 of `hw_status` at 61, bit `j - 62` of `state` for 62-63, and clear elsewhere. -/
theorem gicv3_lr_encode_decode_roundtrip (s : gic_state) (lr_reg : Nat) (l : gic_lr)
    (hreg : lr_reg ≤ 15) :
    gicv3_read_lr (gicv3_write_lr s (lr_reg : Int) l) (lr_reg : Int) =
      some { pirq := l.pirq % 2 ^ 10, virq := l.virq % 2 ^ 16, priority := l.priority % 2 ^ 8,
             state := l.state % 4, hw_status := l.hw_status % 2, grp := l.grp % 2 } ∧
    (l.virq < 2 ^ 16 → l.pirq < 2 ^ 10 → l.priority < 2 ^ 8 → l.state < 4 →
      l.hw_status < 2 → l.grp < 2 →
      gicv3_read_lr (gicv3_write_lr s (lr_reg : Int) l) (lr_reg : Int) = some l) ∧
    (∀ j, (gicv3_encode_lr l).testBit j =
      ((decide (32 ≤ j ∧ j < 42) && l.pirq.testBit (j - 32)) ||
       (decide (j < 16) && l.virq.testBit j) ||
       (decide (48 ≤ j ∧ j < 56) && l.priority.testBit (j - 48)) ||
       (decide (62 ≤ j ∧ j < 64) && l.state.testBit (j - 62)) ||
       (decide (j = 61) && l.hw_status.testBit 0) ||
       (decide (j = 60) && l.grp.testBit 0))) := by
  have hrw : gicv3_read_lr (gicv3_write_lr s (lr_reg : Int) l) (lr_reg : Int) =
      some (gicv3_decode_lr (gicv3_encode_lr l)) := by
    unfold gicv3_write_lr
    rw [ich_write_lr_eq _ _ _ hreg, read_lr_eq _ _ hreg]
    simp only [Function.update_same]
  refine ⟨?_, ?_, testBit_encode_lr l⟩
  · rw [hrw, decode_encode_fields]
    rfl
  · intro h1 h2 h3 h4 h5 h6
    rw [hrw, decode_encode_fields]
    have h1' : l.virq < 65536 := h1
    have h2' : l.pirq < 1024 := h2
    have h3' : l.priority < 256 := h3
    simp only [Nat.mod_eq_of_lt h1', Nat.mod_eq_of_lt h2', Nat.mod_eq_of_lt h3',
      Nat.mod_eq_of_lt h4, Nat.mod_eq_of_lt h5, Nat.mod_eq_of_lt h6]

/-- A register write followed by a read in `idle_state`, for a tuple within the ranges
and for one that is wider. -/
theorem gicv3_lr_encode_decode_roundtrip_witness :
    (3 : Nat) ≤ 15 ∧
    gicv3_read_lr (gicv3_write_lr idle_state 3
        { pirq := 1023, virq := 65535, priority := 255, state := 3, hw_status := 1, grp := 1 }) 3 =
      some { pirq := 1023, virq := 65535, priority := 255, state := 3, hw_status := 1, grp := 1 } ∧
    gicv3_read_lr (gicv3_write_lr idle_state 3
        { pirq := 1024, virq := 65537, priority := 256, state := 5, hw_status := 2, grp := 3 }) 3 =
      some { pirq := 0, virq := 1, priority := 0, state := 1, hw_status := 0, grp := 1 } :=
  ⟨by decide,
    (gicv3_lr_encode_decode_roundtrip idle_state 3
      { pirq := 1023, virq := 65535, priority := 255, state := 3, hw_status := 1, grp := 1 }
      (by decide)).2.1 (by decide) (by decide) (by decide) (by decide) (by decide) (by decide),
    (gicv3_lr_encode_decode_roundtrip idle_state 3
      { pirq := 1024, virq := 65537, priority := 256, state := 5, hw_status := 2, grp := 3 }
      (by decide)).1⟩

/-! ## Slot indices outside the range -/

theorem gicv3_set_irq_properties_frame (s : gic_state) (n desc cpu : Nat) :
    (gicv3_set_irq_properties s n desc cpu).pending_irqs = s.pending_irqs ∧
    (∀ d, ((gicv3_set_irq_properties s n desc cpu).irq_descs d).handler =
        (s.irq_descs d).handler ∧
      ((gicv3_set_irq_properties s n desc cpu).irq_descs d).guest = (s.irq_descs d).guest ∧
      ((gicv3_set_irq_properties s n desc cpu).irq_descs d).disabled =
        (s.irq_descs d).disabled ∧
      ((gicv3_set_irq_properties s n desc cpu).irq_descs d).inprogress =
        (s.irq_descs d).inprogress ∧
      ((gicv3_set_irq_properties s n desc cpu).irq_descs d).irq = (s.irq_descs d).irq) := by
  unfold gicv3_set_irq_properties
  simp only []
  split
  · exact ⟨rfl, fun d => ⟨rfl, rfl, rfl, rfl, rfl⟩⟩
  · split
    · refine ⟨rfl, fun d => ?_⟩
      by_cases hd : d = desc
      · subst hd; simp
      · simp only []; rw [Function.update_noteq hd]; exact ⟨rfl, rfl, rfl, rfl, rfl⟩
    · exact ⟨rfl, fun d => ⟨rfl, rfl, rfl, rfl, rfl⟩⟩

/-- C16: `gic_route_irq_to_guest` is busy-or-atomic. It returns `-EBUSY` exactly when the
record already has a physical source or is `ENABLED`, and then the whole state (the
descriptor's handler and status and the record among it) is unchanged; otherwise it
returns 0, the descriptor has `_IRQ_GUEST` set and the guest handler type installed (its
other status bits are as before) and the record's physical source is the descriptor. The
rank lock is released on both paths. -/
theorem gic_route_irq_to_guest_busy_or_atomic (s : gic_state)
    (nr_irq_ids virq desc priority : Nat) :
    ((gic_route_irq_to_guest s nr_irq_ids virq desc priority).ret = -EBUSY ↔
      ((s.pending_irqs virq).desc.isSome = true ∨
        (s.pending_irqs virq).status.enabled = true)) ∧
    ((gic_route_irq_to_guest s nr_irq_ids virq desc priority).ret = -EBUSY →
      (gic_route_irq_to_guest s nr_irq_ids virq desc priority).state = s) ∧
    ((gic_route_irq_to_guest s nr_irq_ids virq desc priority).ret ≠ -EBUSY →
      (gic_route_irq_to_guest s nr_irq_ids virq desc priority).ret = 0 ∧
      (((gic_route_irq_to_guest s nr_irq_ids virq desc priority).state).irq_descs desc).guest =
        true ∧
      (((gic_route_irq_to_guest s nr_irq_ids virq desc priority).state).irq_descs desc).handler =
        gicv3_get_guest_irq_type nr_irq_ids (s.irq_descs desc).irq ∧
      (((gic_route_irq_to_guest s nr_irq_ids virq desc priority).state).irq_descs desc).disabled =
        (s.irq_descs desc).disabled ∧
      (((gic_route_irq_to_guest s nr_irq_ids virq desc priority).state).irq_descs
        desc).inprogress = (s.irq_descs desc).inprogress ∧
      (((gic_route_irq_to_guest s nr_irq_ids virq desc priority).state).pending_irqs virq).desc =
        some desc ∧
      (((gic_route_irq_to_guest s nr_irq_ids virq desc priority).state).pending_irqs
        virq).status = (s.pending_irqs virq).status) ∧
    (gic_route_irq_to_guest s nr_irq_ids virq desc priority).rank_lock_held = false := by
  by_cases hb : (s.pending_irqs virq).desc.isSome = true ∨
      (s.pending_irqs virq).status.enabled = true
  · have hr : gic_route_irq_to_guest s nr_irq_ids virq desc priority =
        { ret := -EBUSY, state := s, rank_lock_held := false } := by
      unfold gic_route_irq_to_guest
      simp only []
      rw [if_pos hb]
    rw [hr]
    exact ⟨⟨fun _ => hb, fun _ => rfl⟩, fun _ => rfl, fun h => absurd rfl h, rfl⟩
  · have h0 : (0 : Int) ≠ -EBUSY := by decide
    unfold gic_route_irq_to_guest
    simp only []
    rw [if_neg hb]
    obtain ⟨f1, f2⟩ := gicv3_set_irq_properties_frame
      { s with
        irq_descs := Function.update s.irq_descs desc
          { s.irq_descs desc with
            handler := gicv3_get_guest_irq_type nr_irq_ids (s.irq_descs desc).irq
            guest := true } }
      nr_irq_ids desc (s.target_processor virq)
    obtain ⟨g1, g2, g3, g4, _⟩ := f2 desc
    refine ⟨⟨fun h => absurd h h0, fun h => absurd h hb⟩, fun h => absurd h h0, fun _ => ?_, rfl⟩
    refine ⟨rfl, ?_, ?_, ?_, ?_, ?_, ?_⟩
    · simp only [set_pending]; rw [g2]; simp
    · simp only [set_pending]; rw [g1]; simp
    · simp only [set_pending]; rw [g3]; simp
    · simp only [set_pending]; rw [g4]; simp
    · simp [set_pending]
    · simp only [set_pending, Function.update_same]; rw [f1]

/-- Routing line 40 in `unrouted_state` succeeds; routing it onto the record of
`routed_inprogress_state`, which has a source, is refused. -/
theorem gic_route_irq_to_guest_busy_or_atomic_witness :
    (gic_route_irq_to_guest unrouted_state 1020 40 40 160).ret = 0 ∧
    (((gic_route_irq_to_guest unrouted_state 1020 40 40 160).state).pending_irqs 40).desc =
      some 40 ∧
    (gic_route_irq_to_guest routed_inprogress_state 1020 40 41 160).ret = -EBUSY ∧
    (gic_route_irq_to_guest routed_inprogress_state 1020 40 41 160).state =
      routed_inprogress_state :=
  have h1 := gic_route_irq_to_guest_busy_or_atomic unrouted_state 1020 40 40 160
  have h2 := gic_route_irq_to_guest_busy_or_atomic routed_inprogress_state 1020 40 41 160
  ⟨(h1.2.2.1 (by decide)).1, (h1.2.2.1 (by decide)).2.2.2.2.2.1,
    h2.1.mpr (by decide), h2.2.1 (h2.1.mpr (by decide))⟩

theorem gic_remove_irq_from_guest_done (s : gic_state) (virq desc : Nat) (d : irq_desc) :
    ((set_pending
        { s with
          irq_descs := Function.update s.irq_descs desc
            { d with guest := false, handler := hw_irq_controller.no_irq_type } }
        virq { s.pending_irqs virq with desc := none }).irq_descs desc).guest = false ∧
    ((set_pending
        { s with
          irq_descs := Function.update s.irq_descs desc
            { d with guest := false, handler := hw_irq_controller.no_irq_type } }
        virq { s.pending_irqs virq with desc := none }).irq_descs desc).handler =
      hw_irq_controller.no_irq_type ∧
    ((set_pending
        { s with
          irq_descs := Function.update s.irq_descs desc
            { d with guest := false, handler := hw_irq_controller.no_irq_type } }
        virq { s.pending_irqs virq with desc := none }).irq_descs desc).inprogress =
      d.inprogress ∧
    ((set_pending
        { s with
          irq_descs := Function.update s.irq_descs desc
            { d with guest := false, handler := hw_irq_controller.no_irq_type } }
        virq { s.pending_irqs virq with desc := none }).pending_irqs virq).desc = none := by
  simp [set_pending]

/-- C17: `gic_remove_irq_from_guest` is busy-or-atomic. For a domain that is not dying it
returns `-EBUSY` exactly when the descriptor has `_IRQ_INPROGRESS` set or `_IRQ_DISABLED`
clear, and then the whole state (descriptor status and handler, the record's source) is
unchanged; otherwise, and always for a dying domain, it returns 0 with `_IRQ_GUEST`
cleared, the handler reset to `no_irq_type` and the record's source cleared, and for a
dying domain `_IRQ_INPROGRESS` is cleared as well. -/
theorem gic_remove_irq_from_guest_busy_or_atomic (s : gic_state) (virq desc : Nat) :
    ((gic_remove_irq_from_guest s false virq desc).ret = -EBUSY ↔
      ((s.irq_descs desc).inprogress = true ∨ (s.irq_descs desc).disabled = false)) ∧
    ((gic_remove_irq_from_guest s false virq desc).ret = -EBUSY →
      (gic_remove_irq_from_guest s false virq desc).state = s) ∧
    (∀ is_dying : Bool,
      (is_dying = true ∨ (gic_remove_irq_from_guest s false virq desc).ret ≠ -EBUSY) →
      (gic_remove_irq_from_guest s is_dying virq desc).ret = 0 ∧
      (((gic_remove_irq_from_guest s is_dying virq desc).state).irq_descs desc).guest = false ∧
      (((gic_remove_irq_from_guest s is_dying virq desc).state).irq_descs desc).handler =
        hw_irq_controller.no_irq_type ∧
      (((gic_remove_irq_from_guest s is_dying virq desc).state).pending_irqs virq).desc =
        none ∧
      (is_dying = true →
        (((gic_remove_irq_from_guest s is_dying virq desc).state).irq_descs desc).inprogress =
          false)) := by
  have h0 : (0 : Int) ≠ -EBUSY := by decide
  have hdy : ∀ d : irq_desc,
      gic_remove_irq_from_guest s true virq desc =
        { ret := 0
          state := set_pending
            { s with
              irq_descs := Function.update s.irq_descs desc
                { ({ (handler_shutdown (s.irq_descs desc)) with inprogress := false } : irq_desc)
                  with guest := false, handler := hw_irq_controller.no_irq_type } }
            virq { s.pending_irqs virq with desc := none }
          rank_lock_held := false } := by
    intro _
    unfold gic_remove_irq_from_guest
    simp only [if_true]
  have hdying : (gic_remove_irq_from_guest s true virq desc).ret = 0 ∧
      (((gic_remove_irq_from_guest s true virq desc).state).irq_descs desc).guest = false ∧
      (((gic_remove_irq_from_guest s true virq desc).state).irq_descs desc).handler =
        hw_irq_controller.no_irq_type ∧
      (((gic_remove_irq_from_guest s true virq desc).state).pending_irqs virq).desc = none ∧
      (((gic_remove_irq_from_guest s true virq desc).state).irq_descs desc).inprogress =
        false := by
    rw [hdy (s.irq_descs desc)]
    obtain ⟨a, b, c, d⟩ := gic_remove_irq_from_guest_done s virq desc
      { (handler_shutdown (s.irq_descs desc)) with inprogress := false }
    exact ⟨rfl, a, b, d, c⟩
  by_cases hb : (s.irq_descs desc).inprogress = true ∨ (s.irq_descs desc).disabled = false
  · have hb2 : (s.irq_descs desc).inprogress = true ∨ ¬ (s.irq_descs desc).disabled = true := by
      rcases hb with h | h
      · exact Or.inl h
      · exact Or.inr (by rw [h]; decide)
    have hr : gic_remove_irq_from_guest s false virq desc =
        { ret := -EBUSY, state := s, rank_lock_held := true } := by
      unfold gic_remove_irq_from_guest
      simp only [Bool.false_eq_true, if_false]
      rw [if_pos hb2]
    refine ⟨?_, ?_, ?_⟩
    · rw [hr]; exact ⟨fun _ => hb, fun _ => rfl⟩
    · rw [hr]; exact fun _ => rfl
    · intro is_dying h
      rcases h with h | h
      · subst h
        exact ⟨hdying.1, hdying.2.1, hdying.2.2.1, hdying.2.2.2.1, fun _ => hdying.2.2.2.2⟩
      · rw [hr] at h; exact absurd rfl h
  · have hb2 : ¬ ((s.irq_descs desc).inprogress = true ∨
        ¬ (s.irq_descs desc).disabled = true) := by
      intro h
      apply hb
      rcases h with h | h
      · exact Or.inl h
      · exact Or.inr (by simpa using h)
    have hr : gic_remove_irq_from_guest s false virq desc =
        { ret := 0
          state := set_pending
            { s with
              irq_descs := Function.update s.irq_descs desc
                { (s.irq_descs desc) with
                  guest := false, handler := hw_irq_controller.no_irq_type } }
            virq { s.pending_irqs virq with desc := none }
          rank_lock_held := false } := by
      unfold gic_remove_irq_from_guest
      simp only [Bool.false_eq_true, if_false]
      rw [if_neg hb2]
    refine ⟨?_, ?_, ?_⟩
    · rw [hr]; exact ⟨fun h => absurd h h0, fun h => absurd h hb⟩
    · rw [hr]; exact fun h => absurd h h0
    · intro is_dying _
      cases is_dying
      · rw [hr]
        obtain ⟨a, b, _, d⟩ := gic_remove_irq_from_guest_done s virq desc (s.irq_descs desc)
        exact ⟨rfl, a, b, d, fun h => absurd h (by decide)⟩
      · exact ⟨hdying.1, hdying.2.1, hdying.2.2.1, hdying.2.2.2.1, fun _ => hdying.2.2.2.2⟩

/-- In `routed_inprogress_state` line 40 is in progress: the removal is refused for a
living domain and carried out, clearing `_IRQ_INPROGRESS`, for a dying one. -/
theorem gic_remove_irq_from_guest_busy_or_atomic_witness :
    (gic_remove_irq_from_guest routed_inprogress_state false 40 40).ret = -EBUSY ∧
    (gic_remove_irq_from_guest routed_inprogress_state false 40 40).state =
      routed_inprogress_state ∧
    (gic_remove_irq_from_guest routed_inprogress_state true 40 40).ret = 0 ∧
    (((gic_remove_irq_from_guest routed_inprogress_state true 40 40).state).irq_descs
      40).inprogress = false :=
  have h := gic_remove_irq_from_guest_busy_or_atomic routed_inprogress_state 40 40
  ⟨h.1.mpr (Or.inl (by decide)), h.2.1 (h.1.mpr (Or.inl (by decide))),
    (h.2.2 true (Or.inl rfl)).1, (h.2.2 true (Or.inl rfl)).2.2.2.2 rfl⟩

/-! ## Acceptance of physical interrupts -/

theorem gic_is_lpi_iff (n irq : Nat) :
    gic_is_lpi n irq = true ↔ (FIRST_GIC_LPI ≤ irq ∧ irq < n) := by
  simp [gic_is_lpi]

theorem spec_dispatched_cons (n a : Nat) (rest : List Nat) :
    spec_dispatched n (a :: rest) =
      match spec_dispatch n a with
      | some c => c :: spec_dispatched n rest
      | none => [] := by
  unfold spec_dispatched
  cases h : spec_dispatch n a with
  | none => simp [List.takeWhile_cons, h]
  | some c => simp [List.takeWhile_cons, h]

/-- C18 (as stated, refuted): with the acknowledged values 15, 20, 1023 the first
loop-ending value is 1023, so 15 and 20 should both be dispatched; `gic_interrupt` hands
15 to `do_sgi`, whose `switch` has no case for it and panics, and 20 is never
dispatched. -/
theorem gic_interrupt_dispatch_prefix_counterexample :
    gic_interrupt 1020 [15, 20, 1023] =
      { dispatched := [gic_dispatch.do_sgi 15], exit := gic_interrupt_exit.panicked } ∧
    spec_dispatched 1020 [15, 20, 1023] = [gic_dispatch.do_sgi 15, gic_dispatch.do_IRQ 20] ∧
    (gic_interrupt 1020 [15, 20, 1023]).dispatched ≠ spec_dispatched 1020 [15, 20, 1023] := by
  decide

/-- C18 (amended): every acknowledged value is classified in exactly one of three ways: a
value below 16 is handed to `do_sgi`, a value in 16..1019 or in the LPI range is handed to
`do_IRQ` and the loop goes on, and every other value ends the loop with no call; a value
below 16 that is none of the three signals makes `do_sgi` panic, which ends the run. For
every sequence of acknowledged values in which each value below 16 is one of the three
signals, the calls made are exactly those for the values before the first loop-ending
value, in order, and the run ends at the first loop-ending value if there is one. -/
theorem gic_interrupt_classification (nr_irq_ids : Nat) :
    (∀ irq rest, irq < 16 →
      ((gic_interrupt nr_irq_ids (irq :: rest)).dispatched).head? =
        some (gic_dispatch.do_sgi irq) ∧
      (do_sgi_returns irq = true →
        gic_interrupt nr_irq_ids (irq :: rest) =
          { (gic_interrupt nr_irq_ids rest) with
            dispatched := gic_dispatch.do_sgi irq ::
              (gic_interrupt nr_irq_ids rest).dispatched }) ∧
      (do_sgi_returns irq = false →
        gic_interrupt nr_irq_ids (irq :: rest) =
          { dispatched := [gic_dispatch.do_sgi irq], exit := gic_interrupt_exit.panicked })) ∧
    (∀ irq rest, ((16 ≤ irq ∧ irq < 1020) ∨ (FIRST_GIC_LPI ≤ irq ∧ irq < nr_irq_ids)) →
      gic_interrupt nr_irq_ids (irq :: rest) =
        { (gic_interrupt nr_irq_ids rest) with
          dispatched := gic_dispatch.do_IRQ irq ::
            (gic_interrupt nr_irq_ids rest).dispatched }) ∧
    (∀ irq rest, 1020 ≤ irq → ¬ (FIRST_GIC_LPI ≤ irq ∧ irq < nr_irq_ids) →
      gic_interrupt nr_irq_ids (irq :: rest) =
        { dispatched := [], exit := gic_interrupt_exit.loop_ended }) ∧
    (∀ acks : List Nat, (∀ a ∈ acks, a < 16 → do_sgi_returns a = true) →
      (gic_interrupt nr_irq_ids acks).dispatched = spec_dispatched nr_irq_ids acks ∧
      ((gic_interrupt nr_irq_ids acks).exit = gic_interrupt_exit.loop_ended ↔
        ∃ a ∈ acks, spec_dispatch nr_irq_ids a = none) ∧
      ((gic_interrupt nr_irq_ids acks).exit = gic_interrupt_exit.reading ↔
        ∀ a ∈ acks, spec_dispatch nr_irq_ids a ≠ none)) := by
  have hsgi : ∀ irq rest, irq < 16 →
      (do_sgi_returns irq = true →
        gic_interrupt nr_irq_ids (irq :: rest) =
          { (gic_interrupt nr_irq_ids rest) with
            dispatched := gic_dispatch.do_sgi irq ::
              (gic_interrupt nr_irq_ids rest).dispatched }) ∧
      (do_sgi_returns irq = false →
        gic_interrupt nr_irq_ids (irq :: rest) =
          { dispatched := [gic_dispatch.do_sgi irq],
            exit := gic_interrupt_exit.panicked }) := by
    intro irq rest h
    have hn : ¬ ((irq ≥ 16 ∧ irq < 1020) ∨ gic_is_lpi nr_irq_ids irq = true) := by
      rw [gic_is_lpi_iff]; unfold FIRST_GIC_LPI; omega
    constructor
    · intro hr
      rw [gic_interrupt, if_neg hn, if_pos h, if_pos hr]
    · intro hr
      rw [gic_interrupt, if_neg hn, if_pos h, if_neg (by rw [hr]; decide)]
  have hirq : ∀ irq rest,
      ((16 ≤ irq ∧ irq < 1020) ∨ (FIRST_GIC_LPI ≤ irq ∧ irq < nr_irq_ids)) →
      gic_interrupt nr_irq_ids (irq :: rest) =
        { (gic_interrupt nr_irq_ids rest) with
          dispatched := gic_dispatch.do_IRQ irq ::
            (gic_interrupt nr_irq_ids rest).dispatched } := by
    intro irq rest h
    have hp : (irq ≥ 16 ∧ irq < 1020) ∨ gic_is_lpi nr_irq_ids irq = true := by
      rw [gic_is_lpi_iff]; exact h
    rw [gic_interrupt, if_pos hp]
  have hend : ∀ irq rest, 1020 ≤ irq → ¬ (FIRST_GIC_LPI ≤ irq ∧ irq < nr_irq_ids) →
      gic_interrupt nr_irq_ids (irq :: rest) =
        { dispatched := [], exit := gic_interrupt_exit.loop_ended } := by
    intro irq rest h1 h2
    have hn : ¬ ((irq ≥ 16 ∧ irq < 1020) ∨ gic_is_lpi nr_irq_ids irq = true) := by
      rw [gic_is_lpi_iff]; omega
    rw [gic_interrupt, if_neg hn, if_neg (by omega)]
  refine ⟨?_, hirq, hend, ?_⟩
  · intro irq rest h
    refine ⟨?_, (hsgi irq rest h).1, (hsgi irq rest h).2⟩
    cases hr : do_sgi_returns irq
    · rw [(hsgi irq rest h).2 hr]; rfl
    · rw [(hsgi irq rest h).1 hr]; rfl
  · intro acks
    induction acks with
    | nil =>
      intro _
      refine ⟨rfl, ?_, ?_⟩
      · simp [gic_interrupt]
      · simp [gic_interrupt]
    | cons a rest ih =>
      intro hall
      obtain ⟨ih1, ih2, ih3⟩ := ih (fun b hb => hall b (List.mem_cons_of_mem a hb))
      rw [spec_dispatched_cons]
      by_cases h16 : a < 16
      · have hs : spec_dispatch nr_irq_ids a = some (gic_dispatch.do_sgi a) := by
          unfold spec_dispatch; rw [if_pos h16]
        rw [(hsgi a rest h16).1 (hall a (List.mem_cons_self a rest) h16), hs]
        refine ⟨by simp only [ih1], ?_, ?_⟩
        · simp only [ih2, List.mem_cons, exists_eq_or_imp, hs]; simp
        · simp only [ih3, List.mem_cons, forall_eq_or_imp, hs]; simp
      · by_cases hq : (16 ≤ a ∧ a < 1020) ∨ (FIRST_GIC_LPI ≤ a ∧ a < nr_irq_ids)
        · have hs : spec_dispatch nr_irq_ids a = some (gic_dispatch.do_IRQ a) := by
            unfold spec_dispatch; rw [if_neg h16, if_pos hq]
          rw [hirq a rest hq, hs]
          refine ⟨by simp only [ih1], ?_, ?_⟩
          · simp only [ih2, List.mem_cons, exists_eq_or_imp, hs]; simp
          · simp only [ih3, List.mem_cons, forall_eq_or_imp, hs]; simp
        · have hs : spec_dispatch nr_irq_ids a = none := by
            unfold spec_dispatch; rw [if_neg h16, if_neg hq]
          rw [hend a rest (by omega) (by omega), hs]
          refine ⟨rfl, ?_, ?_⟩
          · simp only [List.mem_cons, exists_eq_or_imp, hs]; simp
          · simp only [List.mem_cons, forall_eq_or_imp, hs]; simp

/-- The values 1, 20, 9000, 1023, 30 with 16384 interrupt ids: the signal, the shared line
and the LPI are dispatched in order, 1023 ends the loop and 30 is not read. -/
theorem gic_interrupt_classification_witness :
    (gic_interrupt 16384 [1, 20, 9000, 1023, 30]).dispatched =
      spec_dispatched 16384 [1, 20, 9000, 1023, 30] ∧
    spec_dispatched 16384 [1, 20, 9000, 1023, 30] =
      [gic_dispatch.do_sgi 1, gic_dispatch.do_IRQ 20, gic_dispatch.do_IRQ 9000] ∧
    (gic_interrupt 16384 [1, 20, 9000, 1023, 30]).exit = gic_interrupt_exit.loop_ended :=
  have h := (gic_interrupt_classification 16384).2.2.2 [1, 20, 9000, 1023, 30] (by decide)
  ⟨h.1, by decide, h.2.1.mpr ⟨1023, by decide, by decide⟩⟩

/-! ## Delivery test -/

theorem events_need_delivery_walk_iff (s : gic_state) (g : Nat → Nat) (m a : Nat)
    (l : List Nat) :
    (events_need_delivery_walk s g m a l = 0 ∨ events_need_delivery_walk s g m a l = 1) ∧
    (events_need_delivery_walk s g m a l = 1 ↔
      ∃ l1 p l2, l = l1 ++ p :: l2 ∧
        (∀ q ∈ l1, (s.pending_irqs q).status.enabled = false ∧
          g (s.pending_irqs q).priority < m ∧ g (s.pending_irqs q).priority < a) ∧
        (s.pending_irqs p).status.enabled = true ∧
        g (s.pending_irqs p).priority < m ∧ g (s.pending_irqs p).priority < a) := by
  induction l with
  | nil =>
    refine ⟨Or.inl rfl, ?_⟩
    constructor
    · intro h; simp [events_need_delivery_walk] at h
    · rintro ⟨l1, p, l2, h, _⟩
      exact absurd h (by simp)
  | cons x rest ih =>
    obtain ⟨ih1, ih2⟩ := ih
    unfold events_need_delivery_walk
    by_cases h1 : g (s.pending_irqs x).priority ≥ m
    · rw [if_pos h1]
      refine ⟨Or.inl rfl, ?_⟩
      constructor
      · intro h; exact absurd h (by decide)
      · rintro ⟨l1, p, l2, h, hl1, _, hp1, _⟩
        cases l1 with
        | nil =>
          simp only [List.nil_append, List.cons.injEq] at h
          rw [h.1] at h1; omega
        | cons y l1 =>
          simp only [List.cons_append, List.cons.injEq] at h
          have := (hl1 y (List.mem_cons_self y l1)).2.1
          rw [← h.1] at this; omega
    · rw [if_neg h1]
      by_cases h2 : g (s.pending_irqs x).priority ≥ a
      · rw [if_pos h2]
        refine ⟨Or.inl rfl, ?_⟩
        constructor
        · intro h; exact absurd h (by decide)
        · rintro ⟨l1, p, l2, h, hl1, _, _, hp2⟩
          cases l1 with
          | nil =>
            simp only [List.nil_append, List.cons.injEq] at h
            rw [h.1] at h2; omega
          | cons y l1 =>
            simp only [List.cons_append, List.cons.injEq] at h
            have := (hl1 y (List.mem_cons_self y l1)).2.2
            rw [← h.1] at this; omega
      · rw [if_neg h2]
        by_cases h3 : (s.pending_irqs x).status.enabled = true
        · rw [if_pos h3]
          refine ⟨Or.inr rfl, ?_⟩
          constructor
          · intro _
            exact ⟨[], x, rest, rfl, fun q hq => absurd hq (List.not_mem_nil q), h3,
              by omega, by omega⟩
          · intro _; rfl
        · rw [if_neg h3]
          refine ⟨ih1, ?_⟩
          rw [ih2]
          constructor
          · rintro ⟨l1, p, l2, h, hl1, hp⟩
            refine ⟨x :: l1, p, l2, by rw [h]; rfl, ?_, hp⟩
            intro q hq
            rcases List.mem_cons.mp hq with hq | hq
            · subst hq
              exact ⟨by simpa using h3, by omega, by omega⟩
            · exact hl1 q hq
          · rintro ⟨l1, p, l2, h, hl1, hp⟩
            cases l1 with
            | nil =>
              simp only [List.nil_append, List.cons.injEq] at h
              rw [h.1] at h3; exact absurd hp.1 h3
            | cons y l1 =>
              simp only [List.cons_append, List.cons.injEq] at h
              exact ⟨l1, p, l2, h.2, fun q hq => hl1 q (List.mem_cons_of_mem y hq), hp⟩

/-- C13 (as stated, refuted): in `disabled_head_state` the first in-flight entry is not
`ENABLED`, so the stated condition is false, yet `gic_events_need_delivery` returns 1: the
loop goes on past an entry that is not `ENABLED` and finds the enabled second entry
(guest priority 2, below the mask 31 and below the active priority 32). -/
theorem gic_events_need_delivery_first_entry_counterexample :
    gic_events_need_delivery disabled_head_state (fun pri => pri >>> 3) 0 31 = 1 ∧
    spec_needs_delivery disabled_head_state (fun pri => pri >>> 3) 0 31 = false ∧
    disabled_head_state.inflight_irqs = [1, 2] ∧
    (disabled_head_state.pending_irqs 1).status.enabled = false := by
  decide

/-- C13 (amended): `gic_events_need_delivery` returns 0 or 1, and it returns 1 if and only
if the in-flight list has an `ENABLED` entry whose guest priority is strictly below the
priority mask and strictly below the active priority (the index of the lowest set bit of
`apr`, 32 when there is none) and every entry before it is not `ENABLED` and passes both
priority tests as well. In particular it returns 0 for an empty in-flight list, it returns
1 whenever the stated condition on the first entry holds, and it agrees with the stated
condition whenever the first entry is `ENABLED`. -/
theorem gic_events_need_delivery_iff (s : gic_state) (pri_to_guest : Nat → Nat)
    (apr mask_priority : Nat) :
    (gic_events_need_delivery s pri_to_guest apr mask_priority = 0 ∨
      gic_events_need_delivery s pri_to_guest apr mask_priority = 1) ∧
    (gic_events_need_delivery s pri_to_guest apr mask_priority = 1 ↔
      ∃ l1 p l2, s.inflight_irqs = l1 ++ p :: l2 ∧
        (∀ q ∈ l1, (s.pending_irqs q).status.enabled = false ∧
          pri_to_guest (s.pending_irqs q).priority < mask_priority ∧
          pri_to_guest (s.pending_irqs q).priority < find_next_bit apr 32 0) ∧
        (s.pending_irqs p).status.enabled = true ∧
        pri_to_guest (s.pending_irqs p).priority < mask_priority ∧
        pri_to_guest (s.pending_irqs p).priority < find_next_bit apr 32 0) ∧
    (s.inflight_irqs = [] → gic_events_need_delivery s pri_to_guest apr mask_priority = 0) ∧
    (spec_needs_delivery s pri_to_guest apr mask_priority = true →
      gic_events_need_delivery s pri_to_guest apr mask_priority = 1) ∧
    (∀ p rest, s.inflight_irqs = p :: rest → (s.pending_irqs p).status.enabled = true →
      (gic_events_need_delivery s pri_to_guest apr mask_priority = 1 ↔
        spec_needs_delivery s pri_to_guest apr mask_priority = true)) := by
  obtain ⟨w1, w2⟩ := events_need_delivery_walk_iff s pri_to_guest mask_priority
    (find_next_bit apr 32 0) s.inflight_irqs
  have hspec : spec_needs_delivery s pri_to_guest apr mask_priority = true →
      gic_events_need_delivery s pri_to_guest apr mask_priority = 1 := by
    intro h
    unfold gic_events_need_delivery
    rw [w2]
    unfold spec_needs_delivery at h
    cases hl : s.inflight_irqs with
    | nil => rw [hl] at h; exact absurd h (Bool.false_ne_true)
    | cons p rest =>
      rw [hl] at h
      simp only [Bool.and_eq_true, decide_eq_true_eq] at h
      exact ⟨[], p, rest, rfl, fun q hq => absurd hq (List.not_mem_nil q), h.1.1, h.1.2, h.2⟩
  refine ⟨w1, w2, ?_, hspec, ?_⟩
  · intro h
    unfold gic_events_need_delivery
    rw [h]; rfl
  · intro p rest hl hen
    refine ⟨?_, hspec⟩
    intro h
    unfold gic_events_need_delivery at h
    rw [w2] at h
    obtain ⟨l1, p2, l2, hl2, hl1, hp⟩ := h
    rw [hl] at hl2
    cases l1 with
    | nil =>
      simp only [List.nil_append, List.cons.injEq] at hl2
      unfold spec_needs_delivery
      rw [hl]
      simp only [Bool.and_eq_true, decide_eq_true_eq]
      rw [hl2.1]
      exact ⟨⟨hp.1, hp.2.1⟩, hp.2.2⟩
    | cons y l1 =>
      simp only [List.cons_append, List.cons.injEq] at hl2
      have := (hl1 y (List.mem_cons_self y l1)).1
      rw [← hl2.1, hen] at this
      exact absurd this (by decide)

/-- In `two_slot_state` the first in-flight entry (interrupt 1, priority 10, guest
priority 1) is `ENABLED` and below mask and active priority: the function returns 1. -/
theorem gic_events_need_delivery_iff_witness :
    spec_needs_delivery two_slot_state (fun pri => pri >>> 3) 0 31 = true ∧
    gic_events_need_delivery two_slot_state (fun pri => pri >>> 3) 0 31 = 1 :=
  ⟨by decide,
    (gic_events_need_delivery_iff two_slot_state (fun pri => pri >>> 3) 0 31).2.2.2.1
      (by decide)⟩

/-! ## Migration -/

theorem update_one_lr_still_in_slot_migration (s : gic_state) (cur : Bool) (i : Nat)
    (lr_val : gic_lr) (hread : gicv3_read_lr s (i : Int) = some lr_val)
    (hst : lr_val.state &&& GICH_LR_ACTIVE ≠ 0 ∨ lr_val.state &&& GICH_LR_PENDING ≠ 0) :
    ∃ s', gic_update_one_lr s cur i = some s' ∧
      (∀ k, (s'.pending_irqs k).status.migrating = (s.pending_irqs k).status.migrating) ∧
      s'.irq_descs = s.irq_descs := by
  obtain ⟨h15, _⟩ := read_lr_some hread
  have hrec : ∀ (r : pending_irq) (k : Nat),
      r.status.migrating = (s.pending_irqs lr_val.virq).status.migrating →
      (Function.update s.pending_irqs lr_val.virq r k).status.migrating =
          (s.pending_irqs k).status.migrating := by
    intro r k e1
    by_cases hk : k = lr_val.virq
    · subst hk; simp only [Function.update_same]; exact e1
    · rw [Function.update_noteq hk]
  unfold gic_update_one_lr
  rw [hread]
  simp only []
  by_cases hact : lr_val.state &&& GICH_LR_ACTIVE ≠ 0
  · rw [if_pos hact]
    split
    · split
      · unfold gicv3_write_lr
        rw [ich_write_lr_eq _ _ _ h15]
        exact ⟨_, rfl, fun k => hrec _ k rfl, rfl⟩
      · exact ⟨_, rfl, fun k => hrec _ k rfl, rfl⟩
    · exact ⟨_, rfl, fun k => hrec _ k rfl, rfl⟩
  · rw [if_neg hact]
    have hp : lr_val.state &&& GICH_LR_PENDING ≠ 0 := by
      rcases hst with h | h
      · exact absurd h hact
      · exact h
    rw [if_pos hp]
    exact ⟨_, rfl, fun k => hrec _ k rfl, rfl⟩

theorem raise_guest_irq_migration (s : gic_state) (cur : Bool) (virtual_irq priority : Nat) :
    ∃ s', gic_raise_guest_irq s cur virtual_irq priority = some s' ∧
      (∀ k, (s'.pending_irqs k).status.migrating = (s.pending_irqs k).status.migrating) ∧
      s'.irq_descs = s.irq_descs := by
  rcases raise_guest_irq_cases s cur virtual_irq priority with h | ⟨i, hi, _, _, h⟩
  · rw [h]
    obtain ⟨_, _, hp, _, hd, _⟩ := add_to_lr_pending_frame s virtual_irq
    exact ⟨_, rfl, fun k => by rw [hp], hd⟩
  · obtain ⟨s', hs', _, _, _, _, hd, hp⟩ :=
      gic_set_lr_frame { s with lr_mask := set_bit i s.lr_mask } i virtual_irq
        GICH_LR_PENDING hi
    rw [h, hs']
    refine ⟨s', rfl, ?_, hd⟩
    intro k
    rw [hp]
    by_cases hk : k = virtual_irq
    · subst hk; simp only [Function.update_same]
    · rw [Function.update_noteq hk]

theorem retired_slot_state_migration (s : gic_state) (i irq : Nat) (h15 : i ≤ 15) :
    (∀ k, ((retired_slot_state s i irq).pending_irqs k).status.migrating =
      (s.pending_irqs k).status.migrating) ∧
    (∀ d, ((retired_slot_state s i irq).irq_descs d).affinity = (s.irq_descs d).affinity) ∧
    (retired_slot_state s i irq).target_processor = s.target_processor ∧
    (retired_slot_state s i irq).lr_pending = s.lr_pending ∧
    (retired_slot_state s i irq).inflight_irqs = s.inflight_irqs ∧
    (retired_slot_state s i irq).lr_mask = clear_bit i s.lr_mask ∧
    (retired_slot_state s i irq).pending_irqs irq =
      { s.pending_irqs irq with
        status := { (s.pending_irqs irq).status with visible := false, active := false }
        lr := GIC_INVALID_LR } := by
  rw [retired_slot_state_eq s i irq h15]
  have hk : ∀ (t : gic_state) (k : Nat), t.pending_irqs = s.pending_irqs →
      ((set_pending t irq
        { s.pending_irqs irq with
          status := { (s.pending_irqs irq).status with visible := false, active := false }
          lr := GIC_INVALID_LR }).pending_irqs k).status.migrating =
        (s.pending_irqs k).status.migrating := by
    intro t k ht
    unfold set_pending
    rw [ht]
    by_cases hk : k = irq
    · subst hk; simp only [Function.update_same]
    · simp only []; rw [Function.update_noteq hk]
  have hsame : ∀ (t : gic_state), t.pending_irqs = s.pending_irqs →
      (set_pending t irq
        { s.pending_irqs irq with
          status := { (s.pending_irqs irq).status with visible := false, active := false }
          lr := GIC_INVALID_LR }).pending_irqs irq =
        { s.pending_irqs irq with
          status := { (s.pending_irqs irq).status with visible := false, active := false }
          lr := GIC_INVALID_LR } := by
    intro t _
    unfold set_pending
    simp only [Function.update_same]
  cases hd : (s.pending_irqs irq).desc with
  | none =>
    exact ⟨fun k => hk _ k rfl, fun d => rfl, rfl, rfl, rfl, rfl, hsame _ rfl⟩
  | some d0 =>
    refine ⟨fun k => hk _ k rfl, ?_, rfl, rfl, rfl, rfl, hsame _ rfl⟩
    intro d
    unfold set_pending
    by_cases hdd : d = d0
    · subst hdd; simp only [Function.update_same]
    · simp only []; rw [Function.update_noteq hdd]

/-- C12: migration is deferred until retirement. When the slot reads back Active or
Pending, `gic_update_one_lr` leaves `MIGRATING` of every record and every descriptor
(its affinity among the rest) as they were. When the slot reads back fully retired and the
record is `MIGRATING`, the result is `irq_set_affinity` applied once, with the target
vCPU's processor, to a state `s6` in which the record already has `VISIBLE`, `ACTIVE` and
`MIGRATING` clear and no slot; the record is not re-raised whatever `ENABLED` and `QUEUED`
are (it leaves the in-flight list, `lr_pending` is as before and the slot's bit is clear),
and only the affinity of the record's own descriptor changes. When the slot reads back
retired and the record is not `MIGRATING`, no affinity and no `MIGRATING` bit changes. -/
theorem gic_update_one_lr_migration_deferred (s : gic_state) (cur : Bool) (i : Nat)
    (lr_val : gic_lr) (hread : gicv3_read_lr s (i : Int) = some lr_val) :
    ((lr_val.state &&& GICH_LR_ACTIVE ≠ 0 ∨ lr_val.state &&& GICH_LR_PENDING ≠ 0) →
      ∃ s', gic_update_one_lr s cur i = some s' ∧
        (∀ k, (s'.pending_irqs k).status.migrating = (s.pending_irqs k).status.migrating) ∧
        s'.irq_descs = s.irq_descs) ∧
    (lr_val.state &&& GICH_LR_ACTIVE = 0 → lr_val.state &&& GICH_LR_PENDING = 0 →
      (s.pending_irqs lr_val.virq).status.migrating = true →
      ∃ s6 s', gic_update_one_lr s cur i = some s' ∧
        s' = irq_set_affinity s6 (s.pending_irqs lr_val.virq).desc
          (s.target_processor lr_val.virq) ∧
        (s6.pending_irqs lr_val.virq).status.visible = false ∧
        (s6.pending_irqs lr_val.virq).status.active = false ∧
        (s6.pending_irqs lr_val.virq).status.migrating = false ∧
        (s6.pending_irqs lr_val.virq).lr = GIC_INVALID_LR ∧
        (∀ d, (s6.irq_descs d).affinity = (s.irq_descs d).affinity) ∧
        s'.pending_irqs = s6.pending_irqs ∧
        (s'.pending_irqs lr_val.virq).status.enabled =
          (s.pending_irqs lr_val.virq).status.enabled ∧
        (s'.pending_irqs lr_val.virq).status.queued =
          (s.pending_irqs lr_val.virq).status.queued ∧
        (∀ k, k ≠ lr_val.virq →
          (s'.pending_irqs k).status.migrating = (s.pending_irqs k).status.migrating) ∧
        s'.lr_pending = s.lr_pending ∧ s'.lr_mask = clear_bit i s.lr_mask ∧
        s'.inflight_irqs = s.inflight_irqs.filter (fun k => k != lr_val.virq) ∧
        (∀ d, (s.pending_irqs lr_val.virq).desc = some d →
          (s'.irq_descs d).affinity = s.target_processor lr_val.virq) ∧
        (∀ d, (s.pending_irqs lr_val.virq).desc ≠ some d →
          (s'.irq_descs d).affinity = (s.irq_descs d).affinity)) ∧
    (lr_val.state &&& GICH_LR_ACTIVE = 0 → lr_val.state &&& GICH_LR_PENDING = 0 →
      (s.pending_irqs lr_val.virq).status.migrating = false →
      ∃ s', gic_update_one_lr s cur i = some s' ∧
        (∀ k, (s'.pending_irqs k).status.migrating = (s.pending_irqs k).status.migrating) ∧
        (∀ d, (s'.irq_descs d).affinity = (s.irq_descs d).affinity)) := by
  obtain ⟨h15, _⟩ := read_lr_some hread
  obtain ⟨r1, r2, r3, r4, r5, r6, r7⟩ := retired_slot_state_migration s i lr_val.virq h15
  refine ⟨update_one_lr_still_in_slot_migration s cur i lr_val hread, ?_, ?_⟩
  · intro hact hpend hmig
    rw [update_one_lr_retired_unfold s cur i lr_val hread hact hpend]
    have hc : ¬ ((s.pending_irqs lr_val.virq).status.enabled = true ∧
        (s.pending_irqs lr_val.virq).status.queued = true ∧
        ¬ (s.pending_irqs lr_val.virq).status.migrating = true) := fun h => h.2.2 hmig
    rw [if_neg hc]
    simp only []
    rw [if_pos hmig]
    refine ⟨set_pending
        { (retired_slot_state s i lr_val.virq) with
          inflight_irqs := (retired_slot_state s i lr_val.virq).inflight_irqs.filter
            (fun k => k != lr_val.virq) }
        lr_val.virq
        { (retired_slot_state s i lr_val.virq).pending_irqs lr_val.virq with
          status := { ((retired_slot_state s i lr_val.virq).pending_irqs lr_val.virq).status
            with migrating := false } },
      _, rfl, ?_, ?_, ?_, ?_, ?_, ?_, ?_, ?_, ?_, ?_, ?_, ?_, ?_, ?_, ?_⟩
    · simp only [set_pending]; rw [r3]
    · simp only [set_pending, Function.update_same]; rw [r7]
    · simp only [set_pending, Function.update_same]; rw [r7]
    · simp only [set_pending, Function.update_same]
    · simp only [set_pending, Function.update_same]; rw [r7]
    · intro d; simp only [set_pending]; exact r2 d
    · cases (s.pending_irqs lr_val.virq).desc <;> rfl
    · cases (s.pending_irqs lr_val.virq).desc <;>
        (simp only [irq_set_affinity, set_pending, Function.update_same]; rw [r7])
    · cases (s.pending_irqs lr_val.virq).desc <;>
        (simp only [irq_set_affinity, set_pending, Function.update_same]; rw [r7])
    · intro k hk
      cases (s.pending_irqs lr_val.virq).desc <;>
        (simp only [irq_set_affinity, set_pending]; rw [Function.update_noteq hk]; exact r1 k)
    · cases (s.pending_irqs lr_val.virq).desc <;>
        (simp only [irq_set_affinity, set_pending]; exact r4)
    · cases (s.pending_irqs lr_val.virq).desc <;>
        (simp only [irq_set_affinity, set_pending]; exact r6)
    · cases (s.pending_irqs lr_val.virq).desc <;>
        (simp only [irq_set_affinity, set_pending]; rw [r5])
    · intro d hd
      rw [hd]
      simp only [irq_set_affinity, set_pending, Function.update_same]
      rw [r3]
    · intro d hd
      cases hd0 : (s.pending_irqs lr_val.virq).desc with
      | none => simp only [irq_set_affinity, set_pending]; exact r2 d
      | some d0 =>
        have hne : d ≠ d0 := fun e => hd (by rw [hd0, e])
        simp only [irq_set_affinity, set_pending]
        rw [Function.update_noteq hne]
        exact r2 d
  · intro hact hpend hmig
    rw [update_one_lr_retired_unfold s cur i lr_val hread hact hpend]
    split
    · obtain ⟨s', hs', hm, hd⟩ := raise_guest_irq_migration
        (retired_slot_state s i lr_val.virq) cur lr_val.virq
        (s.pending_irqs lr_val.virq).priority
      refine ⟨s', hs', fun k => by rw [hm k, r1 k], fun d => by rw [hd, r2 d]⟩
    · simp only []
      rw [if_neg (by rw [hmig]; decide)]
      exact ⟨_, rfl, r1, r2⟩

/-- Slot 0 of `slot0_retired_migrating_state` reads back retired and interrupt 1 is
`ENABLED`, `QUEUED` and `MIGRATING`: the call moves line 40 to processor 3, clears
`MIGRATING` and does not raise interrupt 1 again. -/
theorem gic_update_one_lr_migration_deferred_witness :
    gicv3_read_lr slot0_retired_migrating_state 0 =
      some { pirq := 0, virq := 1, priority := 10, state := 0, hw_status := 0, grp := 1 } ∧
    (slot0_retired_migrating_state.pending_irqs 1).status.enabled = true ∧
    (slot0_retired_migrating_state.pending_irqs 1).status.queued = true ∧
    (slot0_retired_migrating_state.irq_descs 40).affinity = 0 ∧
    ∃ s', gic_update_one_lr slot0_retired_migrating_state true 0 = some s' ∧
      (s'.pending_irqs 1).status.migrating = false ∧
      (s'.irq_descs 40).affinity = 3 ∧
      s'.lr_pending = slot0_retired_migrating_state.lr_pending ∧
      s'.lr_mask = 2 :=
  have h := (gic_update_one_lr_migration_deferred slot0_retired_migrating_state true 0
    { pirq := 0, virq := 1, priority := 10, state := 0, hw_status := 0, grp := 1 }
    (by decide)).2.1 (by decide) (by decide) (by decide)
  ⟨by decide, by decide, by decide, by decide,
    h.elim fun s6 h6 => h6.elim fun s' hs =>
      ⟨s', hs.1, hs.2.2.2.2.2.2.2.1 ▸ hs.2.2.2.2.1, hs.2.2.2.2.2.2.2.2.2.2.2.2.2.2.1 40 rfl,
        hs.2.2.2.2.2.2.2.2.2.2.2.1, hs.2.2.2.2.2.2.2.2.2.2.2.2.1⟩⟩

/-! ## Slot-iff-VISIBLE -/

theorem slot_iff_visible_of_eq {s s' : gic_state}
    (hr : ∀ k, (s'.pending_irqs k).status.visible = (s.pending_irqs k).status.visible ∧
      (s'.pending_irqs k).lr = (s.pending_irqs k).lr)
    (h : slot_iff_visible s) : slot_iff_visible s' := by
  intro k
  rw [(hr k).1, (hr k).2]
  exact h k

theorem slot_iff_visible_install {s s' : gic_state} {p lr : Nat} (h : slot_iff_visible s)
    (hlr : lr ≠ GIC_INVALID_LR)
    (hp : s'.pending_irqs = Function.update s.pending_irqs p
      { s.pending_irqs p with
        status := { (s.pending_irqs p).status with visible := true, queued := false }
        lr := lr }) :
    slot_iff_visible s' := by
  intro k
  rw [hp]
  by_cases hk : k = p
  · subst hk
    simp only [Function.update_same]
    exact ⟨fun _ => trivial, fun _ => hlr⟩
  · rw [Function.update_noteq hk]
    exact h k

theorem slot_iff_visible_set_lr {s s' : gic_state} {lr p state : Nat}
    (hs : gic_set_lr s lr p state = some s') (h : slot_iff_visible s) (hN : s.nr_lrs ≤ 255) :
    slot_iff_visible s' ∧ s'.nr_lrs = s.nr_lrs := by
  obtain ⟨hlt, f2, _, _, f5⟩ := gic_set_lr_some hs
  refine ⟨slot_iff_visible_install h ?_ f5, f2⟩
  unfold GIC_INVALID_LR
  omega

theorem slot_iff_visible_raise (s : gic_state) (cur : Bool) (virtual_irq priority : Nat)
    (h : slot_iff_visible s) (hN : s.nr_lrs ≤ 255) :
    ∃ s', gic_raise_guest_irq s cur virtual_irq priority = some s' ∧ slot_iff_visible s' ∧
      s'.nr_lrs = s.nr_lrs := by
  rcases raise_guest_irq_cases s cur virtual_irq priority with hc | ⟨i, hi, _, _, hc⟩
  · rw [hc]
    obtain ⟨_, _, hp, _, _, hn, _⟩ := add_to_lr_pending_frame s virtual_irq
    exact ⟨_, rfl, slot_iff_visible_of_eq (fun k => by simp [hp]) h, hn⟩
  · obtain ⟨s', hs', _⟩ :=
      gic_set_lr_frame { s with lr_mask := set_bit i s.lr_mask } i virtual_irq
        GICH_LR_PENDING hi
    rw [hc, hs']
    have h0 : slot_iff_visible { s with lr_mask := set_bit i s.lr_mask } := h
    obtain ⟨g1, g2⟩ := slot_iff_visible_set_lr hs' h0 hN
    exact ⟨s', rfl, g1, g2⟩

theorem slot_iff_visible_retired (s : gic_state) (i irq : Nat) (h : slot_iff_visible s)
    (h15 : i ≤ 15) :
    slot_iff_visible (retired_slot_state s i irq) ∧
    (retired_slot_state s i irq).nr_lrs = s.nr_lrs := by
  rw [retired_slot_state_eq s i irq h15]
  have hk : ∀ (t : gic_state), t.pending_irqs = s.pending_irqs →
      slot_iff_visible (set_pending t irq
        { s.pending_irqs irq with
          status := { (s.pending_irqs irq).status with visible := false, active := false }
          lr := GIC_INVALID_LR }) := by
    intro t ht k
    unfold set_pending
    rw [ht]
    by_cases hk : k = irq
    · subst hk
      simp only [Function.update_same]
      exact ⟨fun hne => absurd rfl hne, fun hf => absurd hf (by decide)⟩
    · simp only []
      rw [Function.update_noteq hk]
      exact h k
  cases hd : (s.pending_irqs irq).desc with
  | none => exact ⟨hk _ rfl, rfl⟩
  | some d0 => exact ⟨hk _ rfl, rfl⟩

theorem slot_iff_visible_update_one_lr (s : gic_state) (cur : Bool) (i : Nat) (lr_val : gic_lr)
    (hread : gicv3_read_lr s (i : Int) = some lr_val)
    (h : slot_iff_visible s) (hN : s.nr_lrs ≤ 255) :
    ∃ s', gic_update_one_lr s cur i = some s' ∧ slot_iff_visible s' ∧
      s'.nr_lrs = s.nr_lrs := by
  obtain ⟨h15, _⟩ := read_lr_some hread
  by_cases hst : lr_val.state &&& GICH_LR_ACTIVE ≠ 0 ∨ lr_val.state &&& GICH_LR_PENDING ≠ 0
  · obtain ⟨s', h1, h2, _, h4, _⟩ := update_one_lr_still_in_slot s cur i lr_val hread hst
    exact ⟨s', h1, slot_iff_visible_of_eq (fun k => ⟨(h4 k).1, (h4 k).2.1⟩) h, h2⟩
  · have hact : lr_val.state &&& GICH_LR_ACTIVE = 0 := by
      by_contra hne; exact hst (Or.inl hne)
    have hpend : lr_val.state &&& GICH_LR_PENDING = 0 := by
      by_contra hne; exact hst (Or.inr hne)
    obtain ⟨r1, r2⟩ := slot_iff_visible_retired s i lr_val.virq h h15
    by_cases hc : (s.pending_irqs lr_val.virq).status.enabled = true ∧
        (s.pending_irqs lr_val.virq).status.queued = true ∧
        ¬ (s.pending_irqs lr_val.virq).status.migrating = true
    · rw [update_one_lr_retired_unfold s cur i lr_val hread hact hpend, if_pos hc]
      obtain ⟨s', g1, g2, g3⟩ := slot_iff_visible_raise (retired_slot_state s i lr_val.virq)
        cur lr_val.virq (s.pending_irqs lr_val.virq).priority r1 (by rw [r2]; exact hN)
      exact ⟨s', g1, g2, by rw [g3, r2]⟩
    · obtain ⟨s', g1, g2, _, _, g5⟩ :=
        update_one_lr_retired_no_raise s cur i lr_val hread hact hpend hc
      exact ⟨s', g1, slot_iff_visible_of_eq (fun k => ⟨(g5 k).1, (g5 k).2.1⟩) r1,
        by rw [g2, r2]⟩

theorem slot_iff_visible_clear_lrs_loop (cur : Bool) (rounds : Nat) :
    ∀ (i : Nat) (s : gic_state), slot_iff_visible s → s.nr_lrs ≤ 16 →
      s.nr_lrs ≤ rounds + i →
      ∃ s', gic_clear_lrs_loop cur rounds i s = some s' ∧ slot_iff_visible s' := by
  induction rounds with
  | zero =>
    intro i s h _ hr
    unfold gic_clear_lrs_loop
    rw [if_neg (find_next_bit_ge_size (by omega))]
    exact ⟨s, rfl, h⟩
  | succ n ih =>
    intro i s h hN hr
    unfold gic_clear_lrs_loop
    simp only []
    by_cases hlt : find_next_bit s.lr_mask s.nr_lrs i < s.nr_lrs
    · rw [if_pos hlt]
      obtain ⟨hge, _, _⟩ := find_next_bit_lt hlt
      obtain ⟨s1, h1, h2, h5⟩ :=
        slot_iff_visible_update_one_lr s cur (find_next_bit s.lr_mask s.nr_lrs i) _
          (read_lr_eq s (find_next_bit s.lr_mask s.nr_lrs i) (by omega)) h (by omega)
      rw [h1]
      simp only []
      exact ih _ s1 h2 (by rw [h5]; exact hN) (by rw [h5]; omega)
    · rw [if_neg hlt]
      exact ⟨s, rfl, h⟩

theorem slot_iff_visible_clear_lrs (s : gic_state) (cur idle : Bool)
    (h : slot_iff_visible s) (hN : s.nr_lrs ≤ 16) :
    ∃ s', gic_clear_lrs s cur idle = some s' ∧ slot_iff_visible s' := by
  unfold gic_clear_lrs
  split
  · exact ⟨s, rfl, h⟩
  · have hst : gicv3_hcr_status s GICH_HCR_UIE false =
        { s with ich_hcr := s.ich_hcr &&& (0xffffffff ^^^ GICH_HCR_UIE) } := by
      unfold gicv3_hcr_status; simp
    rw [hst]
    exact slot_iff_visible_clear_lrs_loop cur s.nr_lrs 0 _ h hN (by simp)

/-- One round of the admission loop that reaches `lrs--`: the invariant holds afterwards,
the admitted entry is `VISIBLE` in the slot `lr1`, and a victim other than the admitted
entry has lost `VISIBLE` and its slot. -/
theorem slot_iff_visible_restore_round {s s1 : gic_state} {p lr lr1 : Nat}
    {ir ir1 : Option Nat} {log : List eviction}
    (hround : gic_restore_round s p lr ir = restore_round.next log s1 lr1 ir1)
    (h : slot_iff_visible s) (hN : s.nr_lrs ≤ 255) :
    slot_iff_visible s1 ∧ s1.nr_lrs = s.nr_lrs ∧
    (s1.pending_irqs p).status.visible = true ∧ (s1.pending_irqs p).lr = lr1 ∧
    lr1 ≠ GIC_INVALID_LR ∧
    (∀ e ∈ log, e.candidate = p ∧ e.lr = lr1 ∧
      (s.pending_irqs e.victim).status.visible = true ∧ (s.pending_irqs e.victim).lr = lr1 ∧
      (e.victim ≠ p → (s1.pending_irqs e.victim).status.visible = false ∧
        (s1.pending_irqs e.victim).lr = GIC_INVALID_LR)) := by
  unfold gic_restore_round at hround
  simp only [] at hround
  split at hround
  · split at hround
    · cases hround
    · split at hround <;> cases hround
    · rename_i p_r hscan
      split at hround
      · cases hround
      · rename_i s3 hset
        cases hround
        obtain ⟨_, hv, _, _⟩ := scan_for_victim_found hscan
        obtain ⟨g1, _, g3, _, _, g6, _⟩ := add_to_lr_pending_frame
          (set_pending s p_r
            { s.pending_irqs p_r with
              lr := GIC_INVALID_LR
              status := { (s.pending_irqs p_r).status with queued := true, visible := false } }) p_r
        have hmid : slot_iff_visible (gic_add_to_lr_pending
            (set_pending s p_r
              { s.pending_irqs p_r with
                lr := GIC_INVALID_LR
                status := { (s.pending_irqs p_r).status with
                  queued := true, visible := false } }) p_r) := by
          intro k
          rw [g3]
          unfold set_pending
          by_cases hk : k = p_r
          · subst hk
            simp only [Function.update_same]
            exact ⟨fun hne => absurd rfl hne, fun hf => absurd hf (by decide)⟩
          · simp only []
            rw [Function.update_noteq hk]
            exact h k
        obtain ⟨q1, q2⟩ := slot_iff_visible_set_lr hset hmid (le_of_eq_of_le g6 hN)
        obtain ⟨hj, _, _, _, f5⟩ := gic_set_lr_some hset
        rw [g3] at f5
        have hne : (s.pending_irqs p_r).lr ≠ GIC_INVALID_LR := (h p_r).mpr hv
        refine ⟨q1, q2.trans g6, ?_, ?_, hne, ?_⟩
        · show (s3.pending_irqs p).status.visible = true
          rw [f5]; simp
        · show (s3.pending_irqs p).lr = (s.pending_irqs p_r).lr
          rw [f5]; simp
        · intro e he
          rw [List.mem_singleton] at he
          subst he
          refine ⟨rfl, rfl, hv, rfl, ?_⟩
          intro hvp
          show (s3.pending_irqs p_r).status.visible = false ∧
            (s3.pending_irqs p_r).lr = GIC_INVALID_LR
          rw [f5, Function.update_noteq hvp]
          simp [set_pending]
  · rename_i hlt
    have hlt' := Nat.lt_of_not_le hlt
    split at hround
    · cases hround
    · rename_i s3 hset
      cases hround
      obtain ⟨q1, q2⟩ := slot_iff_visible_set_lr hset h hN
      obtain ⟨_, _, _, _, f5⟩ := gic_set_lr_some hset
      refine ⟨q1, q2, ?_, ?_, ?_, ?_⟩
      · show (s3.pending_irqs p).status.visible = true
        rw [f5]; simp
      · show (s3.pending_irqs p).lr = _
        rw [f5]; simp
      · unfold GIC_INVALID_LR; omega
      · intro e he
        exact absurd he (List.not_mem_nil e)

theorem slot_iff_visible_restore_loop (lrs : Nat) :
    ∀ (s : gic_state) (p lr : Nat) (ir : Option Nat), slot_iff_visible s → s.nr_lrs ≤ 255 →
      ∀ s', (gic_restore_loop lrs s p lr ir).2 = some s' → slot_iff_visible s' := by
  induction lrs with
  | zero =>
    intro s p lr ir h _ s' hs'
    unfold gic_restore_loop at hs'
    cases hround : gic_restore_round s p lr ir with
    | stop log r =>
      rw [hround] at hs'
      rw [gic_restore_round_stop hround s' hs']
      exact h
    | next log s1 lr1 ir1 =>
      rw [hround] at hs'
      cases hs'
  | succ n ih =>
    intro s p lr ir h hN s' hs'
    unfold gic_restore_loop at hs'
    cases hround : gic_restore_round s p lr ir with
    | stop log r =>
      rw [hround] at hs'
      rw [gic_restore_round_stop hround s' hs']
      exact h
    | next log s1 lr1 ir1 =>
      rw [hround] at hs'
      obtain ⟨r1, r2, _⟩ := slot_iff_visible_restore_round hround h hN
      simp only [] at hs'
      split at hs'
      · cases hs'; exact r1
      · split at hs'
        · cases hs'; exact r1
        · rename_i t1 ht
          exact ih s1 t1 lr1 ir1 r1 (by rw [r2]; exact hN) s' hs'

theorem slot_iff_visible_restore_pending_irqs (s : gic_state) (h : slot_iff_visible s)
    (hN : s.nr_lrs ≤ 255) :
    ∀ s', gic_restore_pending_irqs s = some s' → slot_iff_visible s' := by
  intro s' hs'
  unfold gic_restore_pending_irqs gic_restore_pending_irqs_run at hs'
  split at hs'
  · cases hs'; exact h
  · rename_i p rest hl
    exact slot_iff_visible_restore_loop _ s p 0 none h hN s' hs'


theorem slot_iff_visible_two_slot_state : slot_iff_visible two_slot_state := by
  intro k
  simp only [two_slot_state]
  split
  · decide
  · split
    · decide
    · split
      · decide
      · split
        · decide
        · simp [idle_pending]

/-- C14: the worked scenario with four list registers. On the idle running vCPU the
interrupts A = 1 (priority 10), B = 2 (20), C = 3 (5), D = 4 (30), E = 5 (15) are raised
in this order: A, B, C, D are `VISIBLE` in slots 0, 1, 2, 3 and E alone is on `lr_pending`.
When slot 3 reads back Active, D becomes `ACTIVE`; when it then reads back retired, with D
not asserted again, `gic_clear_lrs` clears bit 3 and takes D off the in-flight list; the
pass of `gic_restore_pending_irqs` that follows puts E into slot 3 (`VISIBLE`, `QUEUED`
clear, the register reads back E in state Pending), `lr_pending` is empty and all four
bits of `lr_mask` are set. -/
theorem scenario_four_slots :
    scenario_idle_state.nr_lrs = 4 ∧
    scenario_view scenario_idle_state =
      ⟨0, [], [], [⟨false, 255, false, false⟩, ⟨false, 255, false, false⟩,
        ⟨false, 255, false, false⟩, ⟨false, 255, false, false⟩,
        ⟨false, 255, false, false⟩]⟩ ∧
    scenario_raised.map scenario_view =
      some ⟨15, [5], [3, 1, 5, 2, 4], [⟨true, 0, false, false⟩, ⟨true, 1, false, false⟩,
        ⟨true, 2, false, false⟩, ⟨true, 3, false, false⟩, ⟨false, 255, true, false⟩]⟩ ∧
    scenario_active.map scenario_view =
      some ⟨15, [5], [3, 1, 5, 2, 4], [⟨true, 0, false, false⟩, ⟨true, 1, false, false⟩,
        ⟨true, 2, false, false⟩, ⟨true, 3, false, true⟩, ⟨false, 255, true, false⟩]⟩ ∧
    scenario_retired.map scenario_view =
      some ⟨7, [5], [3, 1, 5, 2], [⟨true, 0, false, false⟩, ⟨true, 1, false, false⟩,
        ⟨true, 2, false, false⟩, ⟨false, 255, false, false⟩, ⟨false, 255, true, false⟩]⟩ ∧
    scenario_admitted.map scenario_view =
      some ⟨15, [], [3, 1, 5, 2], [⟨true, 0, false, false⟩, ⟨true, 1, false, false⟩,
        ⟨true, 2, false, false⟩, ⟨false, 255, false, false⟩, ⟨true, 3, false, false⟩]⟩ ∧
    scenario_admitted.bind (fun s => gicv3_read_lr s 3) =
      some { pirq := 0, virq := 5, priority := 15, state := GICH_LR_PENDING, hw_status := 0,
             grp := 1 } := by
  decide!

/-! ## Context switch -/

theorem gic_restore_round_mask_inflight {s s1 : gic_state} {p lr lr1 : Nat}
    {ir ir1 : Option Nat} {log : List eviction}
    (hround : gic_restore_round s p lr ir = restore_round.next log s1 lr1 ir1) :
    s1.inflight_irqs = s.inflight_irqs ∧ s1.lr_mask = set_bit lr1 s.lr_mask := by
  unfold gic_restore_round at hround
  simp only [] at hround
  split at hround
  · split at hround
    · cases hround
    · split at hround <;> cases hround
    · rename_i p_r hscan
      split at hround
      · cases hround
      · rename_i s3 hset
        cases hround
        obtain ⟨g1, _, _, g4, _, _, _⟩ := add_to_lr_pending_frame
          (set_pending s p_r
            { s.pending_irqs p_r with
              lr := GIC_INVALID_LR
              status := { (s.pending_irqs p_r).status with queued := true, visible := false } }) p_r
        obtain ⟨hj, _, f3, _, _⟩ := gic_set_lr_some hset
        obtain ⟨s', hs', _, _, e3, _⟩ := gic_set_lr_frame _ _ p GICH_LR_PENDING hj
        rw [hset] at hs'
        cases hs'
        refine ⟨?_, ?_⟩
        · show s3.inflight_irqs = s.inflight_irqs
          rw [e3, g4]; rfl
        · show set_bit _ s3.lr_mask = set_bit _ s.lr_mask
          rw [f3, g1]; rfl
  · split at hround
    · cases hround
    · rename_i s3 hset
      cases hround
      obtain ⟨hj, _, f3, _, _⟩ := gic_set_lr_some hset
      obtain ⟨s', hs', _, _, e3, _⟩ := gic_set_lr_frame _ _ p GICH_LR_PENDING hj
      rw [hset] at hs'
      cases hs'
      refine ⟨?_, ?_⟩
      · show s3.inflight_irqs = s.inflight_irqs
        rw [e3]
      · show set_bit _ s3.lr_mask = set_bit _ s.lr_mask
        rw [f3]

theorem gic_restore_loop_mask_inflight (lrs : Nat) :
    ∀ (s : gic_state) (p lr : Nat) (ir : Option Nat) (s' : gic_state),
      (gic_restore_loop lrs s p lr ir).2 = some s' →
      s'.inflight_irqs = s.inflight_irqs ∧
      (∀ i, s.lr_mask.testBit i = true → s'.lr_mask.testBit i = true) := by
  induction lrs with
  | zero =>
    intro s p lr ir s' hs'
    unfold gic_restore_loop at hs'
    cases hround : gic_restore_round s p lr ir with
    | stop log r =>
      rw [hround] at hs'
      rw [gic_restore_round_stop hround s' hs']
      exact ⟨rfl, fun _ h => h⟩
    | next log s1 lr1 ir1 =>
      rw [hround] at hs'
      cases hs'
  | succ n ih =>
    intro s p lr ir s' hs'
    unfold gic_restore_loop at hs'
    cases hround : gic_restore_round s p lr ir with
    | stop log r =>
      rw [hround] at hs'
      rw [gic_restore_round_stop hround s' hs']
      exact ⟨rfl, fun _ h => h⟩
    | next log s1 lr1 ir1 =>
      rw [hround] at hs'
      obtain ⟨r1, r2⟩ := gic_restore_round_mask_inflight hround
      have hmono : ∀ i, s.lr_mask.testBit i = true → s1.lr_mask.testBit i = true := by
        intro i hi
        rw [r2, testBit_set_bit, hi]; rfl
      simp only [] at hs'
      split at hs'
      · cases hs'; exact ⟨r1, hmono⟩
      · split at hs'
        · cases hs'; exact ⟨r1, hmono⟩
        · rename_i t1 ht
          obtain ⟨q1, q2⟩ := ih s1 t1 lr1 ir1 s' hs'
          exact ⟨q1.trans r1, fun i hi => q2 i (hmono i hi)⟩

theorem gic_restore_pending_irqs_mask_inflight (s s' : gic_state)
    (hs' : gic_restore_pending_irqs s = some s') :
    s'.inflight_irqs = s.inflight_irqs ∧
    (∀ i, s.lr_mask.testBit i = true → s'.lr_mask.testBit i = true) := by
  unfold gic_restore_pending_irqs gic_restore_pending_irqs_run at hs'
  split at hs'
  · cases hs'; exact ⟨rfl, fun _ h => h⟩
  · exact gic_restore_loop_mask_inflight _ s _ 0 none s' hs'

theorem gicv3_save_lrs_from_eq (n : Nat) :
    ∀ c : vcpu_context, gicv3_save_lrs_from n c =
      { c with lr := fun j => if j < n then c.gic.ich_lr j else c.lr j } := by
  induction n with
  | zero =>
    intro c
    show c = _
    simp
  | succ n ih =>
    intro c
    rw [gicv3_save_lrs_from, ih]
    have hf : (fun j => if j < n then (save_lr c n).gic.ich_lr j else (save_lr c n).lr j) =
        (fun j => if j < n + 1 then c.gic.ich_lr j else c.lr j) := by
      funext j
      simp only [save_lr]
      by_cases h1 : j < n
      · rw [if_pos h1, if_pos (by omega)]
      · rw [if_neg h1]
        by_cases h2 : j = n
        · subst h2; rw [Function.update_same, if_pos (by omega)]
        · rw [Function.update_noteq h2, if_neg (by omega)]
    rw [hf]
    rfl

theorem gicv3_restore_lrs_from_eq (n : Nat) :
    ∀ c : vcpu_context, gicv3_restore_lrs_from n c =
      { c with
        gic := { c.gic with ich_lr := fun j => if j < n then c.lr j else c.gic.ich_lr j } } := by
  induction n with
  | zero =>
    intro c
    show c = _
    simp
  | succ n ih =>
    intro c
    rw [gicv3_restore_lrs_from, ih]
    have hf : (fun j => if j < n then (restore_lr c n).lr j
          else (restore_lr c n).gic.ich_lr j) =
        (fun j => if j < n + 1 then c.lr j else c.gic.ich_lr j) := by
      funext j
      simp only [restore_lr]
      by_cases h1 : j < n
      · rw [if_pos h1, if_pos (by omega)]
      · rw [if_neg h1]
        by_cases h2 : j = n
        · subst h2; rw [Function.update_same, if_pos (by omega)]
        · rw [Function.update_noteq h2, if_neg (by omega)]
    rw [hf]
    rfl

theorem gicv3_save_lrs_eq (c : vcpu_context) :
    gicv3_save_lrs c =
      if 1 ≤ c.gic.nr_lrs ∧ c.gic.nr_lrs ≤ 16 then
        some { c with lr := fun j => if j < c.gic.nr_lrs then c.gic.ich_lr j else c.lr j }
      else none := by
  unfold gicv3_save_lrs
  rw [gicv3_save_lrs_from_eq]

theorem gicv3_restore_lrs_eq (c : vcpu_context) :
    gicv3_restore_lrs c =
      if 1 ≤ c.gic.nr_lrs ∧ c.gic.nr_lrs ≤ 16 then
        some { c with
          gic := { c.gic with
            ich_lr := fun j => if j < c.gic.nr_lrs then c.lr j else c.gic.ich_lr j } }
      else none := by
  unfold gicv3_restore_lrs
  rw [gicv3_restore_lrs_from_eq]

theorem update3_eq (f g : Nat → Nat) (np : Nat) (h : np = 5 ∨ np = 6 ∨ np = 7) :
    (fun j => if j + 5 ≤ np then g j else f j) =
      if np = 7 then Function.update (Function.update (Function.update f 2 (g 2)) 1 (g 1)) 0 (g 0)
      else if np = 6 then Function.update (Function.update f 1 (g 1)) 0 (g 0)
      else Function.update f 0 (g 0) := by
  funext j
  have hcase : j = 0 ∨ j = 1 ∨ j = 2 ∨ 3 ≤ j := by omega
  rcases h with h | h | h <;> subst h <;>
    rcases hcase with h0 | h0 | h0 | h0 <;>
      first
        | (subst h0; simp)
        | (have e0 : j ≠ 0 := by omega
           have e1 : j ≠ 1 := by omega
           have e2 : j ≠ 2 := by omega
           have e7 : ¬ j + 5 ≤ 7 := by omega
           have e6 : ¬ j + 5 ≤ 6 := by omega
           have e5 : ¬ j + 5 ≤ 5 := by omega
           simp [Function.update_noteq, e0, e1, e2, e5, e6, e7])

theorem save_aprn_regs_eq (c : vcpu_context) :
    save_aprn_regs c =
      if 5 ≤ c.nr_priorities ∧ c.nr_priorities ≤ 7 then
        some { c with
          apr0 := fun j => if j + 5 ≤ c.nr_priorities then c.ich_ap0r j else c.apr0 j
          apr1 := fun j => if j + 5 ≤ c.nr_priorities then c.ich_ap1r j else c.apr1 j }
      else none := by
  unfold save_aprn_regs
  split
  · rename_i h
    rw [if_pos (by omega), update3_eq c.apr0 c.ich_ap0r _ (by omega),
      update3_eq c.apr1 c.ich_ap1r _ (by omega)]
    simp [h, save_apr]
  · rename_i h
    rw [if_pos (by omega), update3_eq c.apr0 c.ich_ap0r _ (by omega),
      update3_eq c.apr1 c.ich_ap1r _ (by omega)]
    simp [h, save_apr]
  · rename_i h
    rw [if_pos (by omega), update3_eq c.apr0 c.ich_ap0r _ (by omega),
      update3_eq c.apr1 c.ich_ap1r _ (by omega)]
    simp [h, save_apr]
  · rename_i h7 h6 h5
    rw [if_neg]
    intro hr
    have hc : c.nr_priorities = 5 ∨ c.nr_priorities = 6 ∨ c.nr_priorities = 7 := by omega
    rcases hc with e | e | e <;> first | exact h5 e | exact h6 e | exact h7 e

theorem restore_aprn_regs_eq (c : vcpu_context) :
    restore_aprn_regs c =
      if 5 ≤ c.nr_priorities ∧ c.nr_priorities ≤ 7 then
        some { c with
          ich_ap0r := fun j => if j + 5 ≤ c.nr_priorities then c.apr0 j else c.ich_ap0r j
          ich_ap1r := fun j => if j + 5 ≤ c.nr_priorities then c.apr1 j else c.ich_ap1r j }
      else none := by
  unfold restore_aprn_regs
  split
  · rename_i h
    rw [if_pos (by omega), update3_eq c.ich_ap0r c.apr0 _ (by omega),
      update3_eq c.ich_ap1r c.apr1 _ (by omega)]
    simp [h, restore_apr]
  · rename_i h
    rw [if_pos (by omega), update3_eq c.ich_ap0r c.apr0 _ (by omega),
      update3_eq c.ich_ap1r c.apr1 _ (by omega)]
    simp [h, restore_apr]
  · rename_i h
    rw [if_pos (by omega), update3_eq c.ich_ap0r c.apr0 _ (by omega),
      update3_eq c.ich_ap1r c.apr1 _ (by omega)]
    simp [h, restore_apr]
  · rename_i h7 h6 h5
    rw [if_neg]
    intro hr
    have hc : c.nr_priorities = 5 ∨ c.nr_priorities = 6 ∨ c.nr_priorities = 7 := by omega
    rcases hc with e | e | e <;> first | exact h5 e | exact h6 e | exact h7 e

/-- With 1 to 16 list registers and 5 to 7 priority bits `gic_save_state` returns, and
`gic_restore_state` after it is the admission pass on the engine state that was saved. -/
theorem gic_save_restore_eq (c : vcpu_context)
    (hN : 1 ≤ c.gic.nr_lrs ∧ c.gic.nr_lrs ≤ 16)
    (hP : 5 ≤ c.nr_priorities ∧ c.nr_priorities ≤ 7) :
    ∃ c1, gic_save_state c = some c1 ∧ c1.arch_lr_mask = c.gic.lr_mask ∧ c1.gic = c.gic ∧
      (∀ j, j < c.gic.nr_lrs → c1.lr j = c.gic.ich_lr j) ∧
      (gic_restore_state c1).map (fun c2 => c2.gic) = gic_restore_pending_irqs c.gic := by
  have hsave : gic_save_state c = some
      { c with
        arch_lr_mask := c.gic.lr_mask
        lr := fun j => if j < c.gic.nr_lrs then c.gic.ich_lr j else c.lr j
        apr0 := fun j => if j + 5 ≤ c.nr_priorities then c.ich_ap0r j else c.apr0 j
        apr1 := fun j => if j + 5 ≤ c.nr_priorities then c.ich_ap1r j else c.apr1 j
        vmcr := c.ich_vmcr
        sre_el1 := c.icc_sre_el1 } := by
    unfold gic_save_state gicv3_save_state
    rw [gicv3_save_lrs_eq]
    simp only []
    rw [if_pos hN]
    simp only []
    rw [save_aprn_regs_eq]
    simp only []
    rw [if_pos hP]
  refine ⟨_, hsave, rfl, rfl, ?_, ?_⟩
  · intro j hj
    simp only [if_pos hj]
  · unfold gic_restore_state gicv3_restore_state
    simp only []
    rw [restore_aprn_regs_eq]
    simp only []
    rw [if_pos hP]
    simp only []
    rw [gicv3_restore_lrs_eq]
    simp only []
    rw [if_pos hN]
    simp only []
    have hg : ({ c.gic with
        lr_mask := c.gic.lr_mask
        ich_lr := fun j =>
          if j < c.gic.nr_lrs then (if j < c.gic.nr_lrs then c.gic.ich_lr j else c.lr j)
          else c.gic.ich_lr j } : gic_state) = c.gic := by
      have hf : (fun j =>
          if j < c.gic.nr_lrs then (if j < c.gic.nr_lrs then c.gic.ich_lr j else c.lr j)
          else c.gic.ich_lr j) = c.gic.ich_lr := by
        funext j
        by_cases hj : j < c.gic.nr_lrs
        · simp only [if_pos hj]
        · simp only [if_neg hj]
      rw [hf]
    rw [hg]
    cases gic_restore_pending_irqs c.gic <;> rfl

/-- C23: the code at a failing input. The list-register count of `gicv3_hyp_init` is
`(vtr & 0x3f) + 1`, between 1 and 64 for every `vtr`, and it is at most 16 only when the
low six bits of `vtr` are at most 15. With `vtr = 0x80000010` (priority bits field 4,
list-register field 16) `gicv3_hyp_init` returns with `nr_lrs = 17`, and with that count
`gicv3_save_lrs` and `gicv3_restore_lrs` reach `default: BUG()`. -/
theorem gicv3_hyp_init_nr_lrs_above_16 :
    (∀ vtr info, gicv3_hyp_init vtr = some info →
      1 ≤ info.nr_lrs ∧ info.nr_lrs ≤ 64 ∧ info.nr_lrs = (vtr &&& 0x3f) + 1 ∧
      (info.nr_lrs ≤ 16 ↔ vtr &&& 0x3f ≤ 15)) ∧
    (gicv3_hyp_init 0x80000010).map (fun info => (info.nr_lrs, info.nr_priorities)) =
      some (17, 5) ∧
    gicv3_save_lrs (mk_context { idle_state with nr_lrs := 17 }) = none ∧
    gicv3_restore_lrs (mk_context { idle_state with nr_lrs := 17 }) = none := by
  refine ⟨?_, by decide, rfl, rfl⟩
  intro vtr info h
  unfold gicv3_hyp_init at h
  simp only [] at h
  split at h
  · cases h
  · cases h
    have hlt : vtr &&& 0x3f < 2 ^ 6 := Nat.and_lt_two_pow vtr (by decide)
    refine ⟨?_, ?_, rfl, ?_⟩
    · show 1 ≤ (vtr &&& 0x3f) + 1
      omega
    · show (vtr &&& 0x3f) + 1 ≤ 64
      omega
    · show (vtr &&& 0x3f) + 1 ≤ 16 ↔ vtr &&& 0x3f ≤ 15
      omega

/-! ## Lock balance -/

/-- C27: the code at a failing input. In `routed_inprogress_state` (the domain is not
dying, the descriptor is in progress) `gic_remove_irq_from_guest` returns `-EBUSY` from
inside the `else` branch, before `vgic_unlock_rank`: the rank lock taken at entry is still
held. For every state the lock is held on return exactly on that path. -/
theorem gic_remove_irq_from_guest_busy_keeps_rank_lock :
    (gic_remove_irq_from_guest routed_inprogress_state false 40 40).ret = -EBUSY ∧
    (gic_remove_irq_from_guest routed_inprogress_state false 40 40).rank_lock_held = true ∧
    (∀ s is_dying virq desc,
      (gic_remove_irq_from_guest s is_dying virq desc).rank_lock_held = true ↔
        (gic_remove_irq_from_guest s is_dying virq desc).ret = -EBUSY) := by
  refine ⟨by decide, by decide, ?_⟩
  intro s is_dying virq desc
  have h0 : (0 : Int) ≠ -EBUSY := by decide
  unfold gic_remove_irq_from_guest
  simp only []
  split
  · exact ⟨fun h => absurd h Bool.false_ne_true, fun h => absurd h h0⟩
  · split
    · exact ⟨fun _ => rfl, fun _ => rfl⟩
    · exact ⟨fun h => absurd h Bool.false_ne_true, fun h => absurd h h0⟩

/-! ## Raising an in-flight interrupt -/

/-- C28: the code at a failing input. In `inflight_no_slot_state` interrupt 7 is in flight
on the running vCPU, is not on `lr_pending` and is not `VISIBLE` (`lr` is
`GIC_INVALID_LR`): `gic_raise_inflight_irq` calls `gic_update_one_lr` with the slot 255,
whose read of the list register stops at the `BUG()` of `gicv3_ich_read_lr`. For every
state, a record that is not on `lr_pending` and has `lr` outside 0..15 makes the call on
the running vCPU abort, and the call leaves the state as it is when the record is on
`lr_pending` or the vCPU is not the running one. -/
theorem gic_raise_inflight_irq_invalid_lr_aborts :
    inflight_no_slot_state.inflight_irqs = [7] ∧
    inflight_no_slot_state.lr_pending = [] ∧
    (inflight_no_slot_state.pending_irqs 7).status.visible = false ∧
    (inflight_no_slot_state.pending_irqs 7).lr = GIC_INVALID_LR ∧
    gic_raise_inflight_irq inflight_no_slot_state true 7 = none ∧
    (∀ s virtual_irq, virtual_irq ∉ s.lr_pending → 15 < (s.pending_irqs virtual_irq).lr →
      gic_raise_inflight_irq s true virtual_irq = none) ∧
    (∀ s cur virtual_irq, (virtual_irq ∈ s.lr_pending ∨ cur = false) →
      gic_raise_inflight_irq s cur virtual_irq = some s) := by
  have hgen : ∀ (s : gic_state) (virtual_irq : Nat), virtual_irq ∉ s.lr_pending →
      15 < (s.pending_irqs virtual_irq).lr →
      gic_raise_inflight_irq s true virtual_irq = none := by
    intro s virtual_irq hq hlr
    unfold gic_raise_inflight_irq
    simp only []
    rw [if_pos hq]
    simp only [if_true]
    unfold gic_update_one_lr gicv3_read_lr gicv3_ich_read_lr
    rw [if_neg (by omega)]
  refine ⟨rfl, rfl, rfl, rfl, hgen _ 7 (by decide) (by decide), hgen, ?_⟩
  intro s cur virtual_irq h
  unfold gic_raise_inflight_irq
  simp only []
  rcases h with h | h
  · rw [if_neg (not_not.mpr h)]
  · subst h
    split <;> rfl

/-! ## Redistributor regions -/

/-- C29: the code at a failing input. `cmp_rdist` compares region `a` with itself, so it
returns 0 for every pair of regions; for `a` at base `0x1000` and `b` at base `0x2000` the
result is 0, not a negative value. -/
theorem cmp_rdist_compares_a_with_itself :
    cmp_rdist { base := 0x1000, size := 0x20000 } { base := 0x2000, size := 0x20000 } = 0 ∧
    (∀ a b, cmp_rdist a b = 0) := by
  refine ⟨by decide, ?_⟩
  intro a b
  unfold cmp_rdist
  simp

/-! ## Redistributor wake-up -/

theorem gicv3_enable_redist_loop_once (env : redist_env) (deadline rounds val : Nat) :
    gicv3_enable_redist_loop env deadline (rounds + 1) 0 false val =
      (decide (env.waker 1 &&& GICR_WAKER_ChildrenAsleep ≠ 0 ∧ env.now 1 > deadline), 1,
        env.waker 1) := by
  unfold gicv3_enable_redist_loop
  simp only []
  by_cases h1 : env.waker 1 &&& GICR_WAKER_ChildrenAsleep = 0
  · rw [if_pos h1]; simp [h1]
  · rw [if_neg h1]
    by_cases h2 : env.now 1 > deadline
    · rw [if_pos h2]; simp [h1, h2]
    · rw [if_neg h2]; simp [h1, h2]

/-- C30: the code at a failing input. With `asleep_env`, where every read of `GICR_WAKER`
has `ChildrenAsleep` set and the clock is far from the deadline, `gicv3_enable_redist`
returns 0 after a single read in the loop, and that read had `ChildrenAsleep` set. For
every machine the loop makes exactly one read: its condition `while ( timeout )` is
tested only when `timeout` is still 0; the function returns non-zero only if that one read
has `ChildrenAsleep` set and the clock has already passed the deadline. -/
theorem gicv3_enable_redist_returns_zero_while_asleep :
    gicv3_enable_redist asleep_env 2000000 =
      { ret := 0, written := GICR_WAKER_ChildrenAsleep, polls := 1,
        last_val := GICR_WAKER_ChildrenAsleep } ∧
    GICR_WAKER_ChildrenAsleep &&& GICR_WAKER_ChildrenAsleep ≠ 0 ∧
    (gicv3_enable_redist awake_env 2000000).ret = 0 ∧
    (∀ env rounds, (gicv3_enable_redist env (rounds + 1)).polls = 1 ∧
      (gicv3_enable_redist env (rounds + 1)).last_val = env.waker 1 ∧
      ((gicv3_enable_redist env (rounds + 1)).ret ≠ 0 ↔
        (env.waker 1 &&& GICR_WAKER_ChildrenAsleep ≠ 0 ∧
          env.now 1 > env.now 0 + MILLISECS 1000))) := by
  have hgen : ∀ (env : redist_env) (rounds : Nat),
      (gicv3_enable_redist env (rounds + 1)).polls = 1 ∧
      (gicv3_enable_redist env (rounds + 1)).last_val = env.waker 1 ∧
      ((gicv3_enable_redist env (rounds + 1)).ret ≠ 0 ↔
        (env.waker 1 &&& GICR_WAKER_ChildrenAsleep ≠ 0 ∧
          env.now 1 > env.now 0 + MILLISECS 1000)) := by
    intro env rounds
    unfold gicv3_enable_redist
    simp only []
    rw [gicv3_enable_redist_loop_once]
    refine ⟨rfl, rfl, ?_⟩
    by_cases h : env.waker 1 &&& GICR_WAKER_ChildrenAsleep ≠ 0 ∧
        env.now 1 > env.now 0 + MILLISECS 1000
    · rw [decide_eq_true h]
      exact ⟨fun _ => h, fun _ => (by decide : (1 : Int) ≠ 0)⟩
    · rw [decide_eq_false h]
      exact ⟨fun hne => absurd rfl hne, fun hf => absurd hf h⟩
  refine ⟨?_, by decide, ?_, hgen⟩
  · unfold gicv3_enable_redist
    simp only []
    rw [gicv3_enable_redist_loop_once]
    decide
  · unfold gicv3_enable_redist
    simp only []
    rw [gicv3_enable_redist_loop_once]
    decide

/-! ## The value written on injection -/

/-- C25: the list-register contents that `gicv3_update_lr` builds are bit-exact. For every
record `p`, state and slot `lr` below `nr_lrs` (and at most 15, the registers the backend
has), the call returns, the register holds the value built, and `gicv3_read_lr` decodes
it to `virq = p.irq mod 2^16`, `priority = p.priority mod 2^8`, `state = state mod 4`,
`grp = 1` exactly when the guest's controller version is V3, and `hw_status = 1` with
`pirq` the physical source's interrupt number `mod 2^10` exactly when `p` has a physical
source (`hw_status = 0` and `pirq = 0` otherwise); every bit of the register outside the
fields (bits 0-15, 32-41, 48-55, 60, 61, 62-63) is zero, and no other register changes. -/
theorem gicv3_update_lr_bit_exact (s : gic_state) (lr : Nat) (p : pending_irq) (state : Nat)
    (hlr : lr < s.nr_lrs) (h15 : lr ≤ 15) :
    ∃ s', gicv3_update_lr s (lr : Int) p state = some s' ∧
      s'.ich_lr lr = gicv3_lr_val s p state ∧
      (∀ j, j ≠ lr → s'.ich_lr j = s.ich_lr j) ∧
      gicv3_read_lr s' (lr : Int) =
        some { virq := p.irq % 2 ^ 16, priority := p.priority % 2 ^ 8, state := state % 4,
               grp := if s.vgic_version_v3 then 1 else 0,
               hw_status := if p.desc.isSome then 1 else 0,
               pirq := match p.desc with
                 | some d => (s.irq_descs d).irq % 2 ^ 10
                 | none => 0 } ∧
      (∀ j, (s'.ich_lr lr).testBit j = true →
        j < 16 ∨ (32 ≤ j ∧ j < 42) ∨ (48 ≤ j ∧ j < 56) ∨ (60 ≤ j ∧ j < 64)) := by
  refine ⟨_, update_lr_eq s lr p state hlr, ?_, ?_, ?_, ?_⟩
  · rw [ich_write_lr_eq s lr _ h15]
    simp
  · intro j hj
    rw [ich_write_lr_eq s lr _ h15]
    simp only []
    rw [Function.update_noteq hj]
  · rw [read_lr_eq _ lr h15, ich_write_lr_eq s lr _ h15]
    simp only [Function.update_same]
    rw [decode_lr_val]
    rfl
  · intro j hj
    rw [ich_write_lr_eq s lr _ h15] at hj
    simp only [Function.update_same] at hj
    rw [lr_val_eq, testBit_encode_lr] at hj
    simp only [Bool.or_eq_true, Bool.and_eq_true, decide_eq_true_eq] at hj
    omega

/-- Interrupt 1 of `slot0_retired_migrating_state` has the physical source 40: written to
slot 1 in state Pending, the register decodes to the record's fields with `hw_status = 1`
and `pirq = 40`. -/
theorem gicv3_update_lr_bit_exact_witness :
    ∃ s', gicv3_update_lr slot0_retired_migrating_state 1
        (slot0_retired_migrating_state.pending_irqs 1) GICH_LR_PENDING = some s' ∧
      gicv3_read_lr s' 1 =
        some { virq := 1, priority := 10, state := 1, grp := 1, hw_status := 1, pirq := 40 } :=
  (gicv3_update_lr_bit_exact slot0_retired_migrating_state 1
    (slot0_retired_migrating_state.pending_irqs 1) GICH_LR_PENDING (by decide)
    (by decide)).elim fun s' h => ⟨s', h.1, h.2.2.2.1⟩

/-! ## Priority bits -/

/-- C26: `gicv3_hyp_init` stops bring-up exactly when the priority-bit count
`((vtr >> 29) & 7) + 1` is not 5, 6 or 7. When it returns, the count `c` it reports makes
`save_aprn_regs` and `restore_aprn_regs` return: the save copies the active-priority
registers `j` with `j + 5 <= c` (that is 0..c-5) of both groups into the save area and
leaves everything else as it is, the restore writes the same entries back to those
registers, and a restore after the save leaves the whole context, the active-priority
registers among it, as the save left it. -/
theorem gicv3_hyp_init_priority_bits (vtr : Nat) :
    (gicv3_hyp_init vtr = none ↔
      ¬ (((vtr >>> 29) &&& 7) + 1 = 5 ∨ ((vtr >>> 29) &&& 7) + 1 = 6 ∨
        ((vtr >>> 29) &&& 7) + 1 = 7)) ∧
    (∀ info, gicv3_hyp_init vtr = some info →
      info.nr_priorities = ((vtr >>> 29) &&& 7) + 1 ∧
      ∀ c : vcpu_context, c.nr_priorities = info.nr_priorities →
        save_aprn_regs c = some
          { c with
            apr0 := fun j => if j + 5 ≤ c.nr_priorities then c.ich_ap0r j else c.apr0 j
            apr1 := fun j => if j + 5 ≤ c.nr_priorities then c.ich_ap1r j else c.apr1 j } ∧
        restore_aprn_regs c = some
          { c with
            ich_ap0r := fun j => if j + 5 ≤ c.nr_priorities then c.apr0 j else c.ich_ap0r j
            ich_ap1r := fun j => if j + 5 ≤ c.nr_priorities then c.apr1 j else c.ich_ap1r j } ∧
        ∃ c1, save_aprn_regs c = some c1 ∧ restore_aprn_regs c1 = some c1 ∧
          c1.ich_ap0r = c.ich_ap0r ∧ c1.ich_ap1r = c.ich_ap1r) := by
  have hinit : gicv3_hyp_init vtr =
      if ¬ (((vtr >>> 29) &&& 7) + 1 > 4 ∧ ((vtr >>> 29) &&& 7) + 1 < 8) then none
      else some { nr_lrs := (vtr &&& 0x3f) + 1, nr_priorities := ((vtr >>> 29) &&& 7) + 1,
                  ich_vmcr := GICH_VMCR_EOI ||| GICH_VMCR_VENG1, ich_hcr := GICH_HCR_EN } := rfl
  refine ⟨?_, ?_⟩
  · rw [hinit]
    constructor
    · intro h
      split at h
      · omega
      · cases h
    · intro h
      rw [if_pos (by omega)]
  · intro info h
    rw [hinit] at h
    split at h
    · cases h
    · rename_i hr
      cases h
      refine ⟨rfl, ?_⟩
      intro c hc
      have hP : 5 ≤ c.nr_priorities ∧ c.nr_priorities ≤ 7 := by
        rw [hc]
        show 5 ≤ ((vtr >>> 29) &&& 7) + 1 ∧ ((vtr >>> 29) &&& 7) + 1 ≤ 7
        omega
      have hs := save_aprn_regs_eq c
      rw [if_pos hP] at hs
      have hr2 := restore_aprn_regs_eq c
      rw [if_pos hP] at hr2
      refine ⟨hs, hr2, _, hs, ?_, rfl, rfl⟩
      rw [restore_aprn_regs_eq]
      simp only []
      rw [if_pos hP]
      have e0 : (fun j => if j + 5 ≤ c.nr_priorities then
            (if j + 5 ≤ c.nr_priorities then c.ich_ap0r j else c.apr0 j)
          else c.ich_ap0r j) = c.ich_ap0r := by
        funext j
        by_cases hj : j + 5 ≤ c.nr_priorities
        · simp only [if_pos hj]
        · simp only [if_neg hj]
      have e1 : (fun j => if j + 5 ≤ c.nr_priorities then
            (if j + 5 ≤ c.nr_priorities then c.ich_ap1r j else c.apr1 j)
          else c.ich_ap1r j) = c.ich_ap1r := by
        funext j
        by_cases hj : j + 5 ≤ c.nr_priorities
        · simp only [if_pos hj]
        · simp only [if_neg hj]
      rw [e0, e1]

/-- The register value `0x80000003` (priority-bits field 4, four list registers) is
accepted with 5 priority bits, `0x60000003` (field 3) is refused, and with the count 5 the
save of `mk_context idle_state` returns. -/
theorem gicv3_hyp_init_priority_bits_witness :
    (gicv3_hyp_init 0x80000003).map (fun info => info.nr_priorities) = some 5 ∧
    gicv3_hyp_init 0x60000003 = none ∧
    ∃ c1, save_aprn_regs (mk_context idle_state) = some c1 ∧
      restore_aprn_regs c1 = some c1 :=
  ⟨by decide,
    (gicv3_hyp_init_priority_bits 0x60000003).1.mpr (by decide),
    (((gicv3_hyp_init_priority_bits 0x80000003).2 _ rfl).2 (mk_context idle_state)
      rfl).2.2.elim fun c1 h => ⟨c1, h.1, h.2.1⟩⟩

/-! ## The unrolled save and restore of the list registers -/

theorem spec_save_lrs_loop_eq (count : Nat) :
    ∀ (i : Nat) (c : vcpu_context), i + count ≤ 16 →
      spec_save_lrs_loop count i c =
        some { c with
          lr := fun j => if i ≤ j ∧ j < i + count then c.gic.ich_lr j else c.lr j } := by
  induction count with
  | zero =>
    intro i c _
    unfold spec_save_lrs_loop
    have hf : (fun j => if i ≤ j ∧ j < i + 0 then c.gic.ich_lr j else c.lr j) = c.lr := by
      funext j
      rw [if_neg (by omega)]
    rw [hf]
  | succ n ih =>
    intro i c h
    unfold spec_save_lrs_loop
    rw [ich_read_lr_eq c.gic i (by omega)]
    simp only []
    rw [ih (i + 1) _ (by omega)]
    simp only []
    have hf : (fun j => if i + 1 ≤ j ∧ j < i + 1 + n then c.gic.ich_lr j
          else Function.update c.lr i (c.gic.ich_lr i) j) =
        (fun j => if i ≤ j ∧ j < i + (n + 1) then c.gic.ich_lr j else c.lr j) := by
      funext j
      by_cases h1 : i + 1 ≤ j ∧ j < i + 1 + n
      · rw [if_pos h1, if_pos (by omega)]
      · rw [if_neg h1]
        by_cases h2 : j = i
        · subst h2; rw [Function.update_same, if_pos (by omega)]
        · rw [Function.update_noteq h2, if_neg (by omega)]
    rw [hf]

theorem spec_restore_lrs_loop_eq (count : Nat) :
    ∀ (i : Nat) (c : vcpu_context), i + count ≤ 16 →
      spec_restore_lrs_loop count i c =
        { c with
          gic := { c.gic with
            ich_lr := fun j => if i ≤ j ∧ j < i + count then c.lr j else c.gic.ich_lr j } } := by
  induction count with
  | zero =>
    intro i c _
    unfold spec_restore_lrs_loop
    have hf : (fun j => if i ≤ j ∧ j < i + 0 then c.lr j else c.gic.ich_lr j) =
        c.gic.ich_lr := by
      funext j
      rw [if_neg (by omega)]
    rw [hf]
  | succ n ih =>
    intro i c h
    unfold spec_restore_lrs_loop
    rw [ih (i + 1) _ (by omega), ich_write_lr_eq c.gic i _ (by omega)]
    simp only []
    have hf : (fun j => if i + 1 ≤ j ∧ j < i + 1 + n then c.lr j
          else Function.update c.gic.ich_lr i (c.lr i) j) =
        (fun j => if i ≤ j ∧ j < i + (n + 1) then c.lr j else c.gic.ich_lr j) := by
      funext j
      by_cases h1 : i + 1 ≤ j ∧ j < i + 1 + n
      · rw [if_pos h1, if_pos (by omega)]
      · rw [if_neg h1]
        by_cases h2 : j = i
        · subst h2; rw [Function.update_same, if_pos (by omega)]
        · rw [Function.update_noteq h2, if_neg (by omega)]
    rw [hf]

/-- C24: the unrolled save and restore equal the bounded loop. For `nr_lrs` in 1..16,
`gicv3_save_lrs` copies exactly the list registers below `nr_lrs` into the save area and
leaves the entries from `nr_lrs` on (and everything else) untouched, `gicv3_restore_lrs`
writes exactly the saved entries below `nr_lrs` to the registers of the same index, each
equals the loop over the indices `0..nr_lrs-1` that calls the single-slot read or write,
and a restore after the save leaves every list register unchanged. For `nr_lrs` outside
1..16 both abort. -/
theorem gicv3_lrs_unrolled_eq_loop (c : vcpu_context) :
    ((1 ≤ c.gic.nr_lrs ∧ c.gic.nr_lrs ≤ 16) →
      gicv3_save_lrs c = some
        { c with lr := fun j => if j < c.gic.nr_lrs then c.gic.ich_lr j else c.lr j } ∧
      gicv3_save_lrs c = spec_save_lrs c ∧
      gicv3_restore_lrs c = some
        { c with
          gic := { c.gic with
            ich_lr := fun j => if j < c.gic.nr_lrs then c.lr j else c.gic.ich_lr j } } ∧
      gicv3_restore_lrs c = some (spec_restore_lrs c) ∧
      ∃ c1, gicv3_save_lrs c = some c1 ∧
        (∀ j, j < c.gic.nr_lrs → c1.lr j = c.gic.ich_lr j) ∧
        (∀ j, c.gic.nr_lrs ≤ j → c1.lr j = c.lr j) ∧
        gicv3_restore_lrs c1 = some c1 ∧ c1.gic = c.gic) ∧
    (¬ (1 ≤ c.gic.nr_lrs ∧ c.gic.nr_lrs ≤ 16) →
      gicv3_save_lrs c = none ∧ gicv3_restore_lrs c = none) := by
  refine ⟨?_, ?_⟩
  · intro hN
    have hs := gicv3_save_lrs_eq c
    rw [if_pos hN] at hs
    have hr := gicv3_restore_lrs_eq c
    rw [if_pos hN] at hr
    have hfs : (fun j => if 0 ≤ j ∧ j < 0 + c.gic.nr_lrs then c.gic.ich_lr j else c.lr j) =
        (fun j => if j < c.gic.nr_lrs then c.gic.ich_lr j else c.lr j) := by
      funext j
      by_cases h : j < c.gic.nr_lrs
      · rw [if_pos h, if_pos (by omega)]
      · rw [if_neg h, if_neg (by omega)]
    have hfr : (fun j => if 0 ≤ j ∧ j < 0 + c.gic.nr_lrs then c.lr j else c.gic.ich_lr j) =
        (fun j => if j < c.gic.nr_lrs then c.lr j else c.gic.ich_lr j) := by
      funext j
      by_cases h : j < c.gic.nr_lrs
      · rw [if_pos h, if_pos (by omega)]
      · rw [if_neg h, if_neg (by omega)]
    refine ⟨hs, ?_, hr, ?_, _, hs, ?_, ?_, ?_, rfl⟩
    · rw [hs]
      unfold spec_save_lrs
      rw [spec_save_lrs_loop_eq _ 0 c (by omega), hfs]
    · rw [hr]
      unfold spec_restore_lrs
      rw [spec_restore_lrs_loop_eq _ 0 c (by omega), hfr]
    · intro j hj
      simp only [if_pos hj]
    · intro j hj
      simp only [if_neg (Nat.not_lt.mpr hj)]
    · rw [gicv3_restore_lrs_eq]
      simp only []
      rw [if_pos hN]
      have hf : (fun j => if j < c.gic.nr_lrs then
            (if j < c.gic.nr_lrs then c.gic.ich_lr j else c.lr j)
          else c.gic.ich_lr j) = c.gic.ich_lr := by
        funext j
        by_cases hj : j < c.gic.nr_lrs
        · simp only [if_pos hj]
        · simp only [if_neg hj]
      rw [hf]
  · intro hN
    refine ⟨?_, ?_⟩
    · unfold gicv3_save_lrs
      rw [if_neg hN]
    · unfold gicv3_restore_lrs
      rw [if_neg hN]

/-- The save and the restore of `two_slot_context` (two list registers): the save fills
entries 0 and 1 with the registers and leaves entry 2 at 99; the restore writes 99 into
registers 0 and 1 and leaves register 2. -/
theorem gicv3_lrs_unrolled_eq_loop_witness :
    gicv3_save_lrs two_slot_context = spec_save_lrs two_slot_context ∧
    gicv3_restore_lrs two_slot_context = some (spec_restore_lrs two_slot_context) ∧
    (gicv3_save_lrs two_slot_context).map (fun c => [c.lr 0, c.lr 1, c.lr 2]) =
      some [two_slot_state.ich_lr 0, two_slot_state.ich_lr 1, 99] ∧
    (gicv3_restore_lrs two_slot_context).map
      (fun c => [c.gic.ich_lr 0, c.gic.ich_lr 1, c.gic.ich_lr 2]) = some [99, 99, 0] :=
  have h := (gicv3_lrs_unrolled_eq_loop two_slot_context).1 (by decide)
  ⟨h.2.1, h.2.2.2.1, by decide, by decide⟩

/-! ## Admission is work-conserving -/

theorem gic_restore_round_next_cases {s s1 : gic_state} {p lr lr1 : Nat}
    {ir ir1 : Option Nat} {log : List eviction}
    (hround : gic_restore_round s p lr ir = restore_round.next log s1 lr1 ir1) :
    s1.nr_lrs = s.nr_lrs ∧ lr1 < s.nr_lrs ∧ s1.lr_mask = set_bit lr1 s.lr_mask ∧
    ((find_next_zero_bit s.lr_mask s.nr_lrs lr < s.nr_lrs ∧
        lr1 = find_next_zero_bit s.lr_mask s.nr_lrs lr ∧
        s1.lr_pending = s.lr_pending.filter (fun k => k != p)) ∨
      s.nr_lrs ≤ find_next_zero_bit s.lr_mask s.nr_lrs lr) := by
  obtain ⟨_, hmask⟩ := gic_restore_round_mask_inflight hround
  unfold gic_restore_round at hround
  simp only [] at hround
  split at hround
  · rename_i hge
    split at hround
    · cases hround
    · split at hround <;> cases hround
    · rename_i p_r hscan
      split at hround
      · cases hround
      · rename_i s3 hset
        cases hround
        obtain ⟨_, _, _, _, _, g6, _⟩ := add_to_lr_pending_frame
          (set_pending s p_r
            { s.pending_irqs p_r with
              lr := GIC_INVALID_LR
              status := { (s.pending_irqs p_r).status with queued := true, visible := false } }) p_r
        obtain ⟨hj, f2, _, _, _⟩ := gic_set_lr_some hset
        exact ⟨f2.trans g6, lt_of_lt_of_eq hj g6, hmask, Or.inr hge⟩
  · rename_i hlt
    have hlt' := Nat.lt_of_not_le hlt
    split at hround
    · cases hround
    · rename_i s3 hset
      cases hround
      obtain ⟨hj, f2, _, f4, _⟩ := gic_set_lr_some hset
      refine ⟨f2, hj, hmask, Or.inl ⟨hlt', rfl, ?_⟩⟩
      show s3.lr_pending.filter (fun k => k != p) = _
      rw [f4]

theorem gic_restore_round_stop_full {s s' : gic_state} {p lr : Nat} {ir : Option Nat}
    {log : List eviction}
    (h : gic_restore_round s p lr ir = restore_round.stop log (some s')) :
    s.nr_lrs ≤ find_next_zero_bit s.lr_mask s.nr_lrs lr := by
  unfold gic_restore_round at h
  simp only [] at h
  split at h
  · rename_i hge; exact hge
  · split at h
    · cases h
    · cases h

theorem all_slots_occupied_of_search {s : gic_state} {lr m : Nat}
    (hm : ∀ j, j < m → s.lr_mask.testBit j = true) (hlr : lr ≤ m)
    (hge : s.nr_lrs ≤ find_next_zero_bit s.lr_mask s.nr_lrs lr) : all_slots_occupied s := by
  intro j hj
  by_cases h : j < m
  · exact hm j h
  · exact find_next_zero_bit_ge hge j (by omega) hj

theorem gic_restore_loop_work_conserving (lrs : Nat) :
    ∀ (s : gic_state) (p lr : Nat) (ir : Option Nat) (m : Nat),
      (∀ j, j < m → s.lr_mask.testBit j = true) → lr ≤ m → s.nr_lrs ≤ m + lrs →
      (all_slots_occupied s ∨ (s.lr_pending.Nodup ∧ ∃ rest, s.lr_pending = p :: rest)) →
      ∀ s', (gic_restore_loop lrs s p lr ir).2 = some s' →
        (s'.lr_pending = [] ∨ all_slots_occupied s') ∧ s'.nr_lrs = s.nr_lrs ∧
        ((∀ i, s.nr_lrs ≤ i → s.lr_mask.testBit i = false) →
          ∀ i, s'.nr_lrs ≤ i → s'.lr_mask.testBit i = false) := by
  induction lrs with
  | zero =>
    intro s p lr ir m hm hlr hL _ s' hs'
    unfold gic_restore_loop at hs'
    cases hround : gic_restore_round s p lr ir with
    | stop log r =>
      rw [hround] at hs'
      have hs : s' = s := gic_restore_round_stop hround s' hs'
      subst hs
      exact ⟨Or.inr (fun j hj => hm j (by omega)), rfl, fun h => h⟩
    | next log s1 lr1 ir1 =>
      rw [hround] at hs'
      cases hs'
  | succ n ih =>
    intro s p lr ir m hm hlr hL hB s' hs'
    unfold gic_restore_loop at hs'
    cases hround : gic_restore_round s p lr ir with
    | stop log r =>
      rw [hround] at hs'
      have hs : s' = s := gic_restore_round_stop hround s' hs'
      subst hs
      simp only [] at hs'
      subst hs'
      exact ⟨Or.inr (all_slots_occupied_of_search hm hlr (gic_restore_round_stop_full hround)),
        rfl, fun h => h⟩
    | next log s1 lr1 ir1 =>
      rw [hround] at hs'
      obtain ⟨r1, r2, r3, r4⟩ := gic_restore_round_next_cases hround
      have hbit : ∀ j, s1.lr_mask.testBit j = (s.lr_mask.testBit j || decide (lr1 = j)) := by
        intro j; rw [r3, testBit_set_bit]
      have hhi : (∀ i, s.nr_lrs ≤ i → s.lr_mask.testBit i = false) →
          ∀ i, s1.nr_lrs ≤ i → s1.lr_mask.testBit i = false := by
        intro h i hi
        rw [r1] at hi
        rw [hbit, h i hi]
        simp only [Bool.false_or, decide_eq_false_iff_not]
        omega
      have hfull : all_slots_occupied s → all_slots_occupied s1 := by
        intro h j hj
        rw [r1] at hj
        rw [hbit, h j hj]; rfl
      -- the state after the round: full, or the head was admitted into the lowest free slot
      have hpost : all_slots_occupied s1 ∨
          (find_next_zero_bit s.lr_mask s.nr_lrs lr < s.nr_lrs ∧
            lr1 = find_next_zero_bit s.lr_mask s.nr_lrs lr ∧
            s1.lr_pending = s.lr_pending.filter (fun k => k != p) ∧
            s.lr_pending.Nodup ∧ ∃ rest, s.lr_pending = p :: rest) := by
        rcases r4 with ⟨q1, q2, q3⟩ | q
        · rcases hB with hf | ⟨hnd, hrest⟩
          · exact absurd (find_next_zero_bit_full lr hf) (by omega)
          · exact Or.inr ⟨q1, q2, q3, hnd, hrest⟩
        · exact Or.inl (hfull (all_slots_occupied_of_search hm hlr q))
      have hm1 : ∀ j, j < lr1 + 1 → s1.lr_mask.testBit j = true := by
        intro j hj
        rw [hbit]
        by_cases hje : lr1 = j
        · simp [hje]
        · rcases hpost with hf | ⟨q1, q2, _, _, _⟩
          · have := hf j (by rw [r1]; omega)
            rw [hbit] at this
            exact this
          · have hlo : s.lr_mask.testBit j = true := by
              by_cases hjm : j < m
              · exact hm j hjm
              · exact (find_next_zero_bit_lt q1).2.2 j (by omega) (by omega)
            rw [hlo]; rfl
      have hm_le : m ≤ lr1 ∨ all_slots_occupied s1 := by
        rcases hpost with hf | ⟨q1, q2, _, _, _⟩
        · exact Or.inr hf
        · left
          by_contra hcon
          have hlt : find_next_zero_bit s.lr_mask s.nr_lrs lr < m := by omega
          have := (find_next_zero_bit_lt q1).2.1
          rw [hm _ hlt] at this
          cases this
      have hend : all_slots_occupied s1 ∨ (n = 0 → all_slots_occupied s1) := by
        rcases hm_le with h | h
        · right
          intro hn j hj
          rw [r1] at hj
          exact hm1 j (by omega)
        · exact Or.inl h
      simp only [] at hs'
      split at hs'
      · rename_i hn
        cases hs'
        refine ⟨Or.inr ?_, r1, hhi⟩
        rcases hend with h | h
        · exact h
        · exact h hn
      · split at hs'
        · rename_i ht
          cases hs'
          refine ⟨?_, r1, hhi⟩
          rcases hpost with hf | ⟨_, _, q3, hnd, rest, hrest⟩
          · exact Or.inr hf
          · left
            rw [hrest] at ht
            simp only [list_next, if_true] at ht
            have hre : rest = [] := by
              cases rest with
              | nil => rfl
              | cons a l => simp at ht
            rw [q3, hrest, hre]
            simp
        · rename_i t1 ht
          have hB1 : all_slots_occupied s1 ∨
              (s1.lr_pending.Nodup ∧ ∃ rest, s1.lr_pending = t1 :: rest) := by
            rcases hpost with hf | ⟨_, _, q3, hnd, rest, hrest⟩
            · exact Or.inl hf
            · right
              rw [hrest] at ht hnd
              simp only [list_next, if_true] at ht
              cases rest with
              | nil => simp at ht
              | cons a l =>
                simp only [List.head?_cons, Option.some.injEq] at ht
                subst ht
                have hp : p ∉ a :: l := (List.nodup_cons.mp hnd).1
                have hfil : s1.lr_pending = a :: l := by
                  rw [q3, hrest]
                  rw [List.filter_cons_of_neg (by simp)]
                  exact List.filter_eq_self.mpr (fun x hx => by
                    simp only [bne_iff_ne, ne_eq]
                    intro hxp; exact hp (hxp ▸ hx))
                rw [hfil]
                exact ⟨(List.nodup_cons.mp hnd).2, l, rfl⟩
          rcases hm_le with hle | hf
          · obtain ⟨a1, a2, a3⟩ := ih s1 t1 lr1 ir1 (lr1 + 1) hm1 (by omega)
              (by rw [r1]; omega) hB1 s' hs'
            exact ⟨a1, a2.trans r1, fun h => a3 (hhi h)⟩
          · obtain ⟨a1, a2, a3⟩ := ih s1 t1 lr1 ir1 s1.nr_lrs (fun j hj => hf j hj)
              (by rw [r1]; omega) (by omega) hB1 s' hs'
            exact ⟨a1, a2.trans r1, fun h => a3 (hhi h)⟩

theorem lr_all_full_iff (s : gic_state)
    (hhi : ∀ i, s.nr_lrs ≤ i → s.lr_mask.testBit i = false) :
    lr_all_full s = true ↔ all_slots_occupied s := by
  unfold lr_all_full all_slots_occupied
  rw [beq_iff_eq, Nat.one_shiftLeft]
  constructor
  · intro h j hj
    rw [h, Nat.testBit_two_pow_sub_one]
    exact decide_eq_true hj
  · intro h
    apply Nat.eq_of_testBit_eq
    intro j
    rw [Nat.testBit_two_pow_sub_one]
    by_cases hj : j < s.nr_lrs
    · rw [h j hj, decide_eq_true hj]
    · rw [hhi j (by omega), decide_eq_false hj]

theorem find_next_bit_ge {a size off : Nat} (h : size ≤ find_next_bit a size off) :
    ∀ j, off ≤ j → j < size → a.testBit j = false := by
  unfold find_next_bit at h
  intro j hj1 hj2
  rcases find_bit_from_spec true a size (size - off) off with ⟨_, h2⟩ | ⟨_, h2, _, _⟩
  · simpa using h2 j hj1 (by omega)
  · omega

/-- What `cpumask_next` returns: no CPU of the set lies strictly between `n` and the
result, and a result below `nr_cpu_ids` is a CPU of the set. -/
theorem cpumask_next_spec (env : sgi_env) (n mask : Nat) :
    n < cpumask_next env n mask ∧ cpumask_next env n mask ≤ env.nr_cpu_ids ∨
      (env.nr_cpu_ids ≤ n ∧ cpumask_next env n mask = env.nr_cpu_ids) := by
  unfold cpumask_next
  have hle := find_next_bit_le mask env.nr_cpu_ids (n + 1)
  by_cases h : find_next_bit mask env.nr_cpu_ids (n + 1) < env.nr_cpu_ids
  · left
    exact ⟨by have := (find_next_bit_lt h).1; omega, hle⟩
  · by_cases hn : n < env.nr_cpu_ids
    · left; omega
    · right; omega

theorem cpumask_next_gap (env : sgi_env) (n mask : Nat) :
    (∀ c, n < c → c < cpumask_next env n mask → c < env.nr_cpu_ids →
      mask.testBit c = false) ∧
    (cpumask_next env n mask < env.nr_cpu_ids →
      mask.testBit (cpumask_next env n mask) = true) := by
  unfold cpumask_next
  by_cases h : find_next_bit mask env.nr_cpu_ids (n + 1) < env.nr_cpu_ids
  · obtain ⟨_, h2, h3⟩ := find_next_bit_lt h
    exact ⟨fun c h1 hc _ => h3 c (by omega) hc, fun _ => h2⟩
  · exact ⟨fun c h1 _ hc => find_next_bit_ge (Nat.le_of_not_lt h) c (by omega) hc,
      fun hlt => absurd hlt h⟩

theorem tlist_or_bit (tlist k : Nat) (ht : tlist < 2 ^ 16) (hk : k < 16) :
    (tlist ||| (1 <<< k)) % 2 ^ 16 < 2 ^ 16 ∧
    ∀ b, ((tlist ||| (1 <<< k)) % 2 ^ 16).testBit b = (tlist.testBit b || decide (k = b)) := by
  have hlt : tlist ||| (1 <<< k) < 2 ^ 16 := by
    apply Nat.or_lt_two_pow ht
    rw [Nat.one_shiftLeft]
    exact Nat.pow_lt_pow_right (by decide) hk
  rw [Nat.mod_eq_of_lt hlt]
  exact ⟨hlt, fun b => testBit_set_bit k tlist b⟩

theorem and_0xf_lt (m : Nat) : m &&& 0xf < 16 := Nat.and_lt_two_pow m (by decide : 0xf < 2 ^ 4)

theorem compute_target_list_loop_spec (env : sgi_env) (mask cl : Nat) (rounds : Nat) :
    ∀ (cpu tlist : Nat), cpu < env.nr_cpu_ids → mask.testBit cpu = true →
      env.nr_cpu_ids - cpu ≤ rounds → env.cluster_id_of (env.cpu_logical_map cpu) = cl →
      tlist < 2 ^ 16 →
      cpu ≤ (gicv3_compute_target_list_loop env mask cl rounds cpu
        (env.cpu_logical_map cpu) tlist).1 ∧
      (gicv3_compute_target_list_loop env mask cl rounds cpu
        (env.cpu_logical_map cpu) tlist).1 < env.nr_cpu_ids ∧
      (gicv3_compute_target_list_loop env mask cl rounds cpu
        (env.cpu_logical_map cpu) tlist).2 < 2 ^ 16 ∧
      (∀ b, (gicv3_compute_target_list_loop env mask cl rounds cpu
          (env.cpu_logical_map cpu) tlist).2.testBit b = true ↔
        (tlist.testBit b = true ∨ ∃ c, cpu ≤ c ∧
          c ≤ (gicv3_compute_target_list_loop env mask cl rounds cpu
            (env.cpu_logical_map cpu) tlist).1 ∧
          mask.testBit c = true ∧ env.cpu_logical_map c &&& 0xf = b)) ∧
      (∀ c, cpu ≤ c →
        c ≤ (gicv3_compute_target_list_loop env mask cl rounds cpu
          (env.cpu_logical_map cpu) tlist).1 →
        mask.testBit c = true → env.cluster_id_of (env.cpu_logical_map c) = cl) ∧
      (∀ c, (gicv3_compute_target_list_loop env mask cl rounds cpu
          (env.cpu_logical_map cpu) tlist).1 < c →
        c < cpumask_next env (gicv3_compute_target_list_loop env mask cl rounds cpu
          (env.cpu_logical_map cpu) tlist).1 mask →
        c < env.nr_cpu_ids → mask.testBit c = false) := by
  induction rounds with
  | zero => intro cpu tlist h1 _ h3; omega
  | succ n ih =>
    intro cpu tlist hcpu hbit hfuel hcl ht
    obtain ⟨t1, t2⟩ := tlist_or_bit tlist (env.cpu_logical_map cpu &&& 0xf) ht (and_0xf_lt _)
    obtain ⟨g1, g2⟩ := cpumask_next_gap env cpu mask
    have hnext := cpumask_next_spec env cpu mask
    have hgt : cpu < cpumask_next env cpu mask ∧ cpumask_next env cpu mask ≤ env.nr_cpu_ids := by
      rcases hnext with h | h
      · exact h
      · omega
    -- the set `cpu .. cpumask_next - 1` holds the CPU `cpu` only
    have honly : ∀ c, cpu ≤ c → c ≤ cpumask_next env cpu mask - 1 → mask.testBit c = true →
        c = cpu := by
      intro c hc1 hc2 hcb
      by_contra hne
      have := g1 c (by omega) (by omega) (by omega)
      rw [hcb] at this; cases this
    have hbits : ∀ b, ((tlist ||| (1 <<< (env.cpu_logical_map cpu &&& 0xf))) % 2 ^ 16).testBit b =
        true ↔ (tlist.testBit b = true ∨ env.cpu_logical_map cpu &&& 0xf = b) := by
      intro b
      rw [t2 b]
      simp only [Bool.or_eq_true, decide_eq_true_eq]
    have hstop : ∀ r : Nat × Nat,
        r = (cpumask_next env cpu mask - 1,
          (tlist ||| (1 <<< (env.cpu_logical_map cpu &&& 0xf))) % 2 ^ 16) →
        cpu ≤ r.1 ∧ r.1 < env.nr_cpu_ids ∧ r.2 < 2 ^ 16 ∧
        (∀ b, r.2.testBit b = true ↔
          (tlist.testBit b = true ∨ ∃ c, cpu ≤ c ∧ c ≤ r.1 ∧
            mask.testBit c = true ∧ env.cpu_logical_map c &&& 0xf = b)) ∧
        (∀ c, cpu ≤ c → c ≤ r.1 → mask.testBit c = true →
          env.cluster_id_of (env.cpu_logical_map c) = cl) ∧
        (∀ c, r.1 < c → c < cpumask_next env r.1 mask → c < env.nr_cpu_ids →
          mask.testBit c = false) := by
      intro r hr
      subst hr
      refine ⟨by simp only []; omega, by simp only []; omega, t1, ?_, ?_, ?_⟩
      · intro b
        simp only []
        rw [hbits b]
        constructor
        · rintro (h | h)
          · exact Or.inl h
          · exact Or.inr ⟨cpu, Nat.le_refl _, by omega, hbit, h⟩
        · rintro (h | ⟨c, hc1, hc2, hc3, hc4⟩)
          · exact Or.inl h
          · rw [honly c hc1 hc2 hc3] at hc4
            exact Or.inr hc4
      · intro c hc1 hc2 hc3
        rw [honly c hc1 hc2 hc3]
        exact hcl
      · intro c hc1 hc2 hc3
        exact (cpumask_next_gap env _ mask).1 c hc1 hc2 hc3
    unfold gicv3_compute_target_list_loop
    simp only []
    rw [if_pos hcpu]
    by_cases hend : cpumask_next env cpu mask = env.nr_cpu_ids
    · rw [if_pos hend]
      exact hstop _ rfl
    · rw [if_neg hend]
      by_cases hcl1 : cl ≠ env.cluster_id_of (env.cpu_logical_map (cpumask_next env cpu mask))
      · rw [if_pos hcl1]
        exact hstop _ rfl
      · rw [if_neg hcl1]
        have hlt1 : cpumask_next env cpu mask < env.nr_cpu_ids := by omega
        obtain ⟨a1, a2, a3, a4, a5, a6⟩ := ih (cpumask_next env cpu mask)
          ((tlist ||| (1 <<< (env.cpu_logical_map cpu &&& 0xf))) % 2 ^ 16) hlt1 (g2 hlt1)
          (by omega) (not_not.mp hcl1).symm t1
        refine ⟨by omega, a2, a3, ?_, ?_, a6⟩
        · intro b
          rw [a4 b, hbits b]
          constructor
          · rintro ((h | h) | ⟨c, hc1, hc2, hc3, hc4⟩)
            · exact Or.inl h
            · exact Or.inr ⟨cpu, Nat.le_refl _, by omega, hbit, h⟩
            · exact Or.inr ⟨c, by omega, hc2, hc3, hc4⟩
          · rintro (h | ⟨c, hc1, hc2, hc3, hc4⟩)
            · exact Or.inl (Or.inl h)
            · by_cases hc : c < cpumask_next env cpu mask
              · rw [honly c hc1 (by omega) hc3] at hc4
                exact Or.inl (Or.inr hc4)
              · exact Or.inr ⟨c, by omega, hc2, hc3, hc4⟩
        · intro c hc1 hc2 hc3
          by_cases hc : c < cpumask_next env cpu mask
          · rw [honly c hc1 (by omega) hc3]; exact hcl
          · exact a5 c (by omega) hc2 hc3

theorem compute_target_list_spec (env : sgi_env) (mask cpu : Nat)
    (hcpu : cpu < env.nr_cpu_ids) (hbit : mask.testBit cpu = true) :
    cpu ≤ (gicv3_compute_target_list env cpu mask
      (env.cluster_id_of (env.cpu_logical_map cpu))).1 ∧
    (gicv3_compute_target_list env cpu mask
      (env.cluster_id_of (env.cpu_logical_map cpu))).1 < env.nr_cpu_ids ∧
    (gicv3_compute_target_list env cpu mask
      (env.cluster_id_of (env.cpu_logical_map cpu))).2 < 2 ^ 16 ∧
    (∀ b, (gicv3_compute_target_list env cpu mask
        (env.cluster_id_of (env.cpu_logical_map cpu))).2.testBit b = true ↔
      ∃ c, cpu ≤ c ∧
        c ≤ (gicv3_compute_target_list env cpu mask
          (env.cluster_id_of (env.cpu_logical_map cpu))).1 ∧
        mask.testBit c = true ∧ env.cpu_logical_map c &&& 0xf = b) ∧
    (∀ c, cpu ≤ c →
      c ≤ (gicv3_compute_target_list env cpu mask
        (env.cluster_id_of (env.cpu_logical_map cpu))).1 →
      mask.testBit c = true →
      env.cluster_id_of (env.cpu_logical_map c) =
        env.cluster_id_of (env.cpu_logical_map cpu)) ∧
    (∀ c, (gicv3_compute_target_list env cpu mask
        (env.cluster_id_of (env.cpu_logical_map cpu))).1 < c →
      c < cpumask_next env (gicv3_compute_target_list env cpu mask
        (env.cluster_id_of (env.cpu_logical_map cpu))).1 mask →
      c < env.nr_cpu_ids → mask.testBit c = false) := by
  obtain ⟨a1, a2, a3, a4, a5, a6⟩ := compute_target_list_loop_spec env mask
    (env.cluster_id_of (env.cpu_logical_map cpu)) env.nr_cpu_ids cpu 0 hcpu hbit
    (by omega) rfl (by decide)
  refine ⟨a1, a2, a3, ?_, a5, a6⟩
  intro b
  have h := a4 b
  rw [Nat.zero_testBit] at h
  simpa using h

theorem send_sgi_list_loop_spec (env : sgi_env) (sgi mask : Nat) (rounds : Nat) :
    ∀ cpu, (env.nr_cpu_ids ≤ cpu ∨ mask.testBit cpu = true) →
      env.nr_cpu_ids - cpu ≤ rounds →
      (∀ w ∈ gicv3_send_sgi_list_loop env sgi mask rounds cpu,
        w.tlist < 2 ^ 16 ∧ w.val = gicv3_sgi_val env sgi w.cluster_id w.tlist ∧
        ∃ c, cpu ≤ c ∧ c < env.nr_cpu_ids ∧ mask.testBit c = true ∧
          w.cluster_id = env.cluster_id_of (env.cpu_logical_map c)) ∧
      (∀ cl b, (∃ w ∈ gicv3_send_sgi_list_loop env sgi mask rounds cpu,
          w.cluster_id = cl ∧ w.tlist.testBit b = true) ↔
        (∃ c, cpu ≤ c ∧ c < env.nr_cpu_ids ∧ mask.testBit c = true ∧
          env.cluster_id_of (env.cpu_logical_map c) = cl ∧
          env.cpu_logical_map c &&& 0xf = b)) := by
  induction rounds with
  | zero =>
    intro cpu _ hfuel
    unfold gicv3_send_sgi_list_loop
    refine ⟨fun w hw => absurd hw (List.not_mem_nil w), fun cl b => ?_⟩
    constructor
    · rintro ⟨w, hw, _⟩
      exact absurd hw (List.not_mem_nil w)
    · rintro ⟨c, h1, h2, _⟩
      omega
  | succ n ih =>
    intro cpu hpre hfuel
    unfold gicv3_send_sgi_list_loop
    by_cases hcpu : cpu < env.nr_cpu_ids
    · rw [if_pos hcpu]
      have hbit : mask.testBit cpu = true := by
        rcases hpre with h | h
        · omega
        · exact h
      obtain ⟨a1, a2, a3, a4, a5, a6⟩ := compute_target_list_spec env mask cpu hcpu hbit
      have hnext := cpumask_next_spec env (gicv3_compute_target_list env cpu mask
        (env.cluster_id_of (env.cpu_logical_map cpu))).1 mask
      have hgt : (gicv3_compute_target_list env cpu mask
            (env.cluster_id_of (env.cpu_logical_map cpu))).1 <
          cpumask_next env (gicv3_compute_target_list env cpu mask
            (env.cluster_id_of (env.cpu_logical_map cpu))).1 mask ∧
          cpumask_next env (gicv3_compute_target_list env cpu mask
            (env.cluster_id_of (env.cpu_logical_map cpu))).1 mask ≤ env.nr_cpu_ids := by
        rcases hnext with h | h
        · exact h
        · omega
      have hpre2 : env.nr_cpu_ids ≤ cpumask_next env (gicv3_compute_target_list env cpu mask
            (env.cluster_id_of (env.cpu_logical_map cpu))).1 mask ∨
          mask.testBit (cpumask_next env (gicv3_compute_target_list env cpu mask
            (env.cluster_id_of (env.cpu_logical_map cpu))).1 mask) = true := by
        by_cases h : cpumask_next env (gicv3_compute_target_list env cpu mask
            (env.cluster_id_of (env.cpu_logical_map cpu))).1 mask < env.nr_cpu_ids
        · exact Or.inr ((cpumask_next_gap env _ mask).2 h)
        · exact Or.inl (by omega)
      obtain ⟨i1, i2⟩ := ih _ hpre2 (by omega)
      simp only []
      refine ⟨?_, ?_⟩
      · intro w hw
        rcases List.mem_cons.mp hw with h | h
        · subst h
          exact ⟨a3, rfl, cpu, Nat.le_refl _, hcpu, hbit, rfl⟩
        · obtain ⟨w1, w2, c, hc1, hc2, hc3, hc4⟩ := i1 w h
          exact ⟨w1, w2, c, by omega, hc2, hc3, hc4⟩
      · intro cl b
        constructor
        · rintro ⟨w, hw, hwc, hwb⟩
          rcases List.mem_cons.mp hw with h | h
          · subst h
            obtain ⟨c, hc1, hc2, hc3, hc4⟩ := (a4 b).mp hwb
            exact ⟨c, hc1, by omega, hc3, (a5 c hc1 hc2 hc3).trans hwc, hc4⟩
          · obtain ⟨c, hc1, hc2, hc3, hc4, hc5⟩ := (i2 cl b).mp ⟨w, h, hwc, hwb⟩
            exact ⟨c, by omega, hc2, hc3, hc4, hc5⟩
        · rintro ⟨c, hc1, hc2, hc3, hc4, hc5⟩
          by_cases hc : c ≤ (gicv3_compute_target_list env cpu mask
              (env.cluster_id_of (env.cpu_logical_map cpu))).1
          · exact ⟨_, List.mem_cons_self _ _, (a5 c hc1 hc hc3).symm.trans hc4,
              (a4 b).mpr ⟨c, hc1, hc, hc3, hc5⟩⟩
          · have hge : cpumask_next env (gicv3_compute_target_list env cpu mask
                (env.cluster_id_of (env.cpu_logical_map cpu))).1 mask ≤ c := by
              by_contra hlt
              have := a6 c (by omega) (by omega) hc2
              rw [hc3] at this; cases this
            obtain ⟨w, hw, hw1, hw2⟩ := (i2 cl b).mpr ⟨c, hge, hc2, hc3, hc4, hc5⟩
            exact ⟨w, List.mem_cons_of_mem _ hw, hw1, hw2⟩
    · rw [if_neg hcpu]
      refine ⟨fun w hw => absurd hw (List.not_mem_nil w), fun cl b => ?_⟩
      constructor
      · rintro ⟨w, hw, _⟩
        exact absurd hw (List.not_mem_nil w)
      · rintro ⟨c, h1, h2, _⟩
        omega

theorem sgi_val_fields (a3 a2 a1 sgi tlist : Nat) (h3 : a3 < 256) (h2 : a2 < 256)
    (h1 : a1 < 256) (hs : sgi < 16) (ht : tlist < 2 ^ 16) :
    ((a3 <<< 48) ||| (a2 <<< 32) ||| (sgi <<< 24) ||| (a1 <<< 16) ||| tlist) % 2 ^ 64 =
      a3 * 2 ^ 48 + a2 * 2 ^ 32 + sgi * 2 ^ 24 + a1 * 2 ^ 16 + tlist := by
  rw [Nat.or_assoc, Nat.or_assoc, Nat.or_assoc, shl_or_eq_add a1 tlist 16 ht,
    shl_or_eq_add sgi _ 24 (by omega), shl_or_eq_add a2 _ 32 (by omega),
    shl_or_eq_add a3 _ 48 (by omega)]
  omega

/-- C22: the target encoding of `gicv3_send_sgi_list`. For a signal number below 16 and a
non-empty target set in which every CPU has its affinity-level-0 identifier (the lower 8
bits of its `cpu_logical_map` value) below 16, with affinity levels that are 8-bit values:
at least one write is made; every write is built for the cluster of a CPU of the set and
carries that cluster's affinity levels 3, 2 and 1 in bits 48-55, 32-39 and 16-23, the
signal number in bits 24-27 and a 16-bit member bitmap in bits 0-15; and the pairs of a
cluster and a member bit selected over all writes are exactly the pairs of cluster and
affinity-level-0 identifier of the CPUs of the set. -/
theorem gicv3_send_sgi_list_targets (env : sgi_env) (sgi mask : Nat) (hsgi : sgi < 16)
    (haff : ∀ m l, env.affinity_level m l < 256)
    (hne : ∃ c, c < env.nr_cpu_ids ∧ mask.testBit c = true)
    (h16 : ∀ c, c < env.nr_cpu_ids → mask.testBit c = true →
      env.cpu_logical_map c &&& 0xff < 16) :
    gicv3_send_sgi_list env sgi mask ≠ [] ∧
    (∀ w ∈ gicv3_send_sgi_list env sgi mask,
      (∃ c, c < env.nr_cpu_ids ∧ mask.testBit c = true ∧
        w.cluster_id = env.cluster_id_of (env.cpu_logical_map c)) ∧
      w.val < 2 ^ 64 ∧ w.tlist < 2 ^ 16 ∧
      w.val &&& 0xffff = w.tlist ∧
      (w.val >>> 24) &&& 0xf = sgi ∧
      (w.val >>> 16) &&& 0xff = env.affinity_level w.cluster_id 1 ∧
      (w.val >>> 32) &&& 0xff = env.affinity_level w.cluster_id 2 ∧
      (w.val >>> 48) &&& 0xff = env.affinity_level w.cluster_id 3) ∧
    (∀ cl b, (∃ w ∈ gicv3_send_sgi_list env sgi mask,
        w.cluster_id = cl ∧ w.tlist.testBit b = true) ↔
      (∃ c, c < env.nr_cpu_ids ∧ mask.testBit c = true ∧
        env.cluster_id_of (env.cpu_logical_map c) = cl ∧
        env.cpu_logical_map c &&& 0xff = b)) := by
  have hfirst : env.nr_cpu_ids ≤ cpumask_first env mask ∨
      mask.testBit (cpumask_first env mask) = true := by
    unfold cpumask_first
    by_cases h : find_next_bit mask env.nr_cpu_ids 0 < env.nr_cpu_ids
    · exact Or.inr (find_next_bit_lt h).2.1
    · exact Or.inl (by omega)
  have hbelow : ∀ c, c < env.nr_cpu_ids → mask.testBit c = true →
      cpumask_first env mask ≤ c := by
    intro c hc hb
    show find_next_bit mask env.nr_cpu_ids 0 ≤ c
    by_contra hlt
    by_cases hlt2 : find_next_bit mask env.nr_cpu_ids 0 < env.nr_cpu_ids
    · have := (find_next_bit_lt hlt2).2.2 c (Nat.zero_le c) (by omega)
      rw [hb] at this; cases this
    · have := find_next_bit_ge (Nat.le_of_not_lt hlt2) c (Nat.zero_le c) hc
      rw [hb] at this; cases this
  obtain ⟨s1, s2⟩ := send_sgi_list_loop_spec env sgi mask env.nr_cpu_ids
    (cpumask_first env mask) hfirst (by omega)
  have hlow : ∀ m : Nat, m &&& 0xff < 16 → m &&& 0xf = m &&& 0xff := by
    intro m hm
    have e4 : m &&& 0xf = m % 16 := Nat.and_pow_two_sub_one_eq_mod m 4
    rw [and_mask8] at hm ⊢
    rw [e4]
    omega
  have hset : ∀ cl b, (∃ w ∈ gicv3_send_sgi_list env sgi mask,
        w.cluster_id = cl ∧ w.tlist.testBit b = true) ↔
      (∃ c, c < env.nr_cpu_ids ∧ mask.testBit c = true ∧
        env.cluster_id_of (env.cpu_logical_map c) = cl ∧
        env.cpu_logical_map c &&& 0xff = b) := by
    intro cl b
    unfold gicv3_send_sgi_list
    rw [s2 cl b]
    constructor
    · rintro ⟨c, _, hc2, hc3, hc4, hc5⟩
      exact ⟨c, hc2, hc3, hc4, by rw [← hlow _ (h16 c hc2 hc3)]; exact hc5⟩
    · rintro ⟨c, hc2, hc3, hc4, hc5⟩
      exact ⟨c, hbelow c hc2 hc3, hc2, hc3, hc4, by rw [hlow _ (h16 c hc2 hc3)]; exact hc5⟩
  refine ⟨?_, ?_, hset⟩
  · obtain ⟨c, hc1, hc2⟩ := hne
    obtain ⟨w, hw, _⟩ := (hset _ _).mpr ⟨c, hc1, hc2, rfl, rfl⟩
    intro hnil
    rw [hnil] at hw
    exact absurd hw (List.not_mem_nil w)
  · intro w hw
    unfold gicv3_send_sgi_list at hw
    obtain ⟨w1, w2, c, _, hc2, hc3, hc4⟩ := s1 w hw
    have hv : w.val = env.affinity_level w.cluster_id 3 * 2 ^ 48 +
        env.affinity_level w.cluster_id 2 * 2 ^ 32 + sgi * 2 ^ 24 +
        env.affinity_level w.cluster_id 1 * 2 ^ 16 + w.tlist := by
      rw [w2]
      unfold gicv3_sgi_val
      exact sgi_val_fields _ _ _ _ _ (haff _ _) (haff _ _) (haff _ _) hsgi w1
    have e4 : ∀ x : Nat, x &&& 0xf = x % 16 := fun x => Nat.and_pow_two_sub_one_eq_mod x 4
    have b3 := haff w.cluster_id 3
    have b2 := haff w.cluster_id 2
    have b1 := haff w.cluster_id 1
    have hw1 : w.tlist < 65536 := w1
    refine ⟨⟨c, hc2, hc3, hc4⟩, ?_, w1, ?_, ?_, ?_, ?_, ?_⟩
    · rw [hv]; omega
    · rw [and_mask16, hv]; omega
    · rw [e4, Nat.shiftRight_eq_div_pow, hv]; omega
    · rw [and_mask8, Nat.shiftRight_eq_div_pow, hv]; omega
    · rw [and_mask8, Nat.shiftRight_eq_div_pow, hv]; omega
    · rw [and_mask8, Nat.shiftRight_eq_div_pow, hv]; omega

/-- Signal 1 to the CPUs 1, 2, 4 and 5 of `two_cluster_env` (the set `0b110110`): two
writes, the first for cluster 0 with the members 1 and 2, the second for cluster 1
(cluster id `0x100`) with the members 0 and 1. -/
theorem gicv3_send_sgi_list_targets_witness :
    gicv3_send_sgi_list two_cluster_env 1 0x36 =
      [{ cluster_id := 0, tlist := 0x6, val := 0x1000006 },
       { cluster_id := 0x100, tlist := 0x3, val := 0x1010003 }] ∧
    (∀ w ∈ gicv3_send_sgi_list two_cluster_env 1 0x36, (w.val >>> 24) &&& 0xf = 1) ∧
    (∀ cl b, (∃ w ∈ gicv3_send_sgi_list two_cluster_env 1 0x36,
        w.cluster_id = cl ∧ w.tlist.testBit b = true) ↔
      (∃ c, c < 8 ∧ (0x36 : Nat).testBit c = true ∧
        two_cluster_env.cluster_id_of (two_cluster_env.cpu_logical_map c) = cl ∧
        two_cluster_env.cpu_logical_map c &&& 0xff = b)) :=
  have h := gicv3_send_sgi_list_targets two_cluster_env 1 0x36 (by decide)
    (fun m l => Nat.and_lt_two_pow _ (by decide : 0xff < 2 ^ 8))
    ⟨1, by decide, by decide⟩
    (fun c _ _ => by
      show ((c / 4) * 256 + c % 4) &&& 0xff < 16
      rw [and_mask8]
      omega)
  ⟨by decide!, fun w hw => (h.2.1 w hw).2.2.2.2.1, h.2.2⟩

/-! ## The overflow list holds no `VISIBLE` record -/

theorem lr_pending_ok_add (s : gic_state) (n : Nat) (hnd : s.lr_pending.Nodup)
    (hnv : lr_pending_not_visible s) (hvis : (s.pending_irqs n).status.visible = false) :
    (gic_add_to_lr_pending s n).lr_pending.Nodup ∧
    lr_pending_not_visible (gic_add_to_lr_pending s n) := by
  unfold gic_add_to_lr_pending
  by_cases hm : n ∈ s.lr_pending
  · rw [if_pos hm]; exact ⟨hnd, hnv⟩
  · rw [if_neg hm]
    refine ⟨lr_pending_insert_nodup _ _ _ hnd hm, ?_⟩
    intro k hk
    rcases (mem_lr_pending_insert _ n s.lr_pending k).mp hk with h | h
    · subst h; exact hvis
    · exact hnv k h

theorem lr_pending_ok_raise (s : gic_state) (cur : Bool) (virtual_irq priority : Nat)
    (hnd : s.lr_pending.Nodup) (hnv : lr_pending_not_visible s)
    (hvis : (s.pending_irqs virtual_irq).status.visible = false) :
    ∃ s', gic_raise_guest_irq s cur virtual_irq priority = some s' ∧ s'.lr_pending.Nodup ∧
      lr_pending_not_visible s' := by
  rcases raise_guest_irq_cases s cur virtual_irq priority with hc | ⟨i, hi, _, hl, hc⟩
  · rw [hc]
    exact ⟨_, rfl, lr_pending_ok_add s virtual_irq hnd hnv hvis⟩
  · obtain ⟨s', hs', _, _, _, e4, _⟩ :=
      gic_set_lr_frame { s with lr_mask := set_bit i s.lr_mask } i virtual_irq
        GICH_LR_PENDING hi
    rw [hc, hs']
    have he : s'.lr_pending = [] := e4.trans hl
    refine ⟨s', rfl, by rw [he]; exact List.nodup_nil, ?_⟩
    intro k hk
    rw [he] at hk
    exact absurd hk (List.not_mem_nil k)

theorem update_one_lr_still_in_slot_lr_pending (s : gic_state) (cur : Bool) (i : Nat)
    (lr_val : gic_lr) (hread : gicv3_read_lr s (i : Int) = some lr_val)
    (hst : lr_val.state &&& GICH_LR_ACTIVE ≠ 0 ∨ lr_val.state &&& GICH_LR_PENDING ≠ 0) :
    ∃ s', gic_update_one_lr s cur i = some s' ∧ s'.lr_pending = s.lr_pending ∧
      (∀ k, (s'.pending_irqs k).status.visible = (s.pending_irqs k).status.visible) := by
  obtain ⟨h15, _⟩ := read_lr_some hread
  have hrec : ∀ (r : pending_irq) (k : Nat),
      r.status.visible = (s.pending_irqs lr_val.virq).status.visible →
      (Function.update s.pending_irqs lr_val.virq r k).status.visible =
          (s.pending_irqs k).status.visible := by
    intro r k e1
    by_cases hk : k = lr_val.virq
    · subst hk; simp only [Function.update_same]; exact e1
    · rw [Function.update_noteq hk]
  unfold gic_update_one_lr
  rw [hread]
  simp only []
  by_cases hact : lr_val.state &&& GICH_LR_ACTIVE ≠ 0
  · rw [if_pos hact]
    split
    · split
      · unfold gicv3_write_lr
        rw [ich_write_lr_eq _ _ _ h15]
        exact ⟨_, rfl, rfl, fun k => hrec _ k rfl⟩
      · exact ⟨_, rfl, rfl, fun k => hrec _ k rfl⟩
    · exact ⟨_, rfl, rfl, fun k => hrec _ k rfl⟩
  · rw [if_neg hact]
    have hp : lr_val.state &&& GICH_LR_PENDING ≠ 0 := by
      rcases hst with h | h
      · exact absurd h hact
      · exact h
    rw [if_pos hp]
    exact ⟨_, rfl, rfl, fun k => hrec _ k rfl⟩

theorem retired_slot_state_visible (s : gic_state) (i irq : Nat) (h15 : i ≤ 15) :
    ((retired_slot_state s i irq).pending_irqs irq).status.visible = false ∧
    (∀ k, ((retired_slot_state s i irq).pending_irqs k).status.visible = true →
      (s.pending_irqs k).status.visible = true) := by
  rw [retired_slot_state_eq s i irq h15]
  have hk : ∀ (t : gic_state), t.pending_irqs = s.pending_irqs →
      ((set_pending t irq
        { s.pending_irqs irq with
          status := { (s.pending_irqs irq).status with visible := false, active := false }
          lr := GIC_INVALID_LR }).pending_irqs irq).status.visible = false ∧
      (∀ k, ((set_pending t irq
        { s.pending_irqs irq with
          status := { (s.pending_irqs irq).status with visible := false, active := false }
          lr := GIC_INVALID_LR }).pending_irqs k).status.visible = true →
        (s.pending_irqs k).status.visible = true) := by
    intro t ht
    unfold set_pending
    rw [ht]
    refine ⟨by simp only [Function.update_same], ?_⟩
    intro k
    by_cases hk : k = irq
    · subst hk
      simp only [Function.update_same]
      intro hf
      exact absurd hf Bool.false_ne_true
    · simp only []
      rw [Function.update_noteq hk]
      exact fun h => h
  cases hd : (s.pending_irqs irq).desc with
  | none => exact hk _ rfl
  | some d0 => exact hk _ rfl

theorem lr_pending_ok_update_one_lr (s : gic_state) (cur : Bool) (i : Nat) (lr_val : gic_lr)
    (hread : gicv3_read_lr s (i : Int) = some lr_val)
    (hnd : s.lr_pending.Nodup) (hnv : lr_pending_not_visible s) :
    ∃ s', gic_update_one_lr s cur i = some s' ∧ s'.lr_pending.Nodup ∧
      lr_pending_not_visible s' ∧ s'.nr_lrs = s.nr_lrs := by
  obtain ⟨h15, _⟩ := read_lr_some hread
  by_cases hst : lr_val.state &&& GICH_LR_ACTIVE ≠ 0 ∨ lr_val.state &&& GICH_LR_PENDING ≠ 0
  · obtain ⟨s', h1, h2, h3⟩ := update_one_lr_still_in_slot_lr_pending s cur i lr_val hread hst
    obtain ⟨s2, g1, g2, _⟩ := update_one_lr_still_in_slot s cur i lr_val hread hst
    rw [h1] at g1
    cases g1
    refine ⟨s', h1, by rw [h2]; exact hnd, ?_, g2⟩
    intro k hk
    rw [h2] at hk
    rw [h3 k]
    exact hnv k hk
  · have hact : lr_val.state &&& GICH_LR_ACTIVE = 0 := by
      by_contra hne; exact hst (Or.inl hne)
    have hpend : lr_val.state &&& GICH_LR_PENDING = 0 := by
      by_contra hne; exact hst (Or.inr hne)
    obtain ⟨_, _, _, r4, _, _, _⟩ := retired_slot_state_migration s i lr_val.virq h15
    obtain ⟨v1, v2⟩ := retired_slot_state_visible s i lr_val.virq h15
    have hnr : (retired_slot_state s i lr_val.virq).nr_lrs = s.nr_lrs := by
      rw [retired_slot_state_eq s i lr_val.virq h15]
      cases (s.pending_irqs lr_val.virq).desc <;> rfl
    have hnd4 : (retired_slot_state s i lr_val.virq).lr_pending.Nodup := by
      rw [r4]; exact hnd
    have hnv4 : lr_pending_not_visible (retired_slot_state s i lr_val.virq) := by
      intro k hk
      rw [r4] at hk
      cases hv : ((retired_slot_state s i lr_val.virq).pending_irqs k).status.visible with
      | false => rfl
      | true =>
        have := v2 k hv
        rw [hnv k hk] at this
        cases this
    rw [update_one_lr_retired_unfold s cur i lr_val hread hact hpend]
    split
    · obtain ⟨s', g1, g2, g3⟩ := lr_pending_ok_raise (retired_slot_state s i lr_val.virq) cur
        lr_val.virq (s.pending_irqs lr_val.virq).priority hnd4 hnv4 v1
      obtain ⟨s2, f1, f2, _⟩ := raise_guest_irq_frame (retired_slot_state s i lr_val.virq) cur
        lr_val.virq (s.pending_irqs lr_val.virq).priority
      rw [g1] at f1
      cases f1
      exact ⟨s', g1, g2, g3, f2.trans hnr⟩
    · simp only []
      split
      · refine ⟨_, rfl, ?_, ?_, ?_⟩
        · cases (s.pending_irqs lr_val.virq).desc <;>
            (simp only [irq_set_affinity, set_pending]; exact hnd4)
        · intro k hk
          have hk' : k ∈ (retired_slot_state s i lr_val.virq).lr_pending := by
            cases hd : (s.pending_irqs lr_val.virq).desc <;>
              (rw [hd] at hk; simpa [irq_set_affinity, set_pending] using hk)
          have hvk := hnv4 k hk'
          cases hd : (s.pending_irqs lr_val.virq).desc <;>
            (simp only [irq_set_affinity, set_pending]
             by_cases hkv : k = lr_val.virq
             · subst hkv; simp only [Function.update_same]; exact v1
             · rw [Function.update_noteq hkv]; exact hvk)
        · cases (s.pending_irqs lr_val.virq).desc <;>
            (simp only [irq_set_affinity, set_pending]; exact hnr)
      · exact ⟨_, rfl, hnd4, hnv4, hnr⟩

theorem lr_pending_ok_clear_lrs_loop (cur : Bool) (rounds : Nat) :
    ∀ (i : Nat) (s : gic_state), s.lr_pending.Nodup → lr_pending_not_visible s →
      s.nr_lrs ≤ 16 → s.nr_lrs ≤ rounds + i →
      ∃ s', gic_clear_lrs_loop cur rounds i s = some s' ∧ s'.lr_pending.Nodup ∧
        lr_pending_not_visible s' := by
  induction rounds with
  | zero =>
    intro i s hnd hnv _ hr
    unfold gic_clear_lrs_loop
    rw [if_neg (find_next_bit_ge_size (by omega))]
    exact ⟨s, rfl, hnd, hnv⟩
  | succ n ih =>
    intro i s hnd hnv hN hr
    unfold gic_clear_lrs_loop
    simp only []
    by_cases hlt : find_next_bit s.lr_mask s.nr_lrs i < s.nr_lrs
    · rw [if_pos hlt]
      obtain ⟨hge, _, _⟩ := find_next_bit_lt hlt
      obtain ⟨s1, h1, h2, h3, h5⟩ :=
        lr_pending_ok_update_one_lr s cur (find_next_bit s.lr_mask s.nr_lrs i) _
          (read_lr_eq s (find_next_bit s.lr_mask s.nr_lrs i) (by omega)) hnd hnv
      rw [h1]
      simp only []
      exact ih _ s1 h2 h3 (by rw [h5]; exact hN) (by rw [h5]; omega)
    · rw [if_neg hlt]
      exact ⟨s, rfl, hnd, hnv⟩

theorem lr_pending_ok_clear_lrs (s : gic_state) (cur idle : Bool)
    (hnd : s.lr_pending.Nodup) (hnv : lr_pending_not_visible s) (hN : s.nr_lrs ≤ 16) :
    ∃ s', gic_clear_lrs s cur idle = some s' ∧ s'.lr_pending.Nodup ∧
      lr_pending_not_visible s' := by
  unfold gic_clear_lrs
  split
  · exact ⟨s, rfl, hnd, hnv⟩
  · have hst : gicv3_hcr_status s GICH_HCR_UIE false =
        { s with ich_hcr := s.ich_hcr &&& (0xffffffff ^^^ GICH_HCR_UIE) } := by
      unfold gicv3_hcr_status; simp
    rw [hst]
    exact lr_pending_ok_clear_lrs_loop cur s.nr_lrs 0 _ hnd hnv hN (by simp)

theorem lr_pending_ok_restore_loop (lrs : Nat) :
    ∀ (s : gic_state) (p lr : Nat) (ir : Option Nat), slot_exclusive s →
      lr_pending_not_visible s → s.lr_pending.Nodup → p ∈ s.lr_pending →
      ∀ s', (gic_restore_loop lrs s p lr ir).2 = some s' →
        s'.lr_pending.Nodup ∧ lr_pending_not_visible s' := by
  induction lrs with
  | zero =>
    intro s p lr ir _ hnv hnd _ s' hs'
    unfold gic_restore_loop at hs'
    cases hround : gic_restore_round s p lr ir with
    | stop log r =>
      rw [hround] at hs'
      rw [gic_restore_round_stop hround s' hs']
      exact ⟨hnd, hnv⟩
    | next log s1 lr1 ir1 =>
      rw [hround] at hs'
      cases hs'
  | succ n ih =>
    intro s p lr ir h hnv hnd hp s' hs'
    unfold gic_restore_loop at hs'
    cases hround : gic_restore_round s p lr ir with
    | stop log r =>
      rw [hround] at hs'
      rw [gic_restore_round_stop hround s' hs']
      exact ⟨hnd, hnv⟩
    | next log s1 lr1 ir1 =>
      rw [hround] at hs'
      obtain ⟨r1, r2, r3, r4, _⟩ := gic_restore_round_next hround h hnv hnd hp
      simp only [] at hs'
      split at hs'
      · cases hs'; exact ⟨r3, r2⟩
      · split at hs'
        · cases hs'; exact ⟨r3, r2⟩
        · rename_i t1 ht
          obtain ⟨m1, m2⟩ := list_next_mem ht hnd
          exact ih s1 t1 lr1 ir1 r1 r2 r3 (r4 t1 m1 m2) s' hs'

theorem lr_pending_ok_restore_pending_irqs (s : gic_state) (h : slot_exclusive s)
    (hnv : lr_pending_not_visible s) (hnd : s.lr_pending.Nodup) :
    ∀ s', gic_restore_pending_irqs s = some s' →
      s'.lr_pending.Nodup ∧ lr_pending_not_visible s' := by
  intro s' hs'
  unfold gic_restore_pending_irqs gic_restore_pending_irqs_run at hs'
  split at hs'
  · cases hs'; exact ⟨hnd, hnv⟩
  · rename_i p rest hl
    exact lr_pending_ok_restore_loop _ s p 0 none h hnv hnd
      (by rw [hl]; exact List.mem_cons_self _ _) s' hs'

/-! ## Slot exclusivity is an invariant -/

end XenGic
